import Mathlib

/-!
# Verification of the discord message renderer (`src/index.ts`)

This file gives a shallow embedding of the renderer's core functions:
the markdown/emoji/link transformer `parseMarkdown`, the attachment grid
generator `generateAttachmentsHTML`, the file-size formatter
`formatFileSize`, the timestamp formatter `formatDiscordTimestamp`, the
identity resolvers `extractUserInfo` / `extractReplyUserInfo`, and the
input guard of `render`.  Strings are modelled as `List Char` (Unicode
scalar values, matching the `u`-flagged JavaScript regexes' code-point
view).  JavaScript's global regex replaces are modelled by the `gsubF`
combinator below: the subject is scanned left to right, at each position
a (deterministic, backtracking-faithful) matcher is attempted, and on a
match the replacement is emitted and scanning resumes after the match.
-/

namespace DiscordRender

/-- The double-quote character (written out to keep string literals simple). -/
def quoteC : Char := Char.ofNat 34

/-- The apostrophe character. -/
def aposC : Char := Char.ofNat 39

/-- ASCII whitespace recognised by JavaScript's `\s` and `String.trim`
(the model restricts to the ASCII subset, which is the only whitespace the
claims exercise). -/
def isJsSpace (c : Char) : Bool :=
  c = ' ' || c = '\t' || c = '\n' || c = '\r' || c = '\x0b' || c = '\x0c'

/-- Whitespace inside a single line (for `\s` in the `/m` line patterns). -/
def isLineWs (c : Char) : Bool :=
  c = ' ' || c = '\t' || c = '\r' || c = '\x0b' || c = '\x0c'

/-- Model of JavaScript `String.prototype.trim`. -/
def jsTrim (s : List Char) : List Char :=
  ((s.dropWhile isJsSpace).reverse.dropWhile isJsSpace).reverse

def isAsciiDigit (c : Char) : Bool := '0' ≤ c && c ≤ '9'

def isAsciiAlpha (c : Char) : Bool := ('a' ≤ c && c ≤ 'z') || ('A' ≤ c && c ≤ 'Z')

def isAlnum (c : Char) : Bool := isAsciiDigit c || isAsciiAlpha c

/-- Lower-case an ASCII letter (for the `i` regex flag). -/
def lowerA (c : Char) : Char :=
  if 'A' ≤ c && c ≤ 'Z' then Char.ofNat (c.toNat + 32) else c

/-- Upper-case an ASCII letter (for `String.prototype.toUpperCase`). -/
def upperA (c : Char) : Char :=
  if 'a' ≤ c && c ≤ 'z' then Char.ofNat (c.toNat - 32) else c

def upperL (s : List Char) : List Char := s.map upperA

def strL (s : String) : List Char := s.toList

/-- `startsL pat s` : does `s` start with `pat`? -/
def startsL : List Char → List Char → Bool
  | [], _ => true
  | _ :: _, [] => false
  | p :: ps, c :: cs => p = c && startsL ps cs

/-- Case-insensitive `startsL` (the pattern is given lower-case). -/
def startsCIL : List Char → List Char → Bool
  | [], _ => true
  | _ :: _, [] => false
  | p :: ps, c :: cs => p = lowerA c && startsCIL ps cs

/-- Is `pat` a contiguous substring of `s`? -/
def hasSub (pat : List Char) : List Char → Bool
  | [] => startsL pat []
  | c :: cs => startsL pat (c :: cs) || hasSub pat cs

/-- Index of the first occurrence of `pat` in `s`. -/
def findSub (pat : List Char) : List Char → Option Nat
  | [] => if startsL pat [] then some 0 else none
  | c :: cs =>
    if startsL pat (c :: cs) then some 0
    else (findSub pat cs).map (· + 1)

/-- Concatenate the images of the characters (used for the per-character
rewriting passes). -/
def mapConcat (f : Char → List Char) : List Char → List Char
  | [] => []
  | c :: cs => f c ++ mapConcat f cs

/-- `escapeHtml`, character view.  The source chains five global
replaces (`&`, `<`, `>`, `"`, `'` in that order); since no replacement
text contains a character rewritten by a later pass, the chain is the
per-character map below. -/
def escChar (c : Char) : List Char :=
  if c = '&' then strL "&amp;"
  else if c = '<' then strL "&lt;"
  else if c = '>' then strL "&gt;"
  else if c = quoteC then strL "&quot;"
  else if c = aposC then strL "&#39;"
  else [c]

def escapeHtmlL (s : List Char) : List Char := mapConcat escChar s

/-- `escapeHtml` on Lean strings. -/
def escapeHtml (s : String) : String := String.mk (escapeHtmlL s.toList)

/-- Lower-case hex digits, as produced by `Number.prototype.toString(16)`. -/
def hexDigit (n : Nat) : Char :=
  if n < 10 then Char.ofNat (48 + n) else Char.ofNat (87 + n)

def hexStrAux : Nat → Nat → List Char
  | 0, _ => []
  | fuel + 1, n => if n < 16 then [hexDigit n] else hexStrAux fuel (n / 16) ++ [hexDigit (n % 16)]

/-- `n.toString(16)` for natural `n` (lower-case). -/
def hexStr (n : Nat) : List Char := hexStrAux (n + 1) n

/-- `color.toString(16).padStart(6, "0")`. -/
def padHex6 (n : Nat) : List Char :=
  let h := hexStr n
  List.replicate (6 - h.length) '0' ++ h

/-- Decimal digits of a natural number. -/
def natStr (n : Nat) : List Char := strL (toString n)

/-- `n.toString().padStart(2, "0")` — the `pad` helper of
`formatDiscordTimestamp`. -/
def pad2 (n : Nat) : List Char :=
  let s := natStr n
  List.replicate (2 - s.length) '0' ++ s

/-! ## The global-replace combinator -/

/-- One attempted match of a global regex replace at the current scan
position.  `atStart` is true only at position 0 of the subject (where `^`
can match).  On success, returns `(pfx, body, n)`: the copied prefix
characters (the `(^|[^"=])` group, re-emitted verbatim), the replacement
body, and the total number of consumed subject characters (`n ≥ 1` for
every matcher below). -/
def GsubStep : Type := Bool → List Char → Option (List Char × List Char × Nat)

/-- Left-to-right scan of a JavaScript `String.replace` with a `g`-flagged
regex: at each position the matcher is attempted; on a match the
replacement is emitted and scanning resumes after the consumed characters,
otherwise the current character is copied.  `fuel` bounds the number of
scan positions; `fuel = s.length` always suffices since every step
advances by at least one character. -/
def gsubF (step : GsubStep) : Nat → Bool → List Char → List Char
  | 0, _, s => s
  | fuel + 1, atStart, s =>
    match step atStart s with
    | some (pfx, body, n) =>
      if n = 0 then
        match s with
        | [] => []
        | c :: rest => c :: gsubF step fuel false rest
      else pfx ++ body ++ gsubF step fuel false (s.drop n)
    | none =>
      match s with
      | [] => []
      | c :: rest => c :: gsubF step fuel false rest

def gsub (step : GsubStep) (s : List Char) : List Char := gsubF step s.length true s

/-! ## URL recognisers

The four media passes use the `i` flag (case-insensitive scheme and host),
the generic pass does not. -/

/-- A character matched by `[^\s<>"]` (the URL body class). -/
def isUrlChar (c : Char) : Bool := !isJsSpace c && c ≠ '<' && c ≠ '>' && c ≠ quoteC

/-- `https?:\/\/` with the `i` flag; returns the number of consumed
characters. -/
def parseSchemeCI (s : List Char) : Option Nat :=
  if startsCIL (strL "https://") s then some 8
  else if startsCIL (strL "http://") s then some 7
  else none

/-- `https?:\/\/`, case-sensitive (generic-link pass, no `i` flag). -/
def parseSchemeCS (s : List Char) : Option Nat :=
  if startsL (strL "https://") s then some 8
  else if startsL (strL "http://") s then some 7
  else none

/-- The alternation `(png|jpg|jpeg|gif|webp|svg)`, case-insensitive, in
source order; returns the length of the first alternative that matches. -/
def tryExt : List (List Char) → List Char → Option Nat
  | [], _ => none
  | a :: rest, s => if startsCIL a s then some a.length else tryExt rest s

def extAlts : List (List Char) :=
  [strL "png", strL "jpg", strL "jpeg", strL "gif", strL "webp", strL "svg"]

/-- Backtracking search of the direct-media pattern
`[^\s<>"]+\.(png|…)(\?[^\s<>"]*)?` inside the maximal URL-character run
`R`: the greedy `[^\s<>"]+` picks the largest `k ≥ 1` such that
`R[k] = '.'` and an extension alternative matches at `k+1`.  Returns
`(k, extLen)` for that largest `k`. -/
def mediaSplitAux : List Char → Nat → Option (Nat × Nat) → Option (Nat × Nat)
  | [], _, best => best
  | c :: rest, k, best =>
    let best' :=
      if k ≥ 1 && c = '.' then
        match tryExt extAlts rest with
        | some e => some (k, e)
        | none => best
      else best
    mediaSplitAux rest (k + 1) best'

/-- Try the URL part of the direct-media pattern at the head of `s`.
Returns `(url, ext, consumed)` — the matched URL text (group 2), the
extension capture (group 3, in subject case) and the consumed length. -/
def tryMediaUrl (s : List Char) : Option (List Char × List Char × Nat) :=
  match parseSchemeCI s with
  | none => none
  | some sl =>
    let R := (s.drop sl).takeWhile isUrlChar
    match mediaSplitAux R 0 none with
    | none => none
    | some (k, e) =>
      let afterExt := k + 1 + e
      let tail := R.drop afterExt
      -- the optional greedy query `(\?[^\s<>"]*)?`: everything left in the
      -- run `R` is a URL character, so a present `?` consumes all of it
      let urlLen := if tail.headD ' ' = '?' then afterExt + tail.length else afterExt
      some (s.take sl ++ R.take urlLen, (R.drop (k + 1)).take e, sl + urlLen)

/-- URL part of the tenor / giphy patterns: scheme, a fixed
case-insensitive host/path literal, then at least one URL character
(greedy).  Returns the matched URL text and its length. -/
def tryLitUrl (lit : List Char) (s : List Char) : Option (List Char × Nat) :=
  match parseSchemeCI s with
  | none => none
  | some sl =>
    let rest := s.drop sl
    if startsCIL lit rest then
      let R := (rest.drop lit.length).takeWhile isUrlChar
      if R.length = 0 then none
      else
        let n := sl + lit.length + R.length
        some (s.take n, n)
    else none

/-- URL part of the imgur pattern
`https?:\/\/(?:i\.)?imgur\.com\/([a-zA-Z0-9]+)(?:\.[a-zA-Z]+)?`.
Returns `(url, id, consumed)`.  Note the pattern is not anchored on the
right: trailing URL characters after the optional extension stay in the
subject. -/
def tryImgurUrl (s : List Char) : Option (List Char × List Char × Nat) :=
  match parseSchemeCI s with
  | none => none
  | some sl =>
    let rest := s.drop sl
    let iLen := if startsCIL (strL "i.") rest then 2 else 0
    let rest2 := rest.drop iLen
    if startsCIL (strL "imgur.com/") rest2 then
      let idR := (rest2.drop 10).takeWhile isAlnum
      if idR = [] then none
      else
        let afterId := (rest2.drop 10).drop idR.length
        let aRun := (afterId.drop 1).takeWhile isAsciiAlpha
        let extLen := if afterId.headD ' ' = '.' && aRun ≠ [] then 1 + aRun.length else 0
        let n := sl + iLen + 10 + idR.length + extLen
        some (s.take n, idR, n)
    else none

/-- URL of the generic-link pass (`https?:\/\/[^\s<>"]+`, case-sensitive,
greedy). -/
def tryGenUrl (s : List Char) : Option (List Char × Nat) :=
  match parseSchemeCS s with
  | none => none
  | some sl =>
    let R := (s.drop sl).takeWhile isUrlChar
    if R.length = 0 then none else some (s.take (sl + R.length), sl + R.length)

/-! ## The URL-rewriting passes -/

/-- The sentinel comment appended by every media rewrite so that the
generic-link pass skips already-processed URLs. -/
def marker : List Char := strL "<!--PROCESSED_URL-->"

def mediaRepl (url ext : List Char) : List Char :=
  strL "<div class=\"direct-image-container\"><img class=\"direct-image\" src=\"" ++ url ++
  strL "\" alt=\"Image (" ++ upperL ext ++
  strL ")\" loading=\"eager\" crossorigin=\"anonymous\" /></div>" ++ marker

def stepMedia : GsubStep := fun atStart s =>
  match (if atStart then tryMediaUrl s else none) with
  | some (url, ext, n) => some ([], mediaRepl url ext, n)
  | none =>
    match s with
    | [] => none
    | c :: rest =>
      if c ≠ quoteC && c ≠ '=' then
        match tryMediaUrl rest with
        | some (url, ext, n) => some ([c], mediaRepl url ext, n + 1)
        | none => none
      else none

def tenorRepl (url : List Char) : List Char :=
  strL "<div class=\"direct-image-container\"><img class=\"direct-image tenor-gif\" src=\"" ++
  (url ++ strL ".gif") ++
  strL "\" alt=\"Tenor GIF\" loading=\"eager\" crossorigin=\"anonymous\" onerror=\"this.style.display=\x27none\x27; this.nextSibling.style.display=\x27inline\x27;\" /><a href=\"" ++
  url ++ strL "\" target=\"_blank\" rel=\"noopener noreferrer\" style=\"display: none; color: #00aff4;\">" ++
  url ++ strL "</a></div>" ++ marker

def stepTenor : GsubStep := fun atStart s =>
  match (if atStart then tryLitUrl (strL "tenor.com/view/") s else none) with
  | some (url, n) => some ([], tenorRepl url, n)
  | none =>
    match s with
    | [] => none
    | c :: rest =>
      if c ≠ quoteC && c ≠ '=' then
        match tryLitUrl (strL "tenor.com/view/") rest with
        | some (url, n) => some ([c], tenorRepl url, n + 1)
        | none => none
      else none

/-- Validate the tail after a `/gifs/` occurrence against
`(?:[^-]+-)*([a-zA-Z0-9]+)$`: every `-`-separated segment is non-empty and
the last one is alphanumeric; that last segment is the id capture. -/
def giphyValidate (tail : List Char) : Option (List Char) :=
  let segs := tail.splitOn '-'
  match segs.getLast? with
  | none => none
  | some last =>
    if segs.all (fun sg => decide (sg ≠ [])) && last.all isAlnum then some last else none

/-- `url.match(/\/gifs\/(?:[^-]+-)*([a-zA-Z0-9]+)$/)`: the leftmost
`\/gifs\/` occurrence whose tail validates yields the id. -/
def giphyScan : List Char → Option (List Char)
  | [] => none
  | c :: cs =>
    if startsL (strL "/gifs/") (c :: cs) then
      match giphyValidate ((c :: cs).drop 6) with
      | some id => some id
      | none => giphyScan cs
    else giphyScan cs

def giphyRepl (id url : List Char) : List Char :=
  strL "<div class=\"direct-image-container\"><img class=\"direct-image giphy-gif\" src=\"" ++
  (strL "https://media.giphy.com/media/" ++ id ++ strL "/giphy.gif") ++
  strL "\" alt=\"Giphy GIF\" loading=\"eager\" crossorigin=\"anonymous\" onerror=\"this.style.display=\x27none\x27; this.nextSibling.style.display=\x27inline\x27;\" /><a href=\"" ++
  url ++ strL "\" target=\"_blank\" rel=\"noopener noreferrer\" style=\"display: none; color: #00aff4;\">" ++
  url ++ strL "</a></div>" ++ marker

/-- On a giphy URL whose inner id match fails, the callback returns the
whole match unchanged (but the region is still consumed). -/
def giphyBody (url : List Char) : List Char :=
  match giphyScan url with
  | some id => giphyRepl id url
  | none => url

def stepGiphy : GsubStep := fun atStart s =>
  match (if atStart then tryLitUrl (strL "giphy.com/gifs/") s else none) with
  | some (url, n) => some ([], giphyBody url, n)
  | none =>
    match s with
    | [] => none
    | c :: rest =>
      if c ≠ quoteC && c ≠ '=' then
        match tryLitUrl (strL "giphy.com/gifs/") rest with
        | some (url, n) => some ([c], giphyBody url, n + 1)
        | none => none
      else none

def imgurRepl (id url : List Char) : List Char :=
  strL "<div class=\"direct-image-container\"><img class=\"direct-image imgur-gif\" src=\"" ++
  (strL "https://i.imgur.com/" ++ id ++ strL ".gif") ++
  strL "\" alt=\"Imgur Image\" loading=\"eager\" crossorigin=\"anonymous\" onerror=\"this.src=\x27https://i.imgur.com/" ++
  id ++
  strL ".jpg\x27; this.onerror=function()\x7bthis.style.display=\x27none\x27; this.nextSibling.style.display=\x27inline\x27;\x7d\" /><a href=\"" ++
  url ++ strL "\" target=\"_blank\" rel=\"noopener noreferrer\" style=\"display: none; color: #00aff4;\">" ++
  url ++ strL "</a></div>" ++ marker

def stepImgur : GsubStep := fun atStart s =>
  match (if atStart then tryImgurUrl s else none) with
  | some (url, id, n) => some ([], imgurRepl id url, n)
  | none =>
    match s with
    | [] => none
    | c :: rest =>
      if c ≠ quoteC && c ≠ '=' then
        match tryImgurUrl rest with
        | some (url, id, n) => some ([c], imgurRepl id url, n + 1)
        | none => none
      else none

/-- The negative lookahead `(?!.*<!--PROCESSED_URL-->)` of the generic
pass: true iff a marker occurrence starts before the first newline of
`s`.  (`.` does not match newlines.) -/
def markerAhead : List Char → Bool
  | [] => false
  | c :: cs =>
    if startsL marker (c :: cs) then true
    else if c = '\n' then false
    else markerAhead cs

def anchorRepl (url : List Char) : List Char :=
  strL "<a href=\"" ++ url ++ strL "\" target=\"_blank\" rel=\"noopener noreferrer\">" ++
  url ++ strL "</a>"

/-- Generic-link matcher.  If the lookahead fails for the maximal URL it
fails for every backtracked (shorter) one as well — the characters between
the shorter end and the marker are URL characters, hence not newlines —
so the whole position fails. -/
def stepGeneric : GsubStep := fun atStart s =>
  match (if atStart then tryGenUrl s else none) with
  | some (url, n) =>
    if markerAhead (s.drop n) then none else some ([], anchorRepl url, n)
  | none =>
    match s with
    | [] => none
    | c :: rest =>
      if c ≠ quoteC && c ≠ '=' then
        match tryGenUrl rest with
        | some (url, n) =>
          if markerAhead (rest.drop n) then none else some ([c], anchorRepl url, n + 1)
        | none => none
      else none

/-- `parsed.replace(/<!--PROCESSED_URL-->/g, "")`. -/
def stepStrip : GsubStep := fun _ s =>
  if startsL marker s then some ([], [], marker.length) else none

/-! ## Emoji handling -/

def inRange (lo hi v : Nat) : Bool := decide (lo ≤ v ∧ v ≤ hi)

/-- The pictographic code-point classes of both the emoji-only regex and
the Unicode-emoji rewriting pass (`u` flag: per code point). -/
def isEmojiChar (c : Char) : Bool :=
  let v := c.toNat
  inRange 0x1F600 0x1F64F v || inRange 0x1F300 0x1F5FF v || inRange 0x1F680 0x1F6FF v ||
  inRange 0x1F1E0 0x1F1FF v || inRange 0x2600 0x26FF v || inRange 0x2700 0x27BF v

/-- A raw (unescaped) custom-emoji tag `<a?:[^:]+:\d+>`, as consumed by the
emoji-only regex; returns the consumed length. -/
def parseRawCustom (s : List Char) : Option Nat :=
  match s with
  | '<' :: r =>
    let (aLen, r2) :=
      if startsL (strL "a:") r then (2, r.drop 2)
      else if startsL [':'] r then (1, r.drop 1)
      else (0, r)
    if aLen = 0 then none
    else
      let name := r2.takeWhile (fun c => c ≠ ':')
      if name = [] then none
      else
        let r3 := r2.drop (name.length + 1)
        let digits := r3.takeWhile isAsciiDigit
        if digits = [] then none
        else if startsL [':'] (r2.drop name.length) && startsL ['>'] (r3.drop digits.length) then
          some (1 + aLen + name.length + 1 + digits.length + 1)
        else none
  | _ => none

/-- The `(?:<a?:[^:]+:\d+>[\s]*)*$` suffix of the emoji-only regex. -/
def emojiOnlyTail : Nat → List Char → Bool
  | _, [] => true
  | 0, _ => false
  | fuel + 1, s =>
    match parseRawCustom s with
    | some n => emojiOnlyTail fuel ((s.drop n).dropWhile isJsSpace)
    | none => false

/-- `emojiOnlyRegex.test (content.trim())`: whitespace and pictographic
code points, followed by any number of custom-emoji tags each trailed by
whitespace. -/
def emojiOnlyTest (s : List Char) : Bool :=
  let r := s.dropWhile (fun c => isJsSpace c || isEmojiChar c)
  emojiOnlyTail r.length r

/-- Deletion of every custom-emoji marker, wherever it occurs (`fuel`
bounds the scan; the subject length suffices). -/
def stripCustomF : Nat → List Char → List Char
  | _, [] => []
  | 0, s => s
  | fuel + 1, c :: rest =>
    match parseRawCustom (c :: rest) with
    | some n => stripCustomF fuel ((c :: rest).drop n)
    | none => c :: stripCustomF fuel rest

/-- The claim-side, order-insensitive reading of "emoji-only, ignoring
custom-emoji markers and whitespace": after deleting every custom-emoji
marker, only whitespace and pictographic code points remain. -/
def emojiOnlySpecTest (s : List Char) : Bool :=
  (stripCustomF s.length s).all (fun c => isJsSpace c || isEmojiChar c)

/-- An escaped custom-emoji tag `&lt;(a?):([^:]+):(\d+)&gt;`; returns
`(animated, name, id, consumed)`. -/
def parseCustomEmoji (s : List Char) : Option (Bool × List Char × List Char × Nat) :=
  if startsL (strL "&lt;") s then
    let r := s.drop 4
    let (animated, aLen) :=
      if startsL (strL "a:") r then (true, 2)
      else if startsL [':'] r then (false, 1)
      else (false, 0)
    if aLen = 0 then none
    else
      let r2 := r.drop aLen
      let name := r2.takeWhile (fun c => c ≠ ':')
      if name = [] then none
      else if !startsL [':'] (r2.drop name.length) then none
      else
        let r3 := r2.drop (name.length + 1)
        let digits := r3.takeWhile isAsciiDigit
        if digits = [] then none
        else if startsL (strL "&gt;") (r3.drop digits.length) then
          some (animated, name, digits, 4 + aLen + name.length + 1 + digits.length + 4)
        else none
  else none

def customEmojiRepl (cls size : List Char) (animated : Bool) (name id : List Char) : List Char :=
  let ext := if animated then strL "gif" else strL "webp"
  strL "<img class=\"" ++ cls ++ strL "\" alt=\":" ++ escapeHtmlL name ++
  strL ":\" src=\"https://cdn.discordapp.com/emojis/" ++ id ++ strL "." ++ ext ++
  strL "?size=48\" style=\"width: " ++ size ++ strL "; height: " ++ size ++ strL ";\" />"

def stepCustom (cls size : List Char) : GsubStep := fun _ s =>
  match parseCustomEmoji s with
  | some (animated, name, id, n) => some ([], customEmojiRepl cls size animated name id, n)
  | none => none

/-- `getEmojiUrl`: twemoji asset URL from the first code point (`null`
when `codePointAt(0)` is falsy). -/
def getEmojiUrl (c : Char) : Option (List Char) :=
  if c.toNat = 0 then none
  else some (strL "https://cdn.jsdelivr.net/gh/twitter/twemoji@14.0.2/assets/72x72/" ++
             hexStr c.toNat ++ strL ".png")

/-- The per-character Unicode-emoji rewriting pass. -/
def uniEmojiSub (cls size : List Char) (c : Char) : List Char :=
  if isEmojiChar c then
    match getEmojiUrl c with
    | some u =>
      strL "<img class=\"" ++ cls ++ strL "\" alt=\"" ++ [c] ++ strL "\" src=\"" ++ u ++
      strL "\" style=\"width: " ++ size ++ strL "; height: " ++ size ++ strL ";\" />"
    | none => [c]
  else [c]

/-! ## Fenced code blocks -/

/-- Render one closed fence body, with the language-tag rule: a non-empty
first line without spaces and under 20 characters, followed by at least
one more line, becomes `data-language` metadata. -/
def renderCodeBlock (code : List Char) : List Char :=
  let lines := code.splitOn '\n'
  let firstLine := jsTrim (lines.headD [])
  let isLanguage := decide (firstLine ≠ []) && !firstLine.contains ' ' &&
                    decide (firstLine.length < 20)
  if isLanguage && decide (lines.length > 1) then
    strL "<pre class=\"code-block\" data-language=\"" ++ escapeHtmlL firstLine ++
    strL "\"><code>" ++ jsTrim (List.intercalate ['\n'] (lines.drop 1)) ++ strL "</code></pre>"
  else
    strL "<pre class=\"code-block\"><code>" ++ jsTrim code ++ strL "</code></pre>"

/-- The ``` scanning loop.  A fence with a closer becomes a code block and
scanning resumes after the closer; an opener without a closer is emitted
literally and — since no further ``` exists — the loop then terminates.
`fuel` bounds the iterations; `s.length + 1` always suffices. -/
def fenceLoopF : Nat → List Char → List Char
  | 0, s => s
  | fuel + 1, s =>
    match findSub (strL "```") s with
    | none => s
    | some i =>
      let pre := s.take i
      let rest := s.drop (i + 3)
      match findSub (strL "```") rest with
      | none => pre ++ strL "```" ++ rest
      | some j =>
        pre ++ renderCodeBlock (rest.take j) ++ fenceLoopF fuel (rest.drop (j + 3))

/-! ## Inline code, subtext, headers, emphasis, line breaks -/

def stepInlineCode : GsubStep := fun _ s =>
  match s with
  | [] => none
  | c :: rest =>
    if c = '`' then
      let content := rest.takeWhile (fun d => d ≠ '`' && d ≠ '\n')
      if content ≠ [] && startsL ['`'] (rest.drop content.length) then
        some ([], strL "<code class=\"inline-code\">" ++ content ++ strL "</code>",
              content.length + 2)
      else none
    else none

/-- Apply a per-line rewrite (`/m`-flagged `^…$` patterns; the model
treats `\s` inside such a line pattern as non-newline whitespace). -/
def mapLines (f : List Char → List Char) (s : List Char) : List Char :=
  List.intercalate ['\n'] ((s.splitOn '\n').map f)

/-- `^-#\s+(.+)$` → subtext span. -/
def subtextLine (l : List Char) : List Char :=
  if startsL (strL "-#") l then
    let r := l.drop 2
    let ws := r.takeWhile isLineWs
    if ws ≠ [] && r.drop ws.length ≠ [] then
      strL "<span class=\"subtext\">" ++ r.drop ws.length ++ strL "</span>"
    else l
  else l

/-- `^#{k}\s+(.+)$` → heading of level `lvl` (the source maps `###` to
`h3`, `##` to `h2`, `#` to `h1`, in that pass order). -/
def headerLine (k : Nat) (lvl : List Char) (l : List Char) : List Char :=
  if startsL (List.replicate k '#') l then
    let r := l.drop k
    let ws := r.takeWhile isLineWs
    if ws ≠ [] && r.drop ws.length ≠ [] then
      strL "<h" ++ lvl ++ strL " class=\"header-" ++ lvl ++ strL "\">" ++ r.drop ws.length ++
      strL "</h" ++ lvl ++ strL ">"
    else l
  else l

/-- Earliest occurrence of `delim` with no newline before it (the lazy
`(.*?)` cannot cross a newline). -/
def findDelim (delim : List Char) : List Char → Option Nat
  | [] => none
  | c :: cs =>
    if startsL delim (c :: cs) then some 0
    else if c = '\n' then none
    else (findDelim delim cs).map (· + 1)

/-- `delim(.*?)delim` rewriting (bold / italic / strikethrough). -/
def stepPair (delim openT closeT : List Char) : GsubStep := fun _ s =>
  if startsL delim s then
    let rest := s.drop delim.length
    match findDelim delim rest with
    | some d => some ([], openT ++ rest.take d ++ closeT, delim.length + d + delim.length)
    | none => none
  else none

def brSub (c : Char) : List Char := if c = '\n' then strL "<br>" else [c]

/-! ## Mentions -/

/-- The identity context used to resolve mentions: the id-indexed name
lookups of `msg.guild`'s member/channel/role caches (`None` models a
missing `msg`/`msg.guild`; a member's entry holds its already-resolved
display name `nickname || displayName || username`). -/
structure MentionCtx where
  users : List (List Char × List Char)
  channels : List (List Char × List Char)
  roles : List (List Char × List Char)

def ctxLookup (l : List (List Char × List Char)) (id : List Char) : Option (List Char) :=
  (l.find? (fun p => p.1 = id)).map (·.2)

/-- `&lt;@!?(\d+)&gt;` — parse an escaped user mention; returns
`(id, consumed)`. -/
def parseUserMention (s : List Char) : Option (List Char × Nat) :=
  if startsL (strL "&lt;@") s then
    let r := s.drop 5
    let bang := if startsL ['!'] r then 1 else 0
    let r2 := r.drop bang
    let id := r2.takeWhile isAsciiDigit
    if id ≠ [] && startsL (strL "&gt;") (r2.drop id.length) then
      some (id, 5 + bang + id.length + 4)
    else none
  else none

def stepUser (ctx : Option MentionCtx) : GsubStep := fun _ s =>
  match parseUserMention s with
  | some (id, n) =>
    let body :=
      match ctx with
      | some g =>
        match ctxLookup g.users id with
        | some name =>
          strL "<span class=\"mention user-mention\">@" ++ escapeHtmlL name ++ strL "</span>"
        | none => strL "<span class=\"mention user-mention\">@User</span>"
      | none => strL "<span class=\"mention user-mention\">@User</span>"
    some ([], body, n)
  | none => none

/-- `&lt;#(\d+)&gt;`. -/
def parseChannelMention (s : List Char) : Option (List Char × Nat) :=
  if startsL (strL "&lt;#") s then
    let r := s.drop 5
    let id := r.takeWhile isAsciiDigit
    if id ≠ [] && startsL (strL "&gt;") (r.drop id.length) then
      some (id, 5 + id.length + 4)
    else none
  else none

def stepChannel (ctx : Option MentionCtx) : GsubStep := fun _ s =>
  match parseChannelMention s with
  | some (id, n) =>
    let body :=
      match ctx with
      | some g =>
        match ctxLookup g.channels id with
        | some name =>
          strL "<span class=\"mention channel-mention\">#" ++ escapeHtmlL name ++ strL "</span>"
        | none => strL "<span class=\"mention channel-mention\">#channel</span>"
      | none => strL "<span class=\"mention channel-mention\">#channel</span>"
    some ([], body, n)
  | none => none

/-- `&lt;@&amp;(\d+)&gt;`. -/
def parseRoleMention (s : List Char) : Option (List Char × Nat) :=
  if startsL (strL "&lt;@&amp;") s then
    let r := s.drop 9
    let id := r.takeWhile isAsciiDigit
    if id ≠ [] && startsL (strL "&gt;") (r.drop id.length) then
      some (id, 9 + id.length + 4)
    else none
  else none

def stepRole (ctx : Option MentionCtx) : GsubStep := fun _ s =>
  match parseRoleMention s with
  | some (id, n) =>
    let body :=
      match ctx with
      | some g =>
        match ctxLookup g.roles id with
        | some name =>
          strL "<span class=\"mention role-mention\">@" ++ escapeHtmlL name ++ strL "</span>"
        | none => strL "<span class=\"mention role-mention\">@role</span>"
      | none => strL "<span class=\"mention role-mention\">@role</span>"
    some ([], body, n)
  | none => none

/-! ## `parseMarkdown` -/

/-- The full rewriting pipeline of `parseMarkdown`, in source order.  The
emoji size/class are fixed once, from the original (pre-substitution)
content. -/
def parseMarkdownL (content : List Char) (isReply : Bool) (ctx : Option MentionCtx) :
    List Char :=
  let hasText := !emojiOnlyTest (jsTrim content)
  let emojiSize := if isReply then strL "16px" else if hasText then strL "18px" else strL "45px"
  let emojiClass :=
    if isReply then strL "emoji reply-emoji"
    else if hasText then strL "emoji text-emoji"
    else strL "emoji large-emoji"
  let p0 := escapeHtmlL content
  let p1 := gsub stepMedia p0
  let p2 := gsub stepTenor p1
  let p3 := gsub stepGiphy p2
  let p4 := gsub stepImgur p3
  let p5 := gsub stepGeneric p4
  let p6 := gsub stepStrip p5
  let p7 := gsub (stepCustom emojiClass emojiSize) p6
  let p8 := mapConcat (uniEmojiSub emojiClass emojiSize) p7
  let p9 := fenceLoopF (p8.length + 1) p8
  let p10 := gsub stepInlineCode p9
  let p11 := mapLines subtextLine p10
  let p12 := mapLines (headerLine 3 (strL "3")) p11
  let p13 := mapLines (headerLine 2 (strL "2")) p12
  let p14 := mapLines (headerLine 1 (strL "1")) p13
  let p15 := gsub (stepPair (strL "**") (strL "<strong>") (strL "</strong>")) p14
  let p16 := gsub (stepPair (strL "__") (strL "<strong>") (strL "</strong>")) p15
  let p17 := gsub (stepPair ['*'] (strL "<em>") (strL "</em>")) p16
  let p18 := gsub (stepPair ['_'] (strL "<em>") (strL "</em>")) p17
  let p19 := gsub (stepPair (strL "~~") (strL "<del>") (strL "</del>")) p18
  let p20 := mapConcat brSub p19
  let p21 := gsub (stepUser ctx) p20
  let p22 := gsub (stepChannel ctx) p21
  gsub (stepRole ctx) p22

def parseMarkdown (content : String) (isReply : Bool) (ctx : Option MentionCtx) : String :=
  String.mk (parseMarkdownL content.toList isReply ctx)

/-! ## File sizes and attachments -/

/-- JavaScript `a || b` for nullable strings (`null` and `""` are falsy). -/
def jsOrL (v : Option (List Char)) (d : List Char) : List Char :=
  match v with
  | some s => if s = [] then d else s
  | none => d

/-- Base-1024 integer logarithm, by iterated division (`fuel` bounds the
division depth). -/
def log1024F : Nat → Nat → Nat
  | 0, _ => 0
  | fuel + 1, n => if n < 1024 then 0 else log1024F fuel (n / 1024) + 1

/-- 128 division steps cover every value below `1024 ^ 128 = 2 ^ 1280`,
beyond the entire double-precision range the source can receive. -/
def log1024 (n : Nat) : Nat := log1024F 128 n

/-- `formatFileSize`.  The index `Math.floor(Math.log bytes / Math.log 1024)`
is modelled exactly as `log1024 bytes`, and
`parseFloat((bytes / 1024^i).toFixed(2))` with exact rational arithmetic:
`n` is the two-decimal round-half-up numerator, printed with trailing
zeros stripped.  `sizes[i]` for `i ≥ 4` is JavaScript's `undefined`,
which string concatenation renders as `"undefined"`. -/
def formatFileSize (bytes : Nat) : String :=
  if bytes = 0 then "0 Bytes"
  else
    let i := log1024 bytes
    let p := 1024 ^ i
    let n := (200 * bytes + p) / (2 * p)
    let num :=
      if n % 100 = 0 then natStr (n / 100)
      else if n % 10 = 0 then natStr (n / 100) ++ '.' :: natStr (n / 10 % 10)
      else natStr (n / 100) ++ '.' :: (natStr (n / 10 % 10) ++ natStr (n % 10))
    String.mk (num ++ ' ' :: strL (([ "Bytes", "KB", "MB", "GB" ].getD i "undefined")))

/-- One message attachment (`url`, `name`, declared MIME `contentType`,
byte `size`; `name`/`contentType` are nullable). -/
structure Attachment where
  url : List Char
  name : Option (List Char)
  contentType : Option (List Char)
  size : Nat
deriving DecidableEq, Repr

def isImageType (a : Attachment) : Bool :=
  match a.contentType with
  | some ct => startsL (strL "image/") ct
  | none => false

def isVideoType (a : Attachment) : Bool :=
  match a.contentType with
  | some ct => startsL (strL "video/") ct
  | none => false

/-- `createImageElement` — the per-tile markup, branching on the declared
content type.  `count` is the enclosing attachment count (captured by the
closure for the `big-top` special style). -/
def createImageElement (count : Nat) (a : Attachment) (className : List Char) : List Char :=
  if isImageType a then
    let style :=
      if (count = 10 || count = 7) && className = strL "big-top" then
        strL "object-fit: cover !important; height: 200px !important;"
      else []
    strL "<div class=\"attachment-item " ++ className ++
    strL "\">\n        <img src=\"" ++ a.url ++ strL "\" alt=\"" ++
    escapeHtmlL (jsOrL a.name (strL "Image")) ++
    strL "\" class=\"attachment-image\" style=\"" ++ style ++ strL "\" />\n      </div>"
  else if isVideoType a then
    strL "<div class=\"attachment-item " ++ className ++
    strL "\">\n        <video controls class=\"attachment-video\">\n          <source src=\"" ++
    a.url ++ strL "\" type=\"" ++ (a.contentType.getD []) ++
    strL "\">\n          Your browser does not support the video tag.\n        </video>\n      </div>"
  else
    strL "<div class=\"attachment-item " ++ className ++
    strL " file-attachment\">\n        <div class=\"file-info\">\n          <div class=\"file-icon\">📄</div>\n          <div class=\"file-details\">\n            <div class=\"file-name\">" ++
    escapeHtmlL (jsOrL a.name (strL "Unknown file")) ++
    strL "</div>\n            <div class=\"file-size\">" ++ (formatFileSize a.size).toList ++
    strL "</div>\n          </div>\n        </div>\n      </div>"

def emptyAttachment : Attachment := ⟨[], none, none, 0⟩

def joinL (l : List (List Char)) : List Char := l.foldr (· ++ ·) []

/-- `generateAttachmentsHTML` — the count-keyed grid switch, transcribed
case by case from the source (template-literal whitespace included). -/
def generateAttachmentsHTML (attachments : List Attachment) : List Char :=
  if attachments.length = 0 then []
  else
    let count := attachments.length
    let tile := createImageElement count
    let nth := fun i => attachments.getD i emptyAttachment
    let inner :=
      if count = 1 then
        strL "<div class=\"grid-1\">" ++ tile (nth 0) (strL "single") ++ strL "</div>"
      else if count = 2 then
        strL "<div class=\"grid-2\">\n        " ++ tile (nth 0) (strL "half") ++
        strL "\n        " ++ tile (nth 1) (strL "half") ++ strL "\n      </div>"
      else if count = 3 then
        strL "<div class=\"grid-3\">\n        <div class=\"left-big\">" ++
        tile (nth 0) (strL "big") ++
        strL "</div>\n        <div class=\"right-small\">\n          " ++
        tile (nth 1) (strL "small") ++ strL "\n          " ++ tile (nth 2) (strL "small") ++
        strL "\n        </div>\n      </div>"
      else if count = 4 then
        strL "<div class=\"grid-4\">\n        <div class=\"left-column\">\n          " ++
        tile (nth 0) (strL "quarter") ++ strL "\n          " ++ tile (nth 1) (strL "quarter") ++
        strL "\n        </div>\n        <div class=\"right-column\">\n          " ++
        tile (nth 2) (strL "quarter") ++ strL "\n          " ++ tile (nth 3) (strL "quarter") ++
        strL "\n        </div>\n      </div>"
      else if count = 5 then
        strL "<div class=\"grid-5\">\n        <div class=\"top-row\">\n          " ++
        tile (nth 0) (strL "half") ++ strL "\n          " ++ tile (nth 1) (strL "half") ++
        strL "\n        </div>\n        <div class=\"bottom-row\">\n          " ++
        tile (nth 2) (strL "third") ++ strL "\n          " ++ tile (nth 3) (strL "third") ++
        strL "\n          " ++ tile (nth 4) (strL "third") ++
        strL "\n        </div>\n      </div>"
      else if count = 6 then
        strL "<div class=\"grid-6\">\n        <div class=\"top-row\">\n          " ++
        tile (nth 0) (strL "third") ++ strL "\n          " ++ tile (nth 1) (strL "third") ++
        strL "\n          " ++ tile (nth 2) (strL "third") ++
        strL "\n        </div>\n        <div class=\"bottom-row\">\n          " ++
        tile (nth 3) (strL "third") ++ strL "\n          " ++ tile (nth 4) (strL "third") ++
        strL "\n          " ++ tile (nth 5) (strL "third") ++
        strL "\n        </div>\n      </div>"
      else if count = 7 then
        strL "<div class=\"grid-7\">\n        <div class=\"top-big\">" ++
        tile (nth 0) (strL "big-top") ++
        strL "</div>\n        <div class=\"middle-row\">\n          " ++
        tile (nth 1) (strL "third") ++ strL "\n          " ++ tile (nth 2) (strL "third") ++
        strL "\n          " ++ tile (nth 3) (strL "third") ++
        strL "\n        </div>\n        <div class=\"bottom-row\">\n          " ++
        tile (nth 4) (strL "third") ++ strL "\n          " ++ tile (nth 5) (strL "third") ++
        strL "\n          " ++ tile (nth 6) (strL "third") ++
        strL "\n        </div>\n      </div>"
      else if count = 8 then
        strL "<div class=\"grid-8\">\n        <div class=\"top-row\">\n          " ++
        tile (nth 0) (strL "half") ++ strL "\n          " ++ tile (nth 1) (strL "half") ++
        strL "\n        </div>\n        <div class=\"middle-row\">\n          " ++
        tile (nth 2) (strL "third") ++ strL "\n          " ++ tile (nth 3) (strL "third") ++
        strL "\n          " ++ tile (nth 4) (strL "third") ++
        strL "\n        </div>\n        <div class=\"bottom-row\">\n          " ++
        tile (nth 5) (strL "third") ++ strL "\n          " ++ tile (nth 6) (strL "third") ++
        strL "\n          " ++ tile (nth 7) (strL "third") ++
        strL "\n        </div>\n      </div>"
      else if count = 9 then
        strL "<div class=\"grid-9\">\n        " ++
        joinL (attachments.map (fun a => tile a (strL "ninth"))) ++ strL "\n      </div>"
      else if count = 10 then
        strL "<div class=\"grid-10\">\n        <div class=\"top-big\">" ++
        tile (nth 0) (strL "big-top") ++
        strL "</div>\n        <div class=\"bottom-grid\">\n          " ++
        joinL ((attachments.drop 1).map (fun a => tile a (strL "ninth"))) ++
        strL "\n        </div>\n      </div>"
      else
        strL "<div class=\"grid-9\">\n        " ++
        joinL ((attachments.take 8).map (fun a => tile a (strL "ninth"))) ++
        strL "\n        <div class=\"attachment-item ninth more-overlay\">\n          " ++
        tile (nth 8) (strL "ninth") ++
        strL "\n          <div class=\"more-count\">+" ++ natStr (count - 9) ++
        strL "</div>\n        </div>\n      </div>"
    strL "<div class=\"attachments\">" ++ inner ++ strL "</div>"

/-! ## Timestamp formatting -/

/-- A date in local representation, as the source reads it off a JS
`Date` (`month` is kept 1-based, matching the printed `getMonth() + 1`). -/
structure JsDate where
  year : Nat
  month : Nat
  day : Nat
  hour : Nat
  minute : Nat
deriving DecidableEq, Repr

def isLeap (y : Nat) : Bool := (y % 4 == 0 && y % 100 != 0) || y % 400 == 0

def daysInMonth (y m : Nat) : Nat :=
  if m = 2 then (if isLeap y then 29 else 28)
  else if m = 4 || m = 6 || m = 9 || m = 11 then 30
  else 31

/-- `yesterday.setDate(now.getDate() - 1)` with JavaScript's rollover into
the previous month/year. -/
def yesterdayOf (d : JsDate) : JsDate :=
  if d.day > 1 then { d with day := d.day - 1 }
  else if d.month > 1 then { d with month := d.month - 1, day := daysInMonth d.year (d.month - 1) }
  else { d with year := d.year - 1, month := 12, day := 31 }

/-- `toDateString()` equality: same calendar day. -/
def sameDate (a b : JsDate) : Bool :=
  a.year == b.year && a.month == b.month && a.day == b.day

/-- `formatDiscordTimestamp` relative to `now`. -/
def formatDiscordTimestamp (date now : JsDate) : String :=
  let timeStr := pad2 date.hour ++ ':' :: pad2 date.minute
  if sameDate date now then String.mk timeStr
  else if sameDate date (yesterdayOf now) then String.mk (strL "Yesterday at " ++ timeStr)
  else
    String.mk (pad2 date.day ++ '/' :: pad2 date.month ++ '/' ::
               (natStr date.year ++ ' ' :: timeStr))

/-! ## Identity resolution -/

structure Role where
  id : List Char
  color : Nat
  position : Int
  icon : Option (List Char)
deriving DecidableEq, Repr

structure MemberData where
  nickname : Option (List Char)
  roles : List Role
deriving DecidableEq, Repr

structure AuthorData where
  avatar : Option (List Char)
  displayName : List Char
deriving DecidableEq, Repr

def defaultAvatar : List Char := strL "https://cdn.discordapp.com/embed/avatars/0.png"

/-- `roles.cache.filter(role => role.color !== 0 && (!msg.guild || role.id !== msg.guild.id))`. -/
def qualifying (roles : List Role) (guildId : Option (List Char)) : List Role :=
  roles.filter (fun r =>
    r.color != 0 && (match guildId with | none => true | some g => r.id != g))

/-- `.sort((a, b) => b.position - a.position).first()`: with a stable
descending sort, the first element is the earliest role of maximal
position, i.e. the left-to-right strict maximum. -/
def pickHighest : List Role → Option Role
  | [] => none
  | r :: rest =>
    match pickHighest rest with
    | none => some r
    | some m => if m.position > r.position then some m else some r

/-- `extractUserInfo`: `(avatarURL, name, userColor, roleIcon)`. -/
def extractUserInfo (author : Option AuthorData) (member : Option MemberData)
    (guildId : Option (List Char)) :
    List Char × List Char × List Char × Option (List Char) :=
  match author with
  | none => (defaultAvatar, strL "Unknown User", strL "#ffffff", none)
  | some a =>
    let avatarURL := jsOrL a.avatar defaultAvatar
    match member with
    | none => (avatarURL, a.displayName, strL "#ffffff", none)
    | some m =>
      let name := jsOrL m.nickname a.displayName
      match pickHighest (qualifying m.roles guildId) with
      | none => (avatarURL, name, strL "#ffffff", none)
      | some hr =>
        let icon := match hr.icon with
          | some ic => if ic = [] then none else some ic
          | none => none
        (avatarURL, name, '#' :: padHex6 hr.color, icon)

/-- `extractReplyUserInfo`: `(avatarURL, name, userColor)`; same role
selection, but the fallback colour is `#b5bac1` and no icon is
extracted. -/
def extractReplyUserInfo (author : AuthorData) (member : Option MemberData)
    (guildId : Option (List Char)) : List Char × List Char × List Char :=
  let avatarURL := jsOrL author.avatar defaultAvatar
  match member with
  | none => (avatarURL, author.displayName, strL "#b5bac1")
  | some m =>
    let name := jsOrL m.nickname author.displayName
    match pickHighest (qualifying m.roles guildId) with
    | none => (avatarURL, name, strL "#b5bac1")
    | some hr => (avatarURL, name, '#' :: padHex6 hr.color)

/-! ## The input guard of `render` -/

/-- The fields of the incoming message that the guard of `render`
inspects (embeds and stickers only by count). -/
structure RenderMsg where
  content : List Char
  embeds : List Unit
  attachments : List Attachment
  stickers : List Unit

def refusalMsg : String := "Message must have content, embeds, attachments, or stickers to render"

/-- The fail-fast validation at the top of `render`, before any
transformation work: `ok` means rendering proceeds. -/
def renderGuard (m : Option RenderMsg) : Except String Unit :=
  match m with
  | none => .error "A message is required"
  | some msg =>
    let hasContent := decide (jsTrim msg.content ≠ [])
    let hasEmbeds := decide (msg.embeds.length > 0)
    let hasAttachments := decide (msg.attachments.length > 0)
    let hasStickers := decide (msg.stickers.length > 0)
    if !hasContent && !hasEmbeds && !hasAttachments && !hasStickers then
      .error refusalMsg
    else .ok ()

/-! ## Derived views used by the verification -/

/-- §4.4's layout table in isolation: the grid markup as a function of the
count and an abstract per-tile renderer `tile i className` — the table
never inspects the attachments themselves. -/
def layoutHTML (count : Nat) (tile : Nat → List Char → List Char) : List Char :=
  if count = 1 then
    strL "<div class=\"grid-1\">" ++ tile 0 (strL "single") ++ strL "</div>"
  else if count = 2 then
    strL "<div class=\"grid-2\">\n        " ++ tile 0 (strL "half") ++
    strL "\n        " ++ tile 1 (strL "half") ++ strL "\n      </div>"
  else if count = 3 then
    strL "<div class=\"grid-3\">\n        <div class=\"left-big\">" ++
    tile 0 (strL "big") ++
    strL "</div>\n        <div class=\"right-small\">\n          " ++
    tile 1 (strL "small") ++ strL "\n          " ++ tile 2 (strL "small") ++
    strL "\n        </div>\n      </div>"
  else if count = 4 then
    strL "<div class=\"grid-4\">\n        <div class=\"left-column\">\n          " ++
    tile 0 (strL "quarter") ++ strL "\n          " ++ tile 1 (strL "quarter") ++
    strL "\n        </div>\n        <div class=\"right-column\">\n          " ++
    tile 2 (strL "quarter") ++ strL "\n          " ++ tile 3 (strL "quarter") ++
    strL "\n        </div>\n      </div>"
  else if count = 5 then
    strL "<div class=\"grid-5\">\n        <div class=\"top-row\">\n          " ++
    tile 0 (strL "half") ++ strL "\n          " ++ tile 1 (strL "half") ++
    strL "\n        </div>\n        <div class=\"bottom-row\">\n          " ++
    tile 2 (strL "third") ++ strL "\n          " ++ tile 3 (strL "third") ++
    strL "\n          " ++ tile 4 (strL "third") ++
    strL "\n        </div>\n      </div>"
  else if count = 6 then
    strL "<div class=\"grid-6\">\n        <div class=\"top-row\">\n          " ++
    tile 0 (strL "third") ++ strL "\n          " ++ tile 1 (strL "third") ++
    strL "\n          " ++ tile 2 (strL "third") ++
    strL "\n        </div>\n        <div class=\"bottom-row\">\n          " ++
    tile 3 (strL "third") ++ strL "\n          " ++ tile 4 (strL "third") ++
    strL "\n          " ++ tile 5 (strL "third") ++
    strL "\n        </div>\n      </div>"
  else if count = 7 then
    strL "<div class=\"grid-7\">\n        <div class=\"top-big\">" ++
    tile 0 (strL "big-top") ++
    strL "</div>\n        <div class=\"middle-row\">\n          " ++
    tile 1 (strL "third") ++ strL "\n          " ++ tile 2 (strL "third") ++
    strL "\n          " ++ tile 3 (strL "third") ++
    strL "\n        </div>\n        <div class=\"bottom-row\">\n          " ++
    tile 4 (strL "third") ++ strL "\n          " ++ tile 5 (strL "third") ++
    strL "\n          " ++ tile 6 (strL "third") ++
    strL "\n        </div>\n      </div>"
  else if count = 8 then
    strL "<div class=\"grid-8\">\n        <div class=\"top-row\">\n          " ++
    tile 0 (strL "half") ++ strL "\n          " ++ tile 1 (strL "half") ++
    strL "\n        </div>\n        <div class=\"middle-row\">\n          " ++
    tile 2 (strL "third") ++ strL "\n          " ++ tile 3 (strL "third") ++
    strL "\n          " ++ tile 4 (strL "third") ++
    strL "\n        </div>\n        <div class=\"bottom-row\">\n          " ++
    tile 5 (strL "third") ++ strL "\n          " ++ tile 6 (strL "third") ++
    strL "\n          " ++ tile 7 (strL "third") ++
    strL "\n        </div>\n      </div>"
  else if count = 9 then
    strL "<div class=\"grid-9\">\n        " ++
    joinL ((List.range 9).map (fun i => tile i (strL "ninth"))) ++ strL "\n      </div>"
  else if count = 10 then
    strL "<div class=\"grid-10\">\n        <div class=\"top-big\">" ++
    tile 0 (strL "big-top") ++
    strL "</div>\n        <div class=\"bottom-grid\">\n          " ++
    joinL ((List.range 9).map (fun i => tile (i + 1) (strL "ninth"))) ++
    strL "\n        </div>\n      </div>"
  else
    strL "<div class=\"grid-9\">\n        " ++
    joinL ((List.range 8).map (fun i => tile i (strL "ninth"))) ++
    strL "\n        <div class=\"attachment-item ninth more-overlay\">\n          " ++
    tile 8 (strL "ninth") ++
    strL "\n          <div class=\"more-count\">+" ++ natStr (count - 9) ++
    strL "</div>\n        </div>\n      </div>"

/-- The emoji size class, fixed once from the original content before any
substitution. -/
def emojiClassFor (isReply : Bool) (content : List Char) : List Char :=
  if isReply then strL "emoji reply-emoji"
  else if !emojiOnlyTest (jsTrim content) then strL "emoji text-emoji"
  else strL "emoji large-emoji"

/-- The emoji pixel size, fixed the same way. -/
def emojiSizeFor (isReply : Bool) (content : List Char) : List Char :=
  if isReply then strL "16px"
  else if !emojiOnlyTest (jsTrim content) then strL "18px"
  else strL "45px"

/-- The rewriting chain of `parseMarkdown` with the emoji class/size as
explicit parameters (used to state that the class is chosen once, up
front). -/
def pipelineWith (emojiClass emojiSize : List Char) (content : List Char)
    (ctx : Option MentionCtx) : List Char :=
  let p0 := escapeHtmlL content
  let p1 := gsub stepMedia p0
  let p2 := gsub stepTenor p1
  let p3 := gsub stepGiphy p2
  let p4 := gsub stepImgur p3
  let p5 := gsub stepGeneric p4
  let p6 := gsub stepStrip p5
  let p7 := gsub (stepCustom emojiClass emojiSize) p6
  let p8 := mapConcat (uniEmojiSub emojiClass emojiSize) p7
  let p9 := fenceLoopF (p8.length + 1) p8
  let p10 := gsub stepInlineCode p9
  let p11 := mapLines subtextLine p10
  let p12 := mapLines (headerLine 3 (strL "3")) p11
  let p13 := mapLines (headerLine 2 (strL "2")) p12
  let p14 := mapLines (headerLine 1 (strL "1")) p13
  let p15 := gsub (stepPair (strL "**") (strL "<strong>") (strL "</strong>")) p14
  let p16 := gsub (stepPair (strL "__") (strL "<strong>") (strL "</strong>")) p15
  let p17 := gsub (stepPair ['*'] (strL "<em>") (strL "</em>")) p16
  let p18 := gsub (stepPair ['_'] (strL "<em>") (strL "</em>")) p17
  let p19 := gsub (stepPair (strL "~~") (strL "<del>") (strL "</del>")) p18
  let p20 := mapConcat brSub p19
  let p21 := gsub (stepUser ctx) p20
  let p22 := gsub (stepChannel ctx) p21
  gsub (stepRole ctx) p22

/-- Lower-case hexadecimal digit. -/
def isLowerHex (c : Char) : Bool := isAsciiDigit c || ('a' ≤ c && c ≤ 'f')

/-- A simple image attachment for concrete witnesses. -/
def imgAtt (n : Nat) : Attachment :=
  ⟨strL ("https://cdn.example/" ++ toString n ++ ".png"), some (strL (toString n ++ ".png")),
   some (strL "image/png"), 100⟩

/-- Twelve attachments (a concrete overflow-case input). -/
def atts12 : List Attachment := (List.range 12).map imgAtt

/-- The spec's role-selection example:
`[{color:0,pos:5},{color:0xFF0000,pos:3},{color:0x00FF00,pos:4}]`. -/
def exampleRoles : List Role :=
  [⟨strL "r1", 0, 5, none⟩, ⟨strL "r2", 0xFF0000, 3, none⟩, ⟨strL "r3", 0x00FF00, 4, none⟩]

/-! ## The sentinel-tracking scanner (C10)

A left-to-right scan that checks that every occurrence of `<!` in a string
opens a full `marker` occurrence that is not preceded by `<`.  `q0`: the
previously read character (if any) is not `<`; `q1a`: exactly one pending
`<`; `q1b`: two or more pending `<`; `mid k`: the first `k` characters of
`marker` have just been read (`2 ≤ k ≤ 19`); `dead`: the invariant is
broken. -/
inductive MState where
  | dead : MState
  | q0 : MState
  | q1a : MState
  | q1b : MState
  | mid : Nat → MState
deriving DecidableEq, Repr

def mstep : MState → Char → MState
  | .dead, _ => .dead
  | .q0, c => if c = '<' then .q1a else .q0
  | .q1a, c => if c = '!' then .mid 2 else if c = '<' then .q1b else .q0
  | .q1b, c => if c = '!' then .dead else if c = '<' then .q1b else .q0
  | .mid k, c =>
    if c = marker.getD k ' ' then (if k = 19 then .q0 else .mid (k + 1)) else .dead

def mrun (st : MState) (s : List Char) : MState := s.foldl mstep st

def mgood : MState → Bool
  | .q0 => true
  | .q1a => true
  | .q1b => true
  | _ => false

/-- The two-character window `<!` that every marker occurrence opens. -/
def win : List Char := ['<', '!']

/-- `Array.prototype.join("\n")`, structurally. -/
def joinNl : List (List Char) → List Char
  | [] => []
  | [l] => l
  | l :: ls => l ++ '\n' :: joinNl ls

/-- Common shape of the five URL-pass matchers: the `(^|[^"=])` prefix
group wrapped around a URL matcher `tm` returning the replacement body and
the consumed URL length. -/
def guardStep (tm : List Char → Option (List Char × Nat)) : GsubStep := fun atStart s =>
  match (if atStart then tm s else none) with
  | some (body, n) => some ([], body, n)
  | none =>
    match s with
    | [] => none
    | c :: rest =>
      if c ≠ quoteC && c ≠ '=' then
        match tm rest with
        | some (body, n) => some ([c], body, n + 1)
        | none => none
      else none

def tryMediaG (s : List Char) : Option (List Char × Nat) :=
  match tryMediaUrl s with
  | some (url, ext, n) => some (mediaRepl url ext, n)
  | none => none

def tryTenorG (s : List Char) : Option (List Char × Nat) :=
  match tryLitUrl (strL "tenor.com/view/") s with
  | some (url, n) => some (tenorRepl url, n)
  | none => none

def tryGiphyG (s : List Char) : Option (List Char × Nat) :=
  match tryLitUrl (strL "giphy.com/gifs/") s with
  | some (url, n) => some (giphyBody url, n)
  | none => none

def tryImgurG (s : List Char) : Option (List Char × Nat) :=
  match tryImgurUrl s with
  | some (url, id, n) => some (imgurRepl id url, n)
  | none => none

def tryGenericG (s : List Char) : Option (List Char × Nat) :=
  match tryGenUrl s with
  | some (url, n) => if markerAhead (s.drop n) then none else some (anchorRepl url, n)
  | none => none

/-! # Supporting lemmas -/

set_option maxRecDepth 200000
set_option maxHeartbeats 1000000

lemma log1024F_le (fuel n j : Nat) (h : n < 1024 ^ (j + 1)) : log1024F fuel n ≤ j := by
  induction fuel generalizing n j with
  | zero => simp [log1024F]
  | succ fuel ih =>
    unfold log1024F
    split
    · exact Nat.zero_le _
    · rename_i hge
      match j with
      | 0 => simp [pow_one] at h; omega
      | j + 1 =>
        have hd : n / 1024 < 1024 ^ (j + 1) := by
          rw [Nat.div_lt_iff_lt_mul (by norm_num)]
          calc n < 1024 ^ (j + 2) := h
          _ = 1024 ^ (j + 1) * 1024 := by ring
        exact Nat.succ_le_succ (ih _ _ hd)

lemma pickHighest_cons_ne_none (a : Role) (t : List Role) : pickHighest (a :: t) ≠ none := by
  cases ht : pickHighest t with
  | none => simp [pickHighest, ht]
  | some m =>
    simp only [pickHighest, ht]
    split <;> simp

lemma pickHighest_mem : ∀ {l : List Role} {r : Role}, pickHighest l = some r → r ∈ l := by
  intro l
  induction l with
  | nil => intro r h; simp [pickHighest] at h
  | cons a t ih =>
    intro r h
    cases ht : pickHighest t with
    | none =>
      simp only [pickHighest, ht] at h
      cases h; exact List.mem_cons_self _ _
    | some m =>
      simp only [pickHighest, ht] at h
      by_cases hp : m.position > a.position
      · rw [if_pos hp] at h; cases h; exact List.mem_cons_of_mem _ (ih ht)
      · rw [if_neg hp] at h; cases h; exact List.mem_cons_self _ _

lemma pickHighest_max : ∀ {l : List Role} {r : Role}, pickHighest l = some r →
    ∀ x ∈ l, x.position ≤ r.position := by
  intro l
  induction l with
  | nil => intro r h; simp [pickHighest] at h
  | cons a t ih =>
    intro r h x hx
    cases ht : pickHighest t with
    | none =>
      simp only [pickHighest, ht] at h
      cases h
      rcases List.mem_cons.mp hx with hxa | hxt
      · exact hxa ▸ le_refl _
      · cases t with
        | nil => simp at hxt
        | cons b u => exact absurd ht (pickHighest_cons_ne_none b u)
    | some m =>
      simp only [pickHighest, ht] at h
      rcases List.mem_cons.mp hx with hxa | hxt
      · subst hxa
        by_cases hp : m.position > x.position
        · rw [if_pos hp] at h; cases h; exact le_of_lt hp
        · rw [if_neg hp] at h; cases h; exact le_refl _
      · have hxm := ih ht x hxt
        by_cases hp : m.position > a.position
        · rw [if_pos hp] at h; cases h; exact hxm
        · rw [if_neg hp] at h; cases h; exact le_trans hxm (not_lt.mp hp)

lemma isLowerHex_hexDigit {n : Nat} (h : n < 16) : isLowerHex (hexDigit n) = true := by
  interval_cases n <;> decide

lemma hexStrAux_digits : ∀ fuel n, ∀ c ∈ hexStrAux fuel n, isLowerHex c = true := by
  intro fuel
  induction fuel with
  | zero => intro n c hc; simp [hexStrAux] at hc
  | succ fuel ih =>
    intro n c hc
    unfold hexStrAux at hc
    by_cases hn : n < 16
    · rw [if_pos hn] at hc
      simp at hc
      exact hc ▸ isLowerHex_hexDigit hn
    · rw [if_neg hn] at hc
      rcases List.mem_append.mp hc with h1 | h2
      · exact ih _ c h1
      · simp at h2
        exact h2 ▸ isLowerHex_hexDigit (Nat.mod_lt _ (by norm_num))

lemma hexStrAux_length : ∀ fuel n j, n < 16 ^ (j + 1) → (hexStrAux fuel n).length ≤ j + 1 := by
  intro fuel
  induction fuel with
  | zero => intro n j _; simp [hexStrAux]
  | succ fuel ih =>
    intro n j h
    unfold hexStrAux
    by_cases hn : n < 16
    · rw [if_pos hn]; simp
    · rw [if_neg hn]
      match j with
      | 0 => simp [pow_one] at h; omega
      | j + 1 =>
        have hd : n / 16 < 16 ^ (j + 1) := by
          rw [Nat.div_lt_iff_lt_mul (by norm_num)]
          calc n < 16 ^ (j + 2) := h
          _ = 16 ^ (j + 1) * 16 := by ring
        have := ih (n / 16) j hd
        simp only [List.length_append, List.length_cons, List.length_nil]
        omega

lemma padHex6_spec {n : Nat} (h : n < 16 ^ 6) :
    (padHex6 n).length = 6 ∧ ∀ c ∈ padHex6 n, isLowerHex c = true := by
  have hlen : (hexStr n).length ≤ 6 := hexStrAux_length (n + 1) n 5 h
  constructor
  · simp only [padHex6, List.length_append, List.length_replicate]
    omega
  · intro c hc
    rcases List.mem_append.mp hc with h1 | h2
    · have := List.eq_of_mem_replicate h1
      subst this; decide
    · exact hexStrAux_digits _ _ c h2

/-! # Claim theorems -/

/-- C2: `render` refuses — with the descriptive refusal error, producing
no document — exactly when the trimmed message text, the embeds, the
attachments, and the stickers are all absent simultaneously; if any
single one is present, the guard accepts and rendering proceeds. -/
theorem renderGuard_refusal_iff (msg : RenderMsg) :
    (renderGuard (some msg) = Except.error refusalMsg ↔
      jsTrim msg.content = [] ∧ msg.embeds = [] ∧ msg.attachments = [] ∧ msg.stickers = []) ∧
    (renderGuard (some msg) = Except.ok () ↔
      ¬(jsTrim msg.content = [] ∧ msg.embeds = [] ∧ msg.attachments = [] ∧
        msg.stickers = [])) := by
  unfold renderGuard
  by_cases h1 : jsTrim msg.content = [] <;> by_cases h2 : msg.embeds = [] <;>
    by_cases h3 : msg.attachments = [] <;> by_cases h4 : msg.stickers = [] <;>
    simp [h1, h2, h3, h4, List.length_pos, List.length_eq_zero, refusalMsg]

/-- C3 (code bug): a timestamp on the same calendar day as "now" is
rendered by the code as bare `"HH:MM"`, never as `"Today at HH:MM"` — the
function's own doc comment promises the `"Today at "` prefix, and the
reply preview renders no timestamp at all. -/
theorem formatDiscordTimestamp_today_bare :
    formatDiscordTimestamp ⟨2023, 12, 25, 16, 44⟩ ⟨2023, 12, 25, 16, 45⟩ = "16:44" ∧
    formatDiscordTimestamp ⟨2023, 12, 25, 16, 44⟩ ⟨2023, 12, 25, 16, 45⟩ ≠ "Today at 16:44" := by
  exact ⟨by decide, by decide⟩

/-- C9 counterexample: at `1024 ^ 4` bytes the size-name table is
exceeded (`sizes[4]` is `undefined`) and the result is `"1 undefined"`,
whose unit is none of `Bytes`, `KB`, `MB`, `GB`. -/
theorem formatFileSize_overflow_unit :
    formatFileSize (1024 ^ 4) = "1 undefined" ∧
    (∀ u ∈ ["Bytes", "KB", "MB", "GB"], hasSub (strL u) (strL "1 undefined") = false) := by
  exact ⟨by decide, by decide⟩

/-- C9 (amended): `formatFileSize` returns `"0 Bytes"` for `0`, and for
every positive byte count below `1024 ^ 4` a 1024-based value rendered to
two decimal places (trailing zeros stripped) with the unit selected from
`Bytes`/`KB`/`MB`/`GB` by the base-1024 logarithm; in particular
`1536 ↦ "1.5 KB"` and `1572864 ↦ "1.5 MB"`. -/
theorem formatFileSize_spec (bytes : Nat) (h0 : 0 < bytes) (hlt : bytes < 1024 ^ 4) :
    (∃ num unit, unit ∈ ["Bytes", "KB", "MB", "GB"] ∧
      unit = ["Bytes", "KB", "MB", "GB"].getD (log1024 bytes) "undefined" ∧
      formatFileSize bytes = String.mk (num ++ ' ' :: strL unit)) ∧
    formatFileSize 0 = "0 Bytes" ∧ formatFileSize 1536 = "1.5 KB" ∧
    formatFileSize 1572864 = "1.5 MB" := by
  refine ⟨?_, by decide, by decide, by decide⟩
  have hle : log1024 bytes ≤ 3 := log1024F_le 128 bytes 3 hlt
  have hmem : (["Bytes", "KB", "MB", "GB"].getD (log1024 bytes) "undefined") ∈
      ["Bytes", "KB", "MB", "GB"] := by
    interval_cases hl : log1024 bytes <;> simp
  unfold formatFileSize
  rw [if_neg (show ¬bytes = 0 by omega)]
  exact ⟨_, _, hmem, rfl, rfl⟩

/-- C9 witness for `formatFileSize_spec` at `bytes = 1536`. -/
theorem formatFileSize_spec_witness :
    0 < 1536 ∧ 1536 < 1024 ^ 4 ∧ formatFileSize 1536 = "1.5 KB" :=
  ⟨by decide, by norm_num, (formatFileSize_spec 1536 (by decide) (by norm_num)).2.2.1⟩

/-- C6: for both the primary author and the reply-preview author the
accent colour comes from a maximal-position role among the non-zero-colour
roles that are not the guild's base (`@everyone`) role, rendered as
`#`-prefixed lower-case hex zero-padded to six digits (`padHex6`); with no
qualifying role the primary author falls back to `#ffffff` and the reply
author to `#b5bac1`.  The spec's example role list resolves to
`#00ff00`. -/
theorem roleColor_spec :
    (∀ (a : AuthorData) (m : MemberData) (g : Option (List Char)),
      (qualifying m.roles g = [] →
        (extractUserInfo (some a) (some m) g).2.2.1 = strL "#ffffff" ∧
        (extractReplyUserInfo a (some m) g).2.2 = strL "#b5bac1") ∧
      (qualifying m.roles g ≠ [] →
        ∃ r, r ∈ qualifying m.roles g ∧
          (∀ x ∈ qualifying m.roles g, x.position ≤ r.position) ∧
          r.color ≠ 0 ∧ (∀ gid, g = some gid → r.id ≠ gid) ∧
          (extractUserInfo (some a) (some m) g).2.2.1 = '#' :: padHex6 r.color ∧
          (extractReplyUserInfo a (some m) g).2.2 = '#' :: padHex6 r.color)) ∧
    (∀ n : Nat, n < 16 ^ 6 →
      (padHex6 n).length = 6 ∧ ∀ c ∈ padHex6 n, isLowerHex c = true) ∧
    (extractUserInfo (some ⟨none, strL "A"⟩) (some ⟨none, exampleRoles⟩)
        (some (strL "g"))).2.2.1 = strL "#00ff00" := by
  refine ⟨?_, fun n hn => padHex6_spec hn, by decide⟩
  intro a m g
  constructor
  · intro hq
    simp [extractUserInfo, extractReplyUserInfo, hq, pickHighest]
  · intro hq
    cases hr : pickHighest (qualifying m.roles g) with
    | none =>
      cases hql : qualifying m.roles g with
      | nil => exact absurd hql hq
      | cons b u => rw [hql] at hr; exact absurd hr (pickHighest_cons_ne_none b u)
    | some r =>
      have hmem := pickHighest_mem hr
      have hfil := List.mem_filter.mp hmem
      have hpred := hfil.2
      simp only [Bool.and_eq_true, bne_iff_ne, ne_eq] at hpred
      refine ⟨r, hmem, pickHighest_max hr, hpred.1, ?_, ?_, ?_⟩
      · intro gid hg
        subst hg
        simpa using hpred.2
      · simp [extractUserInfo, hr]
      · simp [extractReplyUserInfo, hr]

lemma map_eq_range_map_getD {α β : Type _} (l : List α) (f : α → β) (d : α) :
    l.map f = (List.range l.length).map (fun i => f (l.getD i d)) := by
  induction l with
  | nil => rfl
  | cons a t ih =>
    simp only [List.map_cons, List.length_cons, List.range_succ_eq_map, List.map_map,
      Function.comp_def, Nat.succ_eq_add_one, List.getD_cons_succ, List.getD_cons_zero]
    rw [ih]

lemma getD_take_of_lt {α : Type _} (l : List α) (k i : Nat) (d : α) (h : i < k) :
    (l.take k).getD i d = l.getD i d := by
  simp only [List.getD_eq_getElem?_getD, List.getElem?_take, if_pos h]

lemma map_take_eq_range {α β : Type _} (l : List α) (f : α → β) (d : α) (k : Nat)
    (h : k ≤ l.length) :
    (l.take k).map f = (List.range k).map (fun i => f (l.getD i d)) := by
  rw [map_eq_range_map_getD (l.take k) f d, List.length_take, Nat.min_eq_left h]
  exact List.map_congr_left fun i hi =>
    congrArg f (getD_take_of_lt l k i d (List.mem_range.mp hi))

lemma map_drop_one_eq_range {α β : Type _} (l : List α) (f : α → β) (d : α) :
    (l.drop 1).map f = (List.range (l.length - 1)).map (fun i => f (l.getD (i + 1) d)) := by
  rw [map_eq_range_map_getD (l.drop 1) f d, List.length_drop]
  refine List.map_congr_left fun i _ => congrArg f ?_
  simp only [List.getD_eq_getElem?_getD, List.getElem?_drop]
  rw [Nat.add_comm]

/-- C6 witness: `roleColor_spec` applied to the spec's example roles. -/
theorem roleColor_spec_witness :
    ∃ r, r ∈ qualifying exampleRoles (some (strL "g")) ∧
      (∀ x ∈ qualifying exampleRoles (some (strL "g")), x.position ≤ r.position) ∧
      r.color ≠ 0 ∧ (∀ gid, some (strL "g") = some gid → r.id ≠ gid) ∧
      (extractUserInfo (some ⟨none, strL "A"⟩) (some ⟨none, exampleRoles⟩)
        (some (strL "g"))).2.2.1 = '#' :: padHex6 r.color ∧
      (extractReplyUserInfo ⟨none, strL "A"⟩ (some ⟨none, exampleRoles⟩)
        (some (strL "g"))).2.2 = '#' :: padHex6 r.color :=
  ((roleColor_spec.1 ⟨none, strL "A"⟩ ⟨none, exampleRoles⟩ (some (strL "g"))).2 (by decide))

/-- C8: for more than ten attachments, the grid holds tiles for exactly
the first nine — the first eight plain `ninth` tiles, the ninth wrapped in
a `more-overlay` carrying a `+N` badge with `N = count - 9` — and no tile
for any later attachment. -/
theorem generateAttachmentsHTML_overflow (atts : List Attachment) (h : 10 < atts.length) :
    generateAttachmentsHTML atts =
      strL "<div class=\"attachments\">" ++
      (strL "<div class=\"grid-9\">\n        " ++
       joinL ((atts.take 8).map (fun a => createImageElement atts.length a (strL "ninth"))) ++
       strL "\n        <div class=\"attachment-item ninth more-overlay\">\n          " ++
       createImageElement atts.length (atts.getD 8 emptyAttachment) (strL "ninth") ++
       strL "\n          <div class=\"more-count\">+" ++ natStr (atts.length - 9) ++
       strL "</div>\n        </div>\n      </div>") ++ strL "</div>" := by
  have h0 : ¬atts.length = 0 := by omega
  have h1 : ¬atts.length = 1 := by omega
  have h2 : ¬atts.length = 2 := by omega
  have h3 : ¬atts.length = 3 := by omega
  have h4 : ¬atts.length = 4 := by omega
  have h5 : ¬atts.length = 5 := by omega
  have h6 : ¬atts.length = 6 := by omega
  have h7 : ¬atts.length = 7 := by omega
  have h8 : ¬atts.length = 8 := by omega
  have h9 : ¬atts.length = 9 := by omega
  have h10 : ¬atts.length = 10 := by omega
  simp only [generateAttachmentsHTML, h0, h1, h2, h3, h4, h5, h6, h7, h8, h9, h10,
    if_false, List.append_assoc]

/-- C8 witness: `generateAttachmentsHTML_overflow` at a concrete list of
twelve attachments. -/
theorem generateAttachmentsHTML_overflow_witness :
    10 < atts12.length ∧
    generateAttachmentsHTML atts12 =
      strL "<div class=\"attachments\">" ++
      (strL "<div class=\"grid-9\">\n        " ++
       joinL ((atts12.take 8).map (fun a => createImageElement atts12.length a (strL "ninth"))) ++
       strL "\n        <div class=\"attachment-item ninth more-overlay\">\n          " ++
       createImageElement atts12.length (atts12.getD 8 emptyAttachment) (strL "ninth") ++
       strL "\n          <div class=\"more-count\">+" ++ natStr (atts12.length - 9) ++
       strL "</div>\n        </div>\n      </div>") ++ strL "</div>" :=
  ⟨by decide, generateAttachmentsHTML_overflow atts12 (by decide)⟩

/-- C1: the attachment grid factors through the count-only layout table
`layoutHTML`: the produced markup is the table's case for
`attachments.length` (empty output at count 0), instantiated with the
per-tile renderer — so the grid case and tile nesting are selected by the
count alone, and an attachment's declared content type can only change the
per-tile markup inside `createImageElement`, never the selected case. -/
theorem attachments_layout_by_count (atts : List Attachment) :
    generateAttachmentsHTML atts =
      if atts.length = 0 then []
      else
        strL "<div class=\"attachments\">" ++
        layoutHTML atts.length
          (fun i cls => createImageElement atts.length (atts.getD i emptyAttachment) cls) ++
        strL "</div>" := by
  by_cases h0 : atts.length = 0
  · simp [generateAttachmentsHTML, h0]
  rw [if_neg h0]
  by_cases h1 : atts.length = 1
  · simp [generateAttachmentsHTML, layoutHTML, h0, h1]
  by_cases h2 : atts.length = 2
  · simp [generateAttachmentsHTML, layoutHTML, h0, h1, h2]
  by_cases h3 : atts.length = 3
  · simp [generateAttachmentsHTML, layoutHTML, h0, h1, h2, h3]
  by_cases h4 : atts.length = 4
  · simp [generateAttachmentsHTML, layoutHTML, h0, h1, h2, h3, h4]
  by_cases h5 : atts.length = 5
  · simp [generateAttachmentsHTML, layoutHTML, h0, h1, h2, h3, h4, h5]
  by_cases h6 : atts.length = 6
  · simp [generateAttachmentsHTML, layoutHTML, h0, h1, h2, h3, h4, h5, h6]
  by_cases h7 : atts.length = 7
  · simp [generateAttachmentsHTML, layoutHTML, h0, h1, h2, h3, h4, h5, h6, h7]
  by_cases h8 : atts.length = 8
  · simp [generateAttachmentsHTML, layoutHTML, h0, h1, h2, h3, h4, h5, h6, h7, h8]
  by_cases h9 : atts.length = 9
  · simp only [generateAttachmentsHTML, layoutHTML, h0, h1, h2, h3, h4, h5, h6, h7, h8, h9,
      if_false]
    rw [map_eq_range_map_getD atts _ emptyAttachment, h9]
    simp
  by_cases h10 : atts.length = 10
  · simp only [generateAttachmentsHTML, layoutHTML, h0, h1, h2, h3, h4, h5, h6, h7, h8, h9,
      h10, if_false]
    rw [map_drop_one_eq_range atts _ emptyAttachment, h10]
    simp
  · simp only [generateAttachmentsHTML, layoutHTML, h0, h1, h2, h3, h4, h5, h6, h7, h8, h9,
      h10, if_false]
    rw [map_take_eq_range atts _ emptyAttachment 8 (by omega)]

/-- C7 counterexample: the claim reads the emoji-only condition as
order-insensitive ("ignoring custom-emoji markers"), but the code's regex
accepts custom-emoji markers only after all whitespace and Unicode emoji.
On the trimmed input `<:x:1>😀` the marker-ignoring reading holds (deleting
the marker leaves a single emoji), so the claim requires the large class;
yet the code's test fails, full mode picks the default 18px class, and the
rendered output carries `text-emoji`, while the reversed `😀<:x:1>` gets
`large-emoji` — the choice depends on where the marker sits. -/
theorem emoji_sizing_counterexample :
    emojiOnlySpecTest (jsTrim (strL "<:x:1>😀")) = true ∧
    emojiOnlyTest (jsTrim (strL "<:x:1>😀")) = false ∧
    emojiClassFor false (strL "<:x:1>😀") = strL "emoji text-emoji" ∧
    emojiClassFor false (strL "😀<:x:1>") = strL "emoji large-emoji" ∧
    parseMarkdown "<:x:1>😀" false none =
      "<img class=\"emoji text-emoji\" alt=\":x:\" src=\"https://cdn.discordapp.com/emojis/1.webp?size=48\" style=\"width: 18px; height: 18px;\" /><img class=\"emoji text-emoji\" alt=\"😀\" src=\"https://cdn.jsdelivr.net/gh/twitter/twemoji@14.0.2/assets/72x72/1f600.png\" style=\"width: 18px; height: 18px;\" />" :=
  ⟨by decide, by decide, by decide, by decide, by decide⟩

/-- C7 (amended): the emoji size class is a three-way choice decided once,
before any substitution, from the original content (the factorisation
through `pipelineWith` makes the pre-pass choice explicit): reply mode
always selects the small class; full mode selects the large class exactly
when the trimmed message matches the order-sensitive emoji-only pattern —
any mix of whitespace and Unicode emoji first, followed by zero or more
custom-emoji markers each trailed by whitespace — and the default class
otherwise.  Concretely, three Unicode emoji render at 45px `large-emoji`,
and the same three prefixed by the letter `a` render at 18px `text-emoji`. -/
theorem emoji_sizing_spec :
    (∀ content isReply ctx, parseMarkdownL content isReply ctx =
      pipelineWith (emojiClassFor isReply content) (emojiSizeFor isReply content) content ctx) ∧
    (∀ content, emojiClassFor true content = strL "emoji reply-emoji") ∧
    (∀ content, emojiClassFor false content =
      if emojiOnlyTest (jsTrim content) then strL "emoji large-emoji"
      else strL "emoji text-emoji") ∧
    parseMarkdown "😀😁😂" false none =
      "<img class=\"emoji large-emoji\" alt=\"😀\" src=\"https://cdn.jsdelivr.net/gh/twitter/twemoji@14.0.2/assets/72x72/1f600.png\" style=\"width: 45px; height: 45px;\" /><img class=\"emoji large-emoji\" alt=\"😁\" src=\"https://cdn.jsdelivr.net/gh/twitter/twemoji@14.0.2/assets/72x72/1f601.png\" style=\"width: 45px; height: 45px;\" /><img class=\"emoji large-emoji\" alt=\"😂\" src=\"https://cdn.jsdelivr.net/gh/twitter/twemoji@14.0.2/assets/72x72/1f602.png\" style=\"width: 45px; height: 45px;\" />" ∧
    parseMarkdown "a😀😁😂" false none =
      "a<img class=\"emoji text-emoji\" alt=\"😀\" src=\"https://cdn.jsdelivr.net/gh/twitter/twemoji@14.0.2/assets/72x72/1f600.png\" style=\"width: 18px; height: 18px;\" /><img class=\"emoji text-emoji\" alt=\"😁\" src=\"https://cdn.jsdelivr.net/gh/twitter/twemoji@14.0.2/assets/72x72/1f601.png\" style=\"width: 18px; height: 18px;\" /><img class=\"emoji text-emoji\" alt=\"😂\" src=\"https://cdn.jsdelivr.net/gh/twitter/twemoji@14.0.2/assets/72x72/1f602.png\" style=\"width: 18px; height: 18px;\" />" := by
  refine ⟨?_, fun content => rfl, ?_, by decide, by decide⟩
  · intro content isReply ctx
    cases isReply
    · by_cases h : emojiOnlyTest (jsTrim content) <;>
        simp [parseMarkdownL, pipelineWith, emojiClassFor, emojiSizeFor, h]
    · simp [parseMarkdownL, pipelineWith, emojiClassFor, emojiSizeFor]
  · intro content
    by_cases h : emojiOnlyTest (jsTrim content) <;> simp [emojiClassFor, h]

lemma startsL_append_drop : ∀ (pat t : List Char), startsL pat t = true →
    pat ++ t.drop pat.length = t := by
  intro pat
  induction pat with
  | nil => intro t _; simp
  | cons p ps ih =>
    intro t h
    cases t with
    | nil => simp [startsL] at h
    | cons c cs =>
      simp only [startsL, Bool.and_eq_true, decide_eq_true_eq] at h
      obtain ⟨rfl, h2⟩ := h
      simpa using ih cs h2

lemma startsL_length : ∀ (pat t : List Char), startsL pat t = true → pat.length ≤ t.length := by
  intro pat
  induction pat with
  | nil => intro t _; simp
  | cons p ps ih =>
    intro t h
    cases t with
    | nil => simp [startsL] at h
    | cons c cs =>
      simp only [startsL, Bool.and_eq_true] at h
      simpa using ih cs h.2

lemma findSub_some : ∀ {pat s : List Char} {i : Nat}, findSub pat s = some i →
    startsL pat (s.drop i) = true := by
  intro pat s
  induction s with
  | nil =>
    intro i h
    unfold findSub at h
    split at h
    · cases h; simpa using ‹startsL pat [] = true›
    · cases h
  | cons c cs ih =>
    intro i h
    unfold findSub at h
    split at h
    · cases h; simpa using ‹startsL pat (c :: cs) = true›
    · rename_i hns
      rcases Option.map_eq_some'.mp h with ⟨i', hi', rfl⟩
      simpa using ih hi'

lemma findSub_decompose {s : List Char} {i : Nat}
    (h : findSub (strL "```") s = some i) :
    s.take i ++ strL "```" ++ s.drop (i + 3) = s := by
  have hst := findSub_some h
  have hi : i ≤ s.length := by
    by_contra hgt
    push_neg at hgt
    rw [List.drop_eq_nil_of_le (le_of_lt hgt)] at hst
    simp [startsL] at hst
  conv_rhs => rw [← List.take_append_drop i s]
  rw [List.append_assoc]
  congr 1
  have := startsL_append_drop (strL "```") (s.drop i) hst
  rw [← List.drop_drop]
  exact this

lemma findSub_some_length {s : List Char} {i : Nat}
    (h : findSub (strL "```") s = some i) : i + 3 ≤ s.length := by
  have hst := findSub_some h
  have := startsL_length _ _ hst
  simp only [List.length_drop] at this
  have : (3 : Nat) ≤ s.length - i := this
  by_contra hgt
  push_neg at hgt
  omega

lemma fenceLoopF_eq_none (f : Nat) (s : List Char)
    (h : findSub (strL "```") s = none) : fenceLoopF (f + 1) s = s := by
  unfold fenceLoopF
  simp only [h]

lemma fenceLoopF_eq_open (f : Nat) (s : List Char) (i : Nat)
    (h1 : findSub (strL "```") s = some i)
    (h2 : findSub (strL "```") (s.drop (i + 3)) = none) :
    fenceLoopF (f + 1) s = s.take i ++ strL "```" ++ s.drop (i + 3) := by
  unfold fenceLoopF
  simp only [h1, h2]

lemma fenceLoopF_eq_close (f : Nat) (s : List Char) (i j : Nat)
    (h1 : findSub (strL "```") s = some i)
    (h2 : findSub (strL "```") (s.drop (i + 3)) = some j) :
    fenceLoopF (f + 1) s =
      s.take i ++ renderCodeBlock ((s.drop (i + 3)).take j) ++
        fenceLoopF f ((s.drop (i + 3)).drop (j + 3)) := by
  conv_lhs => rw [fenceLoopF.eq_def]
  simp only [h1, h2]

lemma fenceLoopF_fuel_aux : ∀ (n : Nat) (s : List Char), s.length ≤ n →
    ∀ fuel fuel' : Nat, s.length < fuel → s.length < fuel' →
      fenceLoopF fuel s = fenceLoopF fuel' s := by
  intro n
  induction n with
  | zero =>
    intro s hs fuel fuel' hf hf'
    have hnil : s = [] := List.length_eq_zero.mp (Nat.le_zero.mp hs)
    subst hnil
    match fuel, hf with
    | f + 1, _ =>
    match fuel', hf' with
    | f' + 1, _ =>
    rw [fenceLoopF_eq_none f [] (by decide), fenceLoopF_eq_none f' [] (by decide)]
  | succ n ih =>
    intro s hs fuel fuel' hf hf'
    match fuel, hf with
    | f + 1, _ =>
    match fuel', hf' with
    | f' + 1, _ =>
    cases h1 : findSub (strL "```") s with
    | none => rw [fenceLoopF_eq_none f s h1, fenceLoopF_eq_none f' s h1]
    | some i =>
      cases h2 : findSub (strL "```") (s.drop (i + 3)) with
      | none => rw [fenceLoopF_eq_open f s i h1 h2, fenceLoopF_eq_open f' s i h1 h2]
      | some j =>
        rw [fenceLoopF_eq_close f s i j h1 h2, fenceLoopF_eq_close f' s i j h1 h2]
        have hi3 := findSub_some_length h1
        have hj3 := findSub_some_length h2
        simp only [List.length_drop] at hj3
        rw [ih ((s.drop (i + 3)).drop (j + 3))
          (by simp only [List.length_drop]; omega) f f'
          (by simp only [List.length_drop]; omega)
          (by simp only [List.length_drop]; omega)]

/-- C5: `parseMarkdown` is total.  The fenced-code scanning loop always
terminates — its value is independent of the fuel once the fuel exceeds
the subject length (each iteration consumes at least the six fence
characters), so the `s.length + 1` budget used by `parseMarkdownL` never
truncates; an opening fence with no closer is emitted literally
(`fenceLoopF` returns its input unchanged); and `parseMarkdown` yields a
result string for every input in every mode. -/
theorem parseMarkdown_total_spec :
    (∀ (s : List Char) (fuel fuel' : Nat), s.length < fuel → s.length < fuel' →
      fenceLoopF fuel s = fenceLoopF fuel' s) ∧
    (∀ (s : List Char) (i : Nat), findSub (strL "```") s = some i →
      findSub (strL "```") (s.drop (i + 3)) = none →
      fenceLoopF (s.length + 1) s = s) ∧
    (∀ (content : String) (isReply : Bool) (ctx : Option MentionCtx),
      ∃ out : String, parseMarkdown content isReply ctx = out) := by
  refine ⟨fun s => fenceLoopF_fuel_aux s.length s le_rfl, ?_, fun content isReply ctx => ⟨_, rfl⟩⟩
  intro s i h1 h2
  rw [fenceLoopF_eq_open s.length s i h1 h2]
  exact findSub_decompose h1

/-- C5 witness: the fuel bound and the literal unterminated fence at a
concrete input. -/
theorem parseMarkdown_total_spec_witness :
    (strL "x```y").length < 17 ∧ (strL "x```y").length < 6 ∧
    findSub (strL "```") (strL "x```y") = some 1 ∧
    findSub (strL "```") ((strL "x```y").drop (1 + 3)) = none ∧
    fenceLoopF 17 (strL "x```y") = fenceLoopF 6 (strL "x```y") ∧
    fenceLoopF ((strL "x```y").length + 1) (strL "x```y") = strL "x```y" :=
  ⟨by decide, by decide, by decide, by decide,
   parseMarkdown_total_spec.1 (strL "x```y") 17 6 (by decide) (by decide),
   parseMarkdown_total_spec.2.1 (strL "x```y") 1 (by decide) (by decide)⟩

/-! ## Scanner lemmas for the generic-link pass (C4) -/

lemma startsL_cons_iff (p c : Char) (ps t : List Char) :
    startsL (p :: ps) (c :: t) = (decide (p = c) && startsL ps t) := rfl

lemma startsL_append_split : ∀ (x pat y : List Char),
    startsL pat (x ++ y) = (startsL (pat.take x.length) x && startsL (pat.drop x.length) y) := by
  intro x
  induction x with
  | nil => intro pat y; simp [startsL]
  | cons c x' ih =>
    intro pat y
    cases pat with
    | nil => simp [startsL]
    | cons p ps =>
      simp only [List.cons_append, startsL_cons_iff, List.length_cons, List.take_succ_cons,
        List.drop_succ_cons]
      rw [ih ps y, Bool.and_assoc]

lemma startsL_self : ∀ (pat x : List Char), startsL pat (pat ++ x) = true := by
  intro pat
  induction pat with
  | nil => intro x; rfl
  | cons p ps ih => intro x; simp [startsL_cons_iff, ih]

lemma startsL_head : ∀ {p : Char} {ps t : List Char}, startsL (p :: ps) t = true →
    t.head? = some p := by
  intro p ps t h
  cases t with
  | nil => simp [startsL] at h
  | cons c cs =>
    simp only [startsL_cons_iff, Bool.and_eq_true, decide_eq_true_eq] at h
    simp [h.1]

lemma hasSub_of_startsL_drop : ∀ (l pat : List Char) (i : Nat),
    startsL pat (l.drop i) = true → hasSub pat l = true := by
  intro l
  induction l with
  | nil =>
    intro pat i h
    simp only [List.drop_nil] at h
    simpa [hasSub] using h
  | cons c cs ih =>
    intro pat i h
    cases i with
    | zero => simp only [hasSub, List.drop_zero] at h ⊢; rw [h]; simp
    | succ i =>
      simp only [List.drop_succ_cons] at h
      simp only [hasSub, ih pat i h, Bool.or_true]

lemma takeWhile_append_all {p : Char → Bool} : ∀ (w b : List Char),
    (∀ c ∈ w, p c = true) → (w ++ b).takeWhile p = w ++ b.takeWhile p := by
  intro w
  induction w with
  | nil => intro b _; simp
  | cons c w' ih =>
    intro b h
    simp only [List.cons_append, List.takeWhile_cons, h c (by simp), if_true]
    rw [ih b (fun d hd => h d (by simp [hd]))]

lemma takeWhile_nil_of_head {p : Char → Bool} (b : List Char)
    (hb : ∀ c, b.head? = some c → p c = false) : b.takeWhile p = [] := by
  cases b with
  | nil => rfl
  | cons c cs =>
    have := hb c rfl
    simp [List.takeWhile_cons, this]

/-! Fuel-independence and region-copy lemmas for `gsubF`. -/

lemma gsubF_zero (step : GsubStep) (flag : Bool) (s : List Char) :
    gsubF step 0 flag s = s := rfl

lemma gsubF_succ_nil (step : GsubStep) (f : Nat) (flag : Bool)
    (h : step flag [] = none) : gsubF step (f + 1) flag [] = [] := by
  conv_lhs => rw [gsubF.eq_def]
  simp [h]

lemma gsubF_succ_none_cons (step : GsubStep) (f : Nat) (flag : Bool) (c : Char)
    (rest : List Char) (h : step flag (c :: rest) = none) :
    gsubF step (f + 1) flag (c :: rest) = c :: gsubF step f false rest := by
  conv_lhs => rw [gsubF.eq_def]
  simp [h]

lemma gsubF_succ_some (step : GsubStep) (f : Nat) (flag : Bool) (s pfx body : List Char)
    (n : Nat) (h : step flag s = some (pfx, body, n)) (hn : n ≠ 0) :
    gsubF step (f + 1) flag s = pfx ++ body ++ gsubF step f false (s.drop n) := by
  conv_lhs => rw [gsubF.eq_def]
  simp [h, hn]

lemma gsubF_fuel (step : GsubStep)
    (hnil : ∀ flag, step flag [] = none)
    (hpos : ∀ flag s r, step flag s = some r → 1 ≤ r.2.2) :
    ∀ (n : Nat) (s : List Char), s.length ≤ n → ∀ (flag : Bool) (fuel fuel' : Nat),
      s.length ≤ fuel → s.length ≤ fuel' →
      gsubF step fuel flag s = gsubF step fuel' flag s := by
  intro n
  induction n with
  | zero =>
    intro s hs flag fuel fuel' _ _
    have hnilS : s = [] := List.length_eq_zero.mp (Nat.le_zero.mp hs)
    subst hnilS
    cases fuel <;> cases fuel' <;>
      simp [gsubF_zero, gsubF_succ_nil step _ _ (hnil _)]
  | succ n ih =>
    intro s hs flag fuel fuel' hf hf'
    cases s with
    | nil =>
      cases fuel <;> cases fuel' <;>
        simp [gsubF_zero, gsubF_succ_nil step _ _ (hnil _)]
    | cons c rest =>
      obtain ⟨f, rfl⟩ : ∃ f, fuel = f + 1 := ⟨fuel - 1, by simp at hf; omega⟩
      obtain ⟨f', rfl⟩ : ∃ f', fuel' = f' + 1 := ⟨fuel' - 1, by simp at hf'; omega⟩
      simp only [List.length_cons] at hs hf hf'
      cases hstep : step flag (c :: rest) with
      | none =>
        rw [gsubF_succ_none_cons step f flag c rest hstep,
          gsubF_succ_none_cons step f' flag c rest hstep]
        rw [ih rest (by omega) false f f' (by omega) (by omega)]
      | some r =>
        obtain ⟨pfx, body, m⟩ := r
        have hm : 1 ≤ m := hpos flag (c :: rest) (pfx, body, m) hstep
        rw [gsubF_succ_some step f flag _ pfx body m hstep (by omega),
          gsubF_succ_some step f' flag _ pfx body m hstep (by omega)]
        have hdl : ((c :: rest).drop m).length ≤ rest.length := by
          simp only [List.length_drop, List.length_cons]
          omega
        rw [ih ((c :: rest).drop m) (by omega) false f f' (by omega) (by omega)]

lemma gsubF_copy (step : GsubStep) :
    ∀ (a rest : List Char) (flag : Bool) (fuel : Nat), a.length ≤ fuel →
      (∀ i, i < a.length → step (if i = 0 then flag else false) (a.drop i ++ rest) = none) →
      gsubF step fuel flag (a ++ rest) =
        a ++ gsubF step (fuel - a.length) (if a.length = 0 then flag else false) rest := by
  intro a
  induction a with
  | nil => intro rest flag fuel _ _; simp
  | cons c a' ih =>
    intro rest flag fuel hfuel hnone
    simp only [List.length_cons] at hfuel
    obtain ⟨f, rfl⟩ : ∃ f, fuel = f + 1 := ⟨fuel - 1, by omega⟩
    have h0 := hnone 0 (by simp)
    simp only [if_pos rfl, List.drop_zero] at h0
    rw [List.cons_append, gsubF_succ_none_cons step f flag c (a' ++ rest) h0]
    have hrec := ih rest false f (by omega) ?_
    · rw [hrec]
      simp only [List.length_cons, Nat.succ_sub_succ]
      cases a' <;> simp
    · intro i hi
      have hh := hnone (i + 1) (by simpa using Nat.succ_lt_succ hi)
      simp only [List.drop_succ_cons] at hh
      simpa using hh

lemma startsL_pat_append : ∀ (p1 p2 t : List Char),
    startsL (p1 ++ p2) t = (startsL p1 t && startsL p2 (t.drop p1.length)) := by
  intro p1
  induction p1 with
  | nil => intro p2 t; simp [startsL]
  | cons p ps ih =>
    intro p2 t
    cases t with
    | nil => simp [startsL]
    | cons c cs =>
      simp only [List.cons_append, startsL_cons_iff, List.length_cons, List.drop_succ_cons]
      rw [ih p2 cs, Bool.and_assoc]

lemma hasSub_false_drop {pat l : List Char} (h : hasSub pat l = false) (i : Nat) :
    startsL pat (l.drop i) = false := by
  cases hs : startsL pat (l.drop i) with
  | false => rfl
  | true => rw [hasSub_of_startsL_drop l pat i hs] at h; cases h

/-- If `x` is non-empty, contains no occurrence of `"http"`, and no
proper tail of the pattern can begin `y`, then `"http"` does not begin
`x ++ y`. -/
lemma startsL_http_append_false (x y : List Char)
    (hx1 : x ≠ [])
    (hx2 : ∀ k, startsL (strL "http") (x.drop k) = false)
    (hy : ∀ m, 1 ≤ m → m < 4 → startsL ((strL "http").drop m) y = false) :
    startsL (strL "http") (x ++ y) = false := by
  rw [startsL_append_split]
  by_cases hm : 4 ≤ x.length
  · have ht : (strL "http").take x.length = strL "http" := by
      apply List.take_of_length_le
      simpa [strL] using hm
    have h0 := hx2 0
    rw [List.drop_zero] at h0
    rw [ht, h0]
    simp
  · have hx1' : 1 ≤ x.length := by
      cases x with
      | nil => exact absurd rfl hx1
      | cons _ _ => simp
    have h4 : x.length < 4 := by omega
    have := hy x.length hx1' h4
    rw [this]
    simp

lemma parseSchemeCS_none_of_no_http (s : List Char)
    (h : startsL (strL "http") s = false) : parseSchemeCS s = none := by
  unfold parseSchemeCS
  have h1 : startsL (strL "https://") s = false := by
    have : strL "https://" = strL "http" ++ strL "s://" := by rfl
    rw [this, startsL_pat_append, h]
    simp
  have h2 : startsL (strL "http://") s = false := by
    have : strL "http://" = strL "http" ++ strL "://" := by rfl
    rw [this, startsL_pat_append, h]
    simp
  rw [h1, h2]
  simp

lemma tryGenUrl_none_of_scheme (s : List Char) (h : parseSchemeCS s = none) :
    tryGenUrl s = none := by
  unfold tryGenUrl
  rw [h]

lemma parseSchemeCS_cons_h (c : Char) (t : List Char) (h : t.head? = some 'h') :
    parseSchemeCS (c :: t) = none := by
  apply parseSchemeCS_none_of_no_http
  have hpat : strL "http" = 'h' :: strL "ttp" := rfl
  rw [hpat, startsL_cons_iff]
  cases hst : startsL (strL "ttp") t with
  | false => simp
  | true =>
    have : t.head? = some 't' := startsL_head (by rw [← show strL "ttp" = 't' :: strL "tp" from rfl]; exact hst)
    rw [this] at h
    cases h

lemma parseSchemeCS_ge {s : List Char} {sl : Nat} (h : parseSchemeCS s = some sl) : 7 ≤ sl := by
  unfold parseSchemeCS at h
  split at h
  · cases h; omega
  · split at h
    · cases h; omega
    · cases h

lemma tryGenUrl_eq (s : List Char) : tryGenUrl s =
    match parseSchemeCS s with
    | none => none
    | some sl =>
      if ((s.drop sl).takeWhile isUrlChar).length = 0 then none
      else some (s.take (sl + ((s.drop sl).takeWhile isUrlChar).length),
                 sl + ((s.drop sl).takeWhile isUrlChar).length) := rfl

lemma tryGenUrl_pos {s url : List Char} {n : Nat} (h : tryGenUrl s = some (url, n)) :
    1 ≤ n := by
  rw [tryGenUrl_eq] at h
  split at h
  · cases h
  · rename_i sl heq
    split at h
    · cases h
    · simp only [Option.some.injEq, Prod.mk.injEq] at h
      obtain ⟨-, hn⟩ := h
      have := parseSchemeCS_ge heq
      omega

lemma stepGeneric_nil (flag : Bool) : stepGeneric flag [] = none := by
  cases flag <;> rfl

lemma stepGeneric_pos (flag : Bool) (s : List Char) (r : List Char × List Char × Nat)
    (h : stepGeneric flag s = some r) : 1 ≤ r.2.2 := by
  unfold stepGeneric at h
  split at h
  · rename_i url n heq
    split at h
    · cases h
    · cases h
      have hurl : tryGenUrl s = some (url, n) := by
        cases flag with
        | true => simpa using heq
        | false => simp at heq
      exact tryGenUrl_pos hurl
  · split at h
    · cases h
    · rename_i c rest
      split at h
      · split at h
        · rename_i url n heq2
          split at h
          · cases h
          · cases h
            simp only
            omega
        · cases h
      · cases h

lemma stepGeneric_false_cons (c : Char) (tail : List Char)
    (h : c = quoteC ∨ c = '=' ∨ tryGenUrl tail = none) :
    stepGeneric false (c :: tail) = none := by
  unfold stepGeneric
  simp only [Bool.false_eq_true, if_false]
  rcases h with h | h | h
  · subst h; simp
  · subst h; simp
  · by_cases h1 : c = quoteC
    · simp [h1]
    · by_cases h2 : c = '='
      · simp [h2]
      · simp [h1, h2, h]

lemma startsL_false_of_head {pat t : List Char} {p : Char} (hp : pat.head? = some p)
    (ht : ∀ c, t.head? = some c → c ≠ p) : startsL pat t = false := by
  cases pat with
  | nil => cases hp
  | cons q qs =>
    simp only [List.head?_cons, Option.some.injEq] at hp
    subst hp
    cases t with
    | nil => rfl
    | cons c cs =>
      have hc : c ≠ q := ht c rfl
      rw [startsL_cons_iff]
      have hd : decide (q = c) = false := by
        simp only [decide_eq_false_iff_not]
        exact fun h => hc h.symm
      rw [hd]
      simp

lemma parseSchemeCS_http (x : List Char) : parseSchemeCS (strL "http://" ++ x) = some 7 := by
  unfold parseSchemeCS
  have h1 : startsL (strL "https://") (strL "http://" ++ x) = false := by
    rw [startsL_append_split]
    rw [show startsL ((strL "https://").take (strL "http://").length) (strL "http://") = false
      from by decide]
    simp
  rw [h1, startsL_self]
  simp

lemma parseSchemeCS_https (x : List Char) :
    parseSchemeCS (strL "https://" ++ x) = some 8 := by
  unfold parseSchemeCS
  rw [startsL_self]
  simp

lemma tryGenUrl_some_scheme (s : List Char) (sl : Nat) (h : parseSchemeCS s = some sl) :
    tryGenUrl s =
      if ((s.drop sl).takeWhile isUrlChar).length = 0 then none
      else some (s.take (sl + ((s.drop sl).takeWhile isUrlChar).length),
                 sl + ((s.drop sl).takeWhile isUrlChar).length) := by
  rw [tryGenUrl_eq, h]

lemma tryGenUrl_scheme_append (sch w b : List Char)
    (hs : parseSchemeCS ((sch ++ w) ++ b) = some sch.length)
    (hw : w ≠ []) (hwc : ∀ c ∈ w, isUrlChar c = true)
    (hb : ∀ c, b.head? = some c → isUrlChar c = false) :
    tryGenUrl ((sch ++ w) ++ b) = some (sch ++ w, (sch ++ w).length) := by
  rw [tryGenUrl_some_scheme _ _ hs]
  rw [List.append_assoc, List.drop_left]
  have hTW : (w ++ b).takeWhile isUrlChar = w := by
    rw [takeWhile_append_all w b hwc, takeWhile_nil_of_head b hb, List.append_nil]
  rw [hTW]
  rw [if_neg (by simpa using hw)]
  rw [← List.append_assoc, List.take_left' (by simp), List.length_append]

lemma stepGeneric_cons_none (flag : Bool) (c : Char) (tail : List Char)
    (h0 : tryGenUrl (c :: tail) = none)
    (h : c = quoteC ∨ c = '=' ∨ tryGenUrl tail = none) :
    stepGeneric flag (c :: tail) = none := by
  cases flag with
  | false => exact stepGeneric_false_cons c tail h
  | true =>
    unfold stepGeneric
    simp only [if_pos, h0]
    rcases h with h | h | h
    · subst h; simp
    · subst h; simp
    · by_cases h1 : c = quoteC
      · simp [h1]
      · by_cases h2 : c = '='
        · simp [h2]
        · simp [h1, h2, h]

lemma stepGeneric_junction (flag : Bool) (c : Char) (u b : List Char)
    (hurl : tryGenUrl (u ++ b) = some (u, u.length))
    (hcons : tryGenUrl (c :: (u ++ b)) = none)
    (hq : c ≠ quoteC) (he : c ≠ '=') :
    stepGeneric flag (c :: (u ++ b)) =
      if markerAhead ((u ++ b).drop u.length) then none
      else some ([c], anchorRepl u, u.length + 1) := by
  have hif : (if flag = true then tryGenUrl (c :: (u ++ b)) else none) = none := by
    cases flag <;> simp [hcons]
  unfold stepGeneric
  rw [hif]
  simp [hurl, hq, he]

lemma region_no_match (R b : List Char)
    (hR : ∀ k, k ≤ R.length → parseSchemeCS (R.drop k ++ b) = none) :
    ∀ i, i < R.length → ∀ flag, stepGeneric flag (R.drop i ++ b) = none := by
  intro i hi flag
  cases hd : R.drop i with
  | nil =>
    exfalso
    have := List.drop_eq_nil_iff_le.mp hd
    omega
  | cons c t =>
    have h1 : tryGenUrl (R.drop i ++ b) = none :=
      tryGenUrl_none_of_scheme _ (hR i (le_of_lt hi))
    have ht : t = R.drop (i + 1) := by
      have h2 := List.drop_drop 1 i R
      rw [hd] at h2
      simpa using h2
    have h2 : tryGenUrl (t ++ b) = none := by
      rw [ht]
      exact tryGenUrl_none_of_scheme _ (hR (i + 1) (by omega))
    rw [hd] at h1
    exact stepGeneric_cons_none flag c (t ++ b) h1 (Or.inr (Or.inr h2))

lemma region_a_scheme_none (a : List Char) (c : Char) (u b : List Char)
    (hnoA : hasSub (strL "http") (a ++ [c]) = false)
    (hhead : (u ++ b).head? = some 'h') :
    ∀ k, k ≤ a.length → parseSchemeCS (a.drop k ++ (c :: (u ++ b))) = none := by
  intro k hk
  apply parseSchemeCS_none_of_no_http
  have hx : a.drop k ++ (c :: (u ++ b)) = ((a ++ [c]).drop k) ++ (u ++ b) := by
    rw [List.drop_append_of_le_length hk]
    simp
  rw [hx]
  apply startsL_http_append_false
  · intro hnil
    have := List.drop_eq_nil_iff_le.mp hnil
    simp at this
    omega
  · intro j
    rw [List.drop_drop]
    exact hasSub_false_drop hnoA (k + j)
  · intro m hm1 hm4
    interval_cases m
    · exact startsL_false_of_head (p := 't') rfl
        (fun ch hch hc => by rw [hch] at hhead; cases hhead; cases hc)
    · exact startsL_false_of_head (p := 't') rfl
        (fun ch hch hc => by rw [hch] at hhead; cases hhead; cases hc)
    · exact startsL_false_of_head (p := 'p') rfl
        (fun ch hch hc => by rw [hch] at hhead; cases hhead; cases hc)

lemma region_u_scheme_none (u b : List Char)
    (hnoU : hasSub (strL "http") (u.drop 1) = false)
    (hb : ∀ ch, b.head? = some ch → isUrlChar ch = false) :
    ∀ k, 1 ≤ k → parseSchemeCS (u.drop k ++ b) = none := by
  have hbne : ∀ (q : Char), isUrlChar q = true → ∀ ch, b.head? = some ch → ch ≠ q := by
    intro q hq ch hch hcq
    subst hcq
    rw [hb ch hch] at hq
    cases hq
  intro k hk
  apply parseSchemeCS_none_of_no_http
  by_cases hne : u.drop k = []
  · rw [hne, List.nil_append]
    exact startsL_false_of_head (p := 'h') rfl (hbne 'h' (by decide))
  · apply startsL_http_append_false _ _ hne
    · intro j
      rw [List.drop_drop]
      have hdd := hasSub_false_drop hnoU (k + j - 1)
      rw [List.drop_drop] at hdd
      have heq : 1 + (k + j - 1) = k + j := by omega
      rw [heq] at hdd
      exact hdd
    · intro m hm1 hm4
      interval_cases m
      · exact startsL_false_of_head (p := 't') rfl (hbne 't' (by decide))
      · exact startsL_false_of_head (p := 't') rfl (hbne 't' (by decide))
      · exact startsL_false_of_head (p := 'p') rfl (hbne 'p' (by decide))

lemma region_no_match' (R b : List Char)
    (hR : ∀ k, 1 ≤ k → k ≤ R.length → parseSchemeCS (R.drop k ++ b) = none)
    (h0 : stepGeneric false (R ++ b) = none) :
    ∀ i, i < R.length → stepGeneric false (R.drop i ++ b) = none := by
  intro i hi
  by_cases hz : i = 0
  · subst hz; simpa using h0
  · cases hd : R.drop i with
    | nil =>
      exfalso
      have := List.drop_eq_nil_iff.mp hd
      omega
    | cons c t =>
      have h1 : tryGenUrl (R.drop i ++ b) = none :=
        tryGenUrl_none_of_scheme _ (hR i (by omega) (le_of_lt hi))
      have ht : t = R.drop (i + 1) := by
        have h2 := List.drop_drop 1 i R
        rw [hd] at h2
        simpa using h2
      have h2 : tryGenUrl (t ++ b) = none := by
        rw [ht]
        exact tryGenUrl_none_of_scheme _ (hR (i + 1) (by omega) (by omega))
      rw [hd] at h1
      exact stepGeneric_cons_none false c (t ++ b) h1 (Or.inr (Or.inr h2))

/-- C4 counterexample: with a plain URL placed *before* a direct-media
URL, the negative lookahead of the generic-link pass sees the media pass's
sentinel ahead on the line and skips the plain URL entirely — no anchor is
produced — while the same plain URL placed *after* the media URL is
anchored.  The claim's "regardless of the URL's position relative to other
(processed or unprocessed) URLs" is therefore false. -/
theorem generic_link_position_counterexample :
    hasSub (strL "http://a.io ")
      (parseMarkdownL (strL "http://a.io https://b.com/x.png") false none) = true ∧
    hasSub (strL "<a ")
      (parseMarkdownL (strL "http://a.io https://b.com/x.png") false none) = false ∧
    hasSub (strL "<a href=\"http://a.io\"")
      (parseMarkdownL (strL "https://b.com/x.png http://a.io") false none) = true := by
  refine ⟨by decide, by decide, by decide⟩

/-- C4 (amended): in the generic-link pass, a URL token `u` that was not
rewritten by an earlier pass, sitting after a guard character `c` and a
scheme-free region `a`, is rewritten into an anchor exactly when no
`<!--PROCESSED_URL-->` sentinel (i.e. no earlier-pass rewrite) lies ahead
on the same line: with no sentinel ahead it becomes `anchorRepl u`; with a
sentinel ahead on the line it is skipped (the position-dependence the
original claim denies); and after `"` or `=` — as inside an earlier pass's
`src="…"` — it is always skipped. -/
theorem generic_link_pass_spec (a u w b : List Char) (c : Char)
    (hu : u = strL "http://" ++ w ∨ u = strL "https://" ++ w)
    (hw : w ≠ []) (hwc : ∀ ch ∈ w, isUrlChar ch = true)
    (hnoU : hasSub (strL "http") (u.drop 1) = false)
    (hb : ∀ ch, b.head? = some ch → isUrlChar ch = false)
    (hnoA : hasSub (strL "http") (a ++ [c]) = false) :
    (c ≠ quoteC → c ≠ '=' → markerAhead b = false →
      gsub stepGeneric (a ++ c :: (u ++ b)) =
        a ++ c :: (anchorRepl u ++ gsubF stepGeneric b.length false b)) ∧
    (c ≠ quoteC → c ≠ '=' → markerAhead b = true →
      gsub stepGeneric (a ++ c :: (u ++ b)) =
        a ++ c :: (u ++ gsubF stepGeneric b.length false b)) ∧
    ((c = quoteC ∨ c = '=') →
      gsub stepGeneric (a ++ c :: (u ++ b)) =
        a ++ c :: (u ++ gsubF stepGeneric b.length false b)) := by
  have hhead : (u ++ b).head? = some 'h' := by
    rcases hu with rfl | rfl <;> rfl
  have hurl : tryGenUrl (u ++ b) = some (u, u.length) := by
    rcases hu with rfl | rfl
    · exact tryGenUrl_scheme_append _ w b
        (by rw [List.append_assoc]; exact parseSchemeCS_http (w ++ b)) hw hwc hb
    · exact tryGenUrl_scheme_append _ w b
        (by rw [List.append_assoc]; exact parseSchemeCS_https (w ++ b)) hw hwc hb
  have hcons : tryGenUrl (c :: (u ++ b)) = none :=
    tryGenUrl_none_of_scheme _ (parseSchemeCS_cons_h c (u ++ b) hhead)
  -- the scan copies the region `a` verbatim
  have hLen : (a ++ c :: (u ++ b)).length = a.length + (u.length + b.length + 1) := by
    simp [List.length_append]
  have hcopyA : gsubF stepGeneric (a ++ c :: (u ++ b)).length true (a ++ c :: (u ++ b)) =
      a ++ gsubF stepGeneric (u.length + b.length + 1)
        (if a.length = 0 then true else false) (c :: (u ++ b)) := by
    have h := gsubF_copy stepGeneric a (c :: (u ++ b)) true (a ++ c :: (u ++ b)).length
      (by rw [hLen]; omega)
      (by
        intro i hi
        have hnone := region_no_match a (c :: (u ++ b))
          (region_a_scheme_none a c u b hnoA hhead) i hi
        exact hnone _)
    rw [h]
    have h2 : (a ++ c :: (u ++ b)).length - a.length = u.length + b.length + 1 := by
      rw [hLen]; omega
    rw [h2]
  -- the no-match continuation across `c` and `u`
  have hcopyU : gsubF stepGeneric (u.length + b.length) false (u ++ b) =
      u ++ gsubF stepGeneric b.length false b := by
    obtain ⟨t, hut⟩ : ∃ t, u = 'h' :: t := by
      rcases hu with rfl | rfl <;> exact ⟨_, rfl⟩
    have h0 : stepGeneric false (u ++ b) = none := by
      have htail : tryGenUrl (t ++ b) = none := by
        apply tryGenUrl_none_of_scheme
        have h1 := region_u_scheme_none u b hnoU hb 1 le_rfl
        rw [hut] at h1
        simpa using h1
      rw [hut, List.cons_append]
      exact stepGeneric_false_cons 'h' (t ++ b) (Or.inr (Or.inr htail))
    have h := gsubF_copy stepGeneric u b false (u.length + b.length) (by omega)
      (by
        intro i hi
        have hif : (if i = 0 then false else false) = false := by split <;> rfl
        rw [hif]
        exact region_no_match' u b
          (fun k hk1 _ => region_u_scheme_none u b hnoU hb k hk1) h0 i hi)
    rw [h]
    have hne : u.length ≠ 0 := by
      rw [hut]; simp
    rw [if_neg hne]
    have h2 : u.length + b.length - u.length = b.length := by omega
    rw [h2]
  have hflag := fun (flag : Bool) => stepGeneric_junction flag c u b hurl hcons
  refine ⟨?_, ?_, ?_⟩
  · intro hq he hm
    unfold gsub
    rw [hcopyA]
    rw [gsubF_succ_some stepGeneric (u.length + b.length) _ _ [c] (anchorRepl u)
      (u.length + 1) ?hstep (by omega)]
    case hstep =>
      rw [hflag _ hq he, List.drop_left, hm]
      simp
    have hdrop : (c :: (u ++ b)).drop (u.length + 1) = b := by
      rw [List.drop_succ_cons, List.drop_left]
    rw [hdrop]
    rw [gsubF_fuel stepGeneric stepGeneric_nil stepGeneric_pos b.length b le_rfl false
      (u.length + b.length) b.length (by omega) le_rfl]
    simp
  · intro hq he hm
    unfold gsub
    rw [hcopyA]
    have hnone : stepGeneric (if a.length = 0 then true else false) (c :: (u ++ b)) = none := by
      rw [hflag _ hq he, List.drop_left, hm]
      simp
    rw [gsubF_succ_none_cons stepGeneric (u.length + b.length) _ c (u ++ b) hnone]
    rw [hcopyU]
  · intro hg
    unfold gsub
    rw [hcopyA]
    have hnone : stepGeneric (if a.length = 0 then true else false) (c :: (u ++ b)) = none :=
      stepGeneric_cons_none _ c (u ++ b) hcons (by rcases hg with h | h
                                                   · exact Or.inl h
                                                   · exact Or.inr (Or.inl h))
    rw [gsubF_succ_none_cons stepGeneric (u.length + b.length) _ c (u ++ b) hnone]
    rw [hcopyU]

/-- C4 witness: `generic_link_pass_spec` at a concrete decomposition —
`"see "` ++ `' '`-guarded `"http://a.io"` ++ rest — in both the
no-sentinel (anchored) and sentinel-ahead (skipped) situations. -/
theorem generic_link_pass_spec_witness :
    gsub stepGeneric (strL "see" ++ ' ' :: (strL "http://a.io" ++ [])) =
      strL "see" ++ ' ' :: (anchorRepl (strL "http://a.io") ++
        gsubF stepGeneric (List.length ([] : List Char)) false []) ∧
    gsub stepGeneric (strL "see" ++ ' ' :: (strL "http://a.io" ++ (' ' :: marker))) =
      strL "see" ++ ' ' :: (strL "http://a.io" ++
        gsubF stepGeneric (' ' :: marker).length false (' ' :: marker)) := by
  constructor
  · exact (generic_link_pass_spec (strL "see") (strL "http://a.io") (strL "a.io") [] ' '
      (Or.inl (by decide)) (by decide) (by decide) (by decide)
      (by intro ch h; cases h) (by decide)).1 (by decide) (by decide) (by decide)
  · exact (generic_link_pass_spec (strL "see") (strL "http://a.io") (strL "a.io")
      (' ' :: marker) ' ' (Or.inl (by decide)) (by decide) (by decide) (by decide)
      (by intro ch h; simp at h; subst h; decide) (by decide)).2.1
      (by decide) (by decide) (by decide)

/-! ## Scanner lemmas for the sentinel-absence proof (C10) -/

lemma mrun_nil (st : MState) : mrun st [] = st := rfl

lemma mrun_cons (st : MState) (c : Char) (s : List Char) :
    mrun st (c :: s) = mrun (mstep st c) s := rfl

lemma mrun_append (st : MState) (x y : List Char) :
    mrun st (x ++ y) = mrun (mrun st x) y := List.foldl_append _ _ _ _

lemma mrun_dead : ∀ s : List Char, mrun MState.dead s = MState.dead := by
  intro s
  induction s with
  | nil => rfl
  | cons c t ih => rw [mrun_cons]; exact ih

lemma mstep_good_q0 {st : MState} {c : Char} (hg : mgood st = true)
    (hlt : c ≠ '<') (hbang : c ≠ '!') : mstep st c = MState.q0 := by
  cases st with
  | q0 => simp [mstep, hlt]
  | q1a => simp [mstep, hlt, hbang]
  | q1b => simp [mstep, hlt, hbang]
  | dead => simp [mgood] at hg
  | mid k => simp [mgood] at hg

lemma mrun_q0_stay : ∀ (s : List Char), (∀ c ∈ s, c ≠ '<') → mrun MState.q0 s = MState.q0 := by
  intro s
  induction s with
  | nil => intro _; rfl
  | cons c t ih =>
    intro h
    rw [mrun_cons]
    have hc : c ≠ '<' := h c (List.mem_cons_self c t)
    have hs : mstep MState.q0 c = MState.q0 := by simp [mstep, hc]
    rw [hs]
    exact ih (fun d hd => h d (List.mem_cons_of_mem c hd))

lemma mrun_good_q0 {st : MState} (hg : mgood st = true) (s : List Char) (hne : s ≠ [])
    (hhead : s.head? ≠ some '!') (hall : ∀ c ∈ s, c ≠ '<') : mrun st s = MState.q0 := by
  match s with
  | [] => exact absurd rfl hne
  | c :: t =>
    rw [mrun_cons]
    have hc : c ≠ '<' := hall c (List.mem_cons_self c t)
    have hb : c ≠ '!' := by
      intro h
      exact hhead (by rw [h]; rfl)
    rw [mstep_good_q0 hg hc hb]
    exact mrun_q0_stay t (fun d hd => hall d (List.mem_cons_of_mem c hd))

lemma drop_cons_getD (l : List Char) (k : Nat) (h : k < l.length) :
    l.drop k = l.getD k ' ' :: l.drop (k + 1) := by
  rw [List.getD_eq_getElem l ' ' h]
  exact (List.getElem_cons_drop l k h).symm

lemma mid_continue : ∀ (s : List Char) (k : Nat), 2 ≤ k → k ≤ 19 →
    mgood (mrun (MState.mid k) s) = true → startsL (marker.drop k) s = true := by
  intro s
  induction s with
  | nil =>
    intro k _ _ hg
    rw [mrun_nil] at hg
    simp [mgood] at hg
  | cons c t ih =>
    intro k h2 h19 hg
    rw [mrun_cons] at hg
    by_cases hc : c = marker.getD k ' '
    · have hk20 : k < marker.length := by
        have hl : marker.length = 20 := by decide
        omega
      rw [drop_cons_getD marker k hk20, startsL]
      by_cases hk19 : k = 19
      · subst hk19
        have h20 : marker.drop (19 + 1) = [] := by decide
        rw [h20]
        simp [startsL, hc]
      · have hst : mstep (MState.mid k) c = MState.mid (k + 1) := by
          simp only [mstep]
          rw [if_pos hc, if_neg hk19]
        rw [hst] at hg
        have hrec := ih (k + 1) (by omega) (by omega) hg
        simp [hc, hrec]
    · have hst : mstep (MState.mid k) c = MState.dead := by
        simp only [mstep]
        rw [if_neg hc]
      rw [hst, mrun_dead] at hg
      simp [mgood] at hg

lemma hasSub_cons_false {pat : List Char} {c : Char} {t : List Char}
    (h : hasSub pat (c :: t) = false) :
    startsL pat (c :: t) = false ∧ hasSub pat t = false := by
  rw [hasSub] at h
  exact ⟨by cases hs : startsL pat (c :: t) <;> simp [hs] at h ⊢,
         by cases hs : hasSub pat t <;> simp [hs] at h ⊢⟩

lemma hasSub_exists_startsL : ∀ (s pat : List Char), hasSub pat s = true →
    ∃ i, startsL pat (s.drop i) = true := by
  intro s
  induction s with
  | nil =>
    intro pat h
    rw [hasSub] at h
    exact ⟨0, h⟩
  | cons c t ih =>
    intro pat h
    rw [hasSub] at h
    cases hs : startsL pat (c :: t) with
    | true => exact ⟨0, hs⟩
    | false =>
      rw [hs] at h
      obtain ⟨i, hi⟩ := ih pat (by simpa using h)
      exact ⟨i + 1, by simpa using hi⟩

lemma noWin_single (c : Char) : hasSub win [c] = false := by
  simp [win, hasSub, startsL]

lemma noWin_of_no_lt : ∀ (x : List Char), (∀ c ∈ x, c ≠ '<') → hasSub win x = false := by
  intro x
  induction x with
  | nil => intro _; rfl
  | cons c t ih =>
    intro h
    have hc : c ≠ '<' := h c (List.mem_cons_self c t)
    rw [hasSub]
    have h1 : startsL win (c :: t) = false := by
      simp [win, startsL]
      intro he
      exact absurd he.symm hc
    rw [h1, ih (fun d hd => h d (List.mem_cons_of_mem c hd))]
    rfl

lemma startsL_win_irrel (c c2 : Char) (z w : List Char) :
    startsL win (c :: c2 :: z) = startsL win (c :: c2 :: w) := by
  simp [win, startsL]

lemma noWin_append : ∀ (x y : List Char), hasSub win x = false → hasSub win y = false →
    (x.getLast? = some '<' → y.head? ≠ some '!') → hasSub win (x ++ y) = false := by
  intro x
  induction x with
  | nil =>
    intro y _ hy _
    simpa using hy
  | cons c t ih =>
    intro y hx hy hb
    obtain ⟨hs, ht⟩ := hasSub_cons_false hx
    rw [List.cons_append, hasSub]
    have h2 : hasSub win (t ++ y) = false := by
      apply ih y ht hy
      intro hlast
      apply hb
      cases t with
      | nil => simp at hlast
      | cons a b => rw [← hlast]; rfl
    have h1 : startsL win (c :: (t ++ y)) = false := by
      cases t with
      | nil =>
        by_cases hc : c = '<'
        · subst hc
          cases y with
          | nil => simp [win, startsL]
          | cons d u =>
            have hd : d ≠ '!' := by
              intro h
              exact hb rfl (by rw [h]; rfl)
            simp [win, startsL]
            intro he
            exact absurd he.symm hd
        · simp [win, startsL]
          intro he
          exact absurd he.symm hc
      | cons c2 t2 =>
        rw [List.cons_append, startsL_win_irrel c c2 (t2 ++ y) t2]
        exact hs
    rw [h1, h2]
    rfl

lemma hasSub_win_of_marker (s : List Char) (h : hasSub marker s = true) :
    hasSub win s = true := by
  obtain ⟨i, hi⟩ := hasSub_exists_startsL s marker h
  have hsplit : marker = win ++ marker.drop 2 := by decide
  rw [hsplit, startsL_pat_append] at hi
  exact hasSub_of_startsL_drop s win i (by
    cases hw : startsL win (s.drop i) with
    | true => rfl
    | false => rw [hw] at hi; simp at hi)

lemma startsL_cons_elim {p : Char} {ps t : List Char} (h : startsL (p :: ps) t = true) :
    ∃ t2, t = p :: t2 ∧ startsL ps t2 = true := by
  cases t with
  | nil => simp [startsL] at h
  | cons c cs =>
    simp only [startsL_cons_iff, Bool.and_eq_true, decide_eq_true_eq] at h
    exact ⟨cs, by rw [h.1], h.2⟩

lemma guardStep_some_inv {tm : List Char → Option (List Char × Nat)} {flag : Bool}
    {s pfx body : List Char} {n : Nat}
    (h : guardStep tm flag s = some (pfx, body, n)) :
    (flag = true ∧ pfx = [] ∧ tm s = some (body, n)) ∨
    (∃ c rest n0, s = c :: rest ∧ pfx = [c] ∧ n = n0 + 1 ∧
      c ≠ quoteC ∧ c ≠ '=' ∧ tm rest = some (body, n0)) := by
  cases hflag : flag with
  | true =>
    rw [hflag] at h
    cases htm : tm s with
    | some bn =>
      obtain ⟨b0, n0⟩ := bn
      have hg : guardStep tm true s = some ([], b0, n0) := by
        simp [guardStep, htm]
      rw [hg, Option.some.injEq, Prod.mk.injEq, Prod.mk.injEq] at h
      refine Or.inl ⟨rfl, h.1.symm, ?_⟩
      rw [h.2.1, h.2.2]
    | none =>
      right
      cases s with
      | nil =>
        have hg : guardStep tm true [] = none := by simp [guardStep, htm]
        rw [hg] at h
        cases h
      | cons c rest =>
        by_cases h1 : c = quoteC
        · subst h1
          have hg : guardStep tm true (quoteC :: rest) = none := by simp [guardStep, htm]
          rw [hg] at h
          cases h
        · by_cases h2 : c = '='
          · subst h2
            have hg : guardStep tm true ('=' :: rest) = none := by simp [guardStep, htm]
            rw [hg] at h
            cases h
          · cases htr : tm rest with
            | none =>
              have hg : guardStep tm true (c :: rest) = none := by
                simp [guardStep, htm, htr]
              rw [hg] at h
              cases h
            | some bn2 =>
              obtain ⟨b2, n2⟩ := bn2
              have hg : guardStep tm true (c :: rest) = some ([c], b2, n2 + 1) := by
                simp [guardStep, htm, htr, h1, h2]
              rw [hg, Option.some.injEq, Prod.mk.injEq, Prod.mk.injEq] at h
              refine ⟨c, rest, n2, rfl, h.1.symm, h.2.2.symm, h1, h2, ?_⟩
              rw [h.2.1] at htr
              exact htr
  | false =>
    rw [hflag] at h
    right
    cases s with
    | nil =>
      have hg : guardStep tm false [] = none := by simp [guardStep]
      rw [hg] at h
      cases h
    | cons c rest =>
      by_cases h1 : c = quoteC
      · subst h1
        have hg : guardStep tm false (quoteC :: rest) = none := by simp [guardStep]
        rw [hg] at h
        cases h
      · by_cases h2 : c = '='
        · subst h2
          have hg : guardStep tm false ('=' :: rest) = none := by simp [guardStep]
          rw [hg] at h
          cases h
        · cases htr : tm rest with
          | none =>
            have hg : guardStep tm false (c :: rest) = none := by simp [guardStep, htr]
            rw [hg] at h
            cases h
          | some bn2 =>
            obtain ⟨b2, n2⟩ := bn2
            have hg : guardStep tm false (c :: rest) = some ([c], b2, n2 + 1) := by
              simp [guardStep, htr, h1, h2]
            rw [hg, Option.some.injEq, Prod.mk.injEq, Prod.mk.injEq] at h
            refine ⟨c, rest, n2, rfl, h.1.symm, h.2.2.symm, h1, h2, ?_⟩
            rw [h.2.1] at htr
            exact htr

lemma mstep_inv (st : MState) (c : Char) (rest : List Char)
    (hwf : mgood (mrun (mstep st c) rest) = true)
    (hinv : mgood st = true ∨ ∃ k, st = MState.mid k ∧ 2 ≤ k ∧ k ≤ 19) :
    mgood (mstep st c) = true ∨ ∃ k, mstep st c = MState.mid k ∧ 2 ≤ k ∧ k ≤ 19 := by
  have hnd : mstep st c ≠ MState.dead := by
    intro hd
    rw [hd, mrun_dead] at hwf
    simp [mgood] at hwf
  cases st with
  | dead => exact absurd rfl hnd
  | q0 =>
    left
    simp only [mstep]
    split <;> rfl
  | q1a =>
    simp only [mstep]
    by_cases hb : c = '!'
    · rw [if_pos hb]
      exact Or.inr ⟨2, rfl, by omega, by omega⟩
    · rw [if_neg hb]
      left
      split <;> rfl
  | q1b =>
    by_cases hb : c = '!'
    · exfalso
      apply hnd
      simp only [mstep]
      rw [if_pos hb]
    · simp only [mstep]
      rw [if_neg hb]
      left
      split <;> rfl
  | mid k =>
    rcases hinv with hg | ⟨k2, hke, h2, h19⟩
    · simp [mgood] at hg
    · injection hke with hkk
      subst hkk
      simp only [mstep]
      by_cases hc : c = marker.getD k ' '
      · rw [if_pos hc]
        by_cases h19e : k = 19
        · rw [if_pos h19e]
          left
          rfl
        · rw [if_neg h19e]
          exact Or.inr ⟨k + 1, rfl, by omega, by omega⟩
      · exfalso
        apply hnd
        simp only [mstep]
        rw [if_neg hc]

lemma lowerA_marker_tail : ∀ j, 2 ≤ j → j ≤ 19 → lowerA (marker.getD j ' ') ≠ 'h' := by
  intro j h2 h19
  interval_cases j <;> decide

lemma tm_none_of_marker_tail (tm : List Char → Option (List Char × Nat))
    (Tscheme : ∀ c t2, lowerA c ≠ 'h' → tm (c :: t2) = none)
    (j : Nat) (h2 : 2 ≤ j) (h19 : j ≤ 19) (rest : List Char)
    (hs : startsL (marker.drop j) rest = true) : tm rest = none := by
  have hdrop : marker.drop j = marker.getD j ' ' :: marker.drop (j + 1) :=
    drop_cons_getD marker j (by
      have hl : marker.length = 20 := by decide
      omega)
  rw [hdrop] at hs
  obtain ⟨t2, ht2, _⟩ := startsL_cons_elim hs
  rw [ht2]
  exact Tscheme _ _ (lowerA_marker_tail j h2 h19)

lemma guard_master (tm : List Char → Option (List Char × Nat))
    (Tpos : ∀ s body n, tm s = some (body, n) → 1 ≤ n)
    (Tshape : ∀ s body n, tm s = some (body, n) →
      (∀ c ∈ s.take n, c ≠ '<') ∧ ∃ ch t2, s = ch :: t2 ∧ lowerA ch = 'h')
    (Tbody : ∀ s body n, tm s = some (body, n) → ∀ st, mgood st = true →
      mrun st body = MState.q0)
    (Tscheme : ∀ c t2, lowerA c ≠ 'h' → tm (c :: t2) = none) :
    ∀ (fuel : Nat) (flag : Bool) (st : MState) (s : List Char),
      mgood (mrun st s) = true →
      (mgood st = true ∨ ∃ k, st = MState.mid k ∧ 2 ≤ k ∧ k ≤ 19) →
      (flag = true → st = MState.q0) →
      mgood (mrun st (gsubF (guardStep tm) fuel flag s)) = true := by
  intro fuel
  induction fuel with
  | zero =>
    intro flag st s hwf _ _
    rw [gsubF_zero]
    exact hwf
  | succ f ih =>
    intro flag st s hwf hinv hflag
    cases hstep : guardStep tm flag s with
    | none =>
      cases s with
      | nil =>
        rw [gsubF_succ_nil _ _ _ hstep]
        exact hwf
      | cons c rest =>
        rw [gsubF_succ_none_cons _ _ _ _ _ hstep, mrun_cons]
        rw [mrun_cons] at hwf
        exact ih false (mstep st c) rest hwf (mstep_inv st c rest hwf hinv)
          (by intro hh; cases hh)
    | some r =>
      obtain ⟨pfx, body, n⟩ := r
      rcases guardStep_some_inv hstep with ⟨hfl, hpfx, htm⟩ |
        ⟨c, rest, n0, hs, hpfx, hn, hq, he, htm⟩
      · -- anchored match at position 0: the flag forces the start state q0
        have hst0 : st = MState.q0 := hflag hfl
        subst hst0
        subst hpfx
        obtain ⟨hall, ch, t2, hs2, hch⟩ := Tshape s body n htm
        have hn1 : n ≠ 0 := by
          have := Tpos s body n htm
          omega
        rw [gsubF_succ_some _ _ _ _ _ _ _ hstep hn1]
        rw [List.nil_append, mrun_append]
        rw [Tbody s body n htm MState.q0 rfl]
        apply ih false MState.q0 (s.drop n) ?_ (Or.inl rfl) (by intro hh; cases hh)
        have hdecomp : mrun MState.q0 s = mrun (mrun MState.q0 (s.take n)) (s.drop n) := by
          rw [← mrun_append, List.take_append_drop]
        rw [mrun_q0_stay _ hall] at hdecomp
        rw [← hdecomp]
        exact hwf
      · -- match behind a copied prefix character
        subst hs
        subst hpfx
        subst hn
        rw [mrun_cons] at hwf
        have hgood1 : mgood (mstep st c) = true := by
          rcases mstep_inv st c rest hwf hinv with hg | ⟨k, hke, h2, h19⟩
          · exact hg
          · exfalso
            rw [hke] at hwf
            have hcont := mid_continue rest k h2 h19 hwf
            have hnone := tm_none_of_marker_tail tm Tscheme k h2 h19 rest hcont
            rw [htm] at hnone
            cases hnone
        have hn1 : n0 + 1 ≠ 0 := Nat.succ_ne_zero n0
        rw [gsubF_succ_some _ _ _ _ _ _ _ hstep hn1]
        have hsplit : mrun st ([c] ++ body ++
            gsubF (guardStep tm) f false ((c :: rest).drop (n0 + 1))) =
            mrun (mrun (mstep st c) body)
              (gsubF (guardStep tm) f false ((c :: rest).drop (n0 + 1))) := by
          rw [mrun_append, mrun_append]
          rfl
        rw [hsplit]
        rw [Tbody rest body n0 htm _ hgood1]
        apply ih false MState.q0 ((c :: rest).drop (n0 + 1)) ?_ (Or.inl rfl)
          (by intro hh; cases hh)
        rw [List.drop_succ_cons]
        obtain ⟨hall, ch, t2, hs2, hch⟩ := Tshape rest body n0 htm
        have hne : rest.take n0 ≠ [] := by
          rw [hs2]
          cases n0 with
          | zero => exact absurd (Tpos rest body 0 htm) (by omega)
          | succ m => simp
        have hhead : (rest.take n0).head? ≠ some '!' := by
          rw [hs2]
          cases n0 with
          | zero => exact absurd (Tpos rest body 0 htm) (by omega)
          | succ m =>
            simp only [List.take_succ_cons, List.head?_cons]
            intro hcon
            rw [Option.some.injEq] at hcon
            rw [hcon] at hch
            exact absurd hch (by decide)
        have htk := mrun_good_q0 hgood1 (rest.take n0) hne hhead hall
        have hdecomp : mrun (mstep st c) rest =
            mrun (mrun (mstep st c) (rest.take n0)) (rest.drop n0) := by
          rw [← mrun_append, List.take_append_drop]
        rw [htk] at hdecomp
        rw [← hdecomp]
        exact hwf

/-! Facts about the URL matchers feeding the scanner master lemma. -/

lemma startsCIL_length : ∀ (pat t : List Char), startsCIL pat t = true → pat.length ≤ t.length := by
  intro pat
  induction pat with
  | nil => intro t _; simp
  | cons p ps ih =>
    intro t h
    cases t with
    | nil => simp [startsCIL] at h
    | cons c cs =>
      simp only [startsCIL, Bool.and_eq_true] at h
      have := ih cs h.2
      simp only [List.length_cons]
      omega

lemma startsCIL_no_lt : ∀ (pat s : List Char), startsCIL pat s = true → '<' ∉ pat →
    ∀ c ∈ s.take pat.length, c ≠ '<' := by
  intro pat
  induction pat with
  | nil => intro s _ _ c hc; simp at hc
  | cons p ps ih =>
    intro s h hmem c hc
    cases s with
    | nil => simp [startsCIL] at h
    | cons d cs =>
      simp only [startsCIL, Bool.and_eq_true, decide_eq_true_eq] at h
      simp only [List.length_cons, List.take_succ_cons, List.mem_cons] at hc
      rcases hc with rfl | hc
      · intro hlt
        rw [hlt] at h
        have : p = '<' := by
          rw [h.1]
          decide
        exact hmem (by rw [this]; exact List.mem_cons_self _ _)
      · exact ih cs h.2 (fun hm => hmem (List.mem_cons_of_mem _ hm)) c hc

lemma startsCIL_head_lower : ∀ {p : Char} {ps s : List Char}, startsCIL (p :: ps) s = true →
    ∃ ch t2, s = ch :: t2 ∧ lowerA ch = p := by
  intro p ps s h
  cases s with
  | nil => simp [startsCIL] at h
  | cons c cs =>
    simp only [startsCIL, Bool.and_eq_true, decide_eq_true_eq] at h
    exact ⟨c, cs, rfl, h.1.symm⟩

lemma urlChar_ne_lt {c : Char} (h : isUrlChar c = true) : c ≠ '<' := by
  intro hc
  rw [hc] at h
  simp [isUrlChar] at h

lemma char_toNat_ofNatAux {n : Nat} (h : n.isValidChar) : (Char.ofNatAux n h).toNat = n := rfl

lemma char_toNat_ofNat {n : Nat} (h : n.isValidChar) : (Char.ofNat n).toNat = n := by
  unfold Char.ofNat
  rw [dif_pos h]
  exact char_toNat_ofNatAux h

lemma upperA_ne_lt {c : Char} (h : c ≠ '<') : upperA c ≠ '<' := by
  unfold upperA
  split
  · rename_i hr
    simp only [Bool.and_eq_true, decide_eq_true_eq] at hr
    intro he
    have hc1 : 97 ≤ c.toNat := hr.1
    have hc2 : c.toNat ≤ 122 := hr.2
    have hv : (c.toNat - 32).isValidChar := Or.inl (by omega)
    have ht := char_toNat_ofNat hv
    rw [he] at ht
    have h60 : ('<' : Char).toNat = 60 := by decide
    rw [h60] at ht
    omega
  · exact h

lemma parseSchemeCI_some_inv {s : List Char} {sl : Nat} (h : parseSchemeCI s = some sl) :
    (sl = 8 ∧ startsCIL (strL "https://") s = true) ∨
    (sl = 7 ∧ startsCIL (strL "http://") s = true) := by
  unfold parseSchemeCI at h
  split at h
  · rename_i hs
    rw [Option.some.injEq] at h
    exact Or.inl ⟨h.symm, hs⟩
  · split at h
    · rename_i hs
      rw [Option.some.injEq] at h
      exact Or.inr ⟨h.symm, hs⟩
    · cases h

lemma parseSchemeCI_none_head {c : Char} (t : List Char) (h : lowerA c ≠ 'h') :
    parseSchemeCI (c :: t) = none := by
  unfold parseSchemeCI
  have h1 : startsCIL (strL "https://") (c :: t) = false := by
    show startsCIL ('h' :: strL "ttps://") (c :: t) = false
    simp only [startsCIL, Bool.and_eq_false_iff]
    left
    simp only [decide_eq_false_iff_not]
    intro he
    exact h he.symm
  have h2 : startsCIL (strL "http://") (c :: t) = false := by
    show startsCIL ('h' :: strL "ttp://") (c :: t) = false
    simp only [startsCIL, Bool.and_eq_false_iff]
    left
    simp only [decide_eq_false_iff_not]
    intro he
    exact h he.symm
  rw [h1, h2]
  rfl

lemma parseSchemeCI_take_no_lt {s : List Char} {sl : Nat} (h : parseSchemeCI s = some sl) :
    ∀ c ∈ s.take sl, c ≠ '<' := by
  rcases parseSchemeCI_some_inv h with ⟨rfl, hs⟩ | ⟨rfl, hs⟩
  · have hh := startsCIL_no_lt (strL "https://") s hs (by decide)
    have hl : (strL "https://").length = 8 := by decide
    rw [hl] at hh
    exact hh
  · have hh := startsCIL_no_lt (strL "http://") s hs (by decide)
    have hl : (strL "http://").length = 7 := by decide
    rw [hl] at hh
    exact hh

lemma parseSchemeCI_head {s : List Char} {sl : Nat} (h : parseSchemeCI s = some sl) :
    ∃ ch t2, s = ch :: t2 ∧ lowerA ch = 'h' := by
  rcases parseSchemeCI_some_inv h with ⟨_, hs⟩ | ⟨_, hs⟩
  · exact startsCIL_head_lower (by exact hs)
  · exact startsCIL_head_lower (by exact hs)

lemma parseSchemeCI_pos {s : List Char} {sl : Nat} (h : parseSchemeCI s = some sl) : 1 ≤ sl := by
  rcases parseSchemeCI_some_inv h with ⟨rfl, _⟩ | ⟨rfl, _⟩ <;> omega

lemma takeWhile_no_lt (l : List Char) : ∀ c ∈ l.takeWhile isUrlChar, c ≠ '<' :=
  fun c hc => urlChar_ne_lt (List.mem_takeWhile_imp hc)

lemma take_of_prefix_sub {l R : List Char} (hR : R <+: l) {j : Nat} (hj : j ≤ R.length) :
    l.take j = R.take j := by
  have hRt : R = l.take R.length := List.prefix_iff_eq_take.mp hR
  rw [hRt, List.take_take]
  congr 1
  omega

lemma tryExt_length : ∀ (alts : List (List Char)) (s : List Char) {e : Nat},
    tryExt alts s = some e → e ≤ s.length := by
  intro alts
  induction alts with
  | nil => intro s e h; cases h
  | cons a rest ih =>
    intro s e h
    rw [tryExt] at h
    split at h
    · rename_i hst
      rw [Option.some.injEq] at h
      subst h
      exact startsCIL_length a s hst
    · exact ih s h

lemma mediaSplitAux_bound : ∀ (rest : List Char) (k0 : Nat) (best : Option (Nat × Nat)),
    (∀ a b, best = some (a, b) → a + 1 + b ≤ k0 + rest.length) →
    ∀ {k e : Nat}, mediaSplitAux rest k0 best = some (k, e) → k + 1 + e ≤ k0 + rest.length := by
  intro rest
  induction rest with
  | nil =>
    intro k0 best hbest k e h
    exact hbest k e h
  | cons c rest ih =>
    intro k0 best hbest k e h
    rw [mediaSplitAux] at h
    have hgoal : k + 1 + e ≤ (k0 + 1) + rest.length → k + 1 + e ≤ k0 + (c :: rest).length := by
      simp only [List.length_cons]
      omega
    apply hgoal
    apply ih (k0 + 1) _ ?_ h
    intro a b hab
    split at hab
    · rename_i hdot
      split at hab
      · rename_i e2 hext
        rw [Option.some.injEq, Prod.mk.injEq] at hab
        obtain ⟨rfl, rfl⟩ := hab
        have := tryExt_length extAlts rest hext
        omega
      · have hb2 := hbest a b hab
        have hlc : (c :: rest).length = rest.length + 1 := List.length_cons c rest
        omega
    · have hb2 := hbest a b hab
      have hlc : (c :: rest).length = rest.length + 1 := List.length_cons c rest
      omega

lemma mrun_good_cases {L : List Char} (h0 : mrun MState.q0 L = MState.q0)
    (h1 : mrun MState.q1a L = MState.q0) (h2 : mrun MState.q1b L = MState.q0)
    {st : MState} (hg : mgood st = true) : mrun st L = MState.q0 := by
  cases st with
  | q0 => exact h0
  | q1a => exact h1
  | q1b => exact h2
  | dead => simp [mgood] at hg
  | mid k => simp [mgood] at hg

lemma tryMediaUrl_eq (s : List Char) : tryMediaUrl s =
    match parseSchemeCI s with
    | none => none
    | some sl =>
      match mediaSplitAux ((s.drop sl).takeWhile isUrlChar) 0 none with
      | none => none
      | some (k, e) =>
        some (s.take sl ++ ((s.drop sl).takeWhile isUrlChar).take
                (if (((s.drop sl).takeWhile isUrlChar).drop (k + 1 + e)).headD ' ' = '?'
                 then k + 1 + e + (((s.drop sl).takeWhile isUrlChar).drop (k + 1 + e)).length
                 else k + 1 + e),
              (((s.drop sl).takeWhile isUrlChar).drop (k + 1)).take e,
              sl + (if (((s.drop sl).takeWhile isUrlChar).drop (k + 1 + e)).headD ' ' = '?'
                    then k + 1 + e + (((s.drop sl).takeWhile isUrlChar).drop (k + 1 + e)).length
                    else k + 1 + e)) := rfl

lemma tryMediaUrl_inv {s url ext : List Char} {n : Nat}
    (h : tryMediaUrl s = some (url, ext, n)) :
    ∃ sl urlLen, parseSchemeCI s = some sl ∧ n = sl + urlLen ∧
      urlLen ≤ ((s.drop sl).takeWhile isUrlChar).length ∧
      url = s.take sl ++ ((s.drop sl).takeWhile isUrlChar).take urlLen ∧
      (∀ c ∈ ext, isUrlChar c = true) := by
  rw [tryMediaUrl_eq] at h
  split at h
  · cases h
  · rename_i sl hsc
    split at h
    · cases h
    · rename_i ke k e hms
      rw [Option.some.injEq, Prod.mk.injEq, Prod.mk.injEq] at h
      obtain ⟨hurl, hext, hn⟩ := h
      have hbound : k + 1 + e ≤ ((s.drop sl).takeWhile isUrlChar).length := by
        have hb0 := mediaSplitAux_bound _ 0 none (by intro a b hab; cases hab) hms
        omega
      refine ⟨sl, (if (((s.drop sl).takeWhile isUrlChar).drop (k + 1 + e)).headD ' ' = '?'
                   then k + 1 + e + (((s.drop sl).takeWhile isUrlChar).drop (k + 1 + e)).length
                   else k + 1 + e), hsc, hn.symm, ?_, hurl.symm, ?_⟩
      · split
        · rw [List.length_drop]
          omega
        · omega
      · intro c hc
        rw [← hext] at hc
        exact List.mem_takeWhile_imp (List.drop_subset _ _ (List.take_subset _ _ hc))

lemma tryMediaG_pos : ∀ s body n, tryMediaG s = some (body, n) → 1 ≤ n := by
  intro s body n h
  unfold tryMediaG at h
  cases hm : tryMediaUrl s with
  | none => rw [hm] at h; cases h
  | some r =>
    obtain ⟨url, ext, n0⟩ := r
    rw [hm] at h
    rw [Option.some.injEq, Prod.mk.injEq] at h
    obtain ⟨_, hn⟩ := h
    subst hn
    obtain ⟨sl, urlLen, hsc, hn2, _⟩ := tryMediaUrl_inv hm
    have := parseSchemeCI_pos hsc
    omega

lemma tryMediaG_shape : ∀ s body n, tryMediaG s = some (body, n) →
    (∀ c ∈ s.take n, c ≠ '<') ∧ ∃ ch t2, s = ch :: t2 ∧ lowerA ch = 'h' := by
  intro s body n h
  unfold tryMediaG at h
  cases hm : tryMediaUrl s with
  | none => rw [hm] at h; cases h
  | some r =>
    obtain ⟨url, ext, n0⟩ := r
    rw [hm] at h
    rw [Option.some.injEq, Prod.mk.injEq] at h
    obtain ⟨_, hn⟩ := h
    subst hn
    obtain ⟨sl, urlLen, hsc, hn2, hub, hurl, hext⟩ := tryMediaUrl_inv hm
    constructor
    · subst hn2
      intro c hc
      rw [List.take_add] at hc
      rcases List.mem_append.mp hc with hc1 | hc2
      · exact parseSchemeCI_take_no_lt hsc c hc1
      · have hpre : (s.drop sl).takeWhile isUrlChar <+: s.drop sl := List.takeWhile_prefix _
        rw [take_of_prefix_sub hpre hub] at hc2
        exact takeWhile_no_lt _ c (List.take_subset _ _ hc2)
    · exact parseSchemeCI_head hsc

lemma tryMediaG_body : ∀ s body n, tryMediaG s = some (body, n) → ∀ st, mgood st = true →
    mrun st body = MState.q0 := by
  intro s body n h st hg
  unfold tryMediaG at h
  cases hm : tryMediaUrl s with
  | none => rw [hm] at h; cases h
  | some r =>
    obtain ⟨url, ext, n0⟩ := r
    rw [hm] at h
    rw [Option.some.injEq, Prod.mk.injEq] at h
    obtain ⟨hbody, _⟩ := h
    obtain ⟨sl, urlLen, hsc, hn2, hub, hurl, hextUrl⟩ := tryMediaUrl_inv hm
    have hurlLt : ∀ c ∈ url, c ≠ '<' := by
      rw [hurl]
      intro c hc
      rcases List.mem_append.mp hc with hc1 | hc2
      · exact parseSchemeCI_take_no_lt hsc c hc1
      · exact takeWhile_no_lt _ c (List.take_subset _ _ hc2)
    have hextLt : ∀ c ∈ upperL ext, c ≠ '<' := by
      intro c hc
      obtain ⟨d, hd, rfl⟩ := List.mem_map.mp hc
      exact upperA_ne_lt (urlChar_ne_lt (hextUrl d hd))
    have hA : mrun st
        (strL "<div class=\"direct-image-container\"><img class=\"direct-image\" src=\"") =
        MState.q0 := mrun_good_cases (by decide) (by decide) (by decide) hg
    have hB : mrun MState.q0 (strL "\" alt=\"Image (") = MState.q0 := by decide
    have hC : mrun MState.q0
        (strL ")\" loading=\"eager\" crossorigin=\"anonymous\" /></div>") = MState.q0 := by
      decide
    have hM : mrun MState.q0 marker = MState.q0 := by decide
    rw [← hbody]
    unfold mediaRepl
    rw [mrun_append, mrun_append, mrun_append, mrun_append, mrun_append]
    rw [hA, mrun_q0_stay url hurlLt, hB, mrun_q0_stay (upperL ext) hextLt, hC, hM]

lemma tryMediaG_scheme : ∀ c t2, lowerA c ≠ 'h' → tryMediaG (c :: t2) = none := by
  intro c t2 h
  unfold tryMediaG
  rw [tryMediaUrl_eq, parseSchemeCI_none_head t2 h]

lemma stepMedia_eq : ∀ (flag : Bool) (s : List Char),
    stepMedia flag s = guardStep tryMediaG flag s := by
  have hmap : ∀ t, tryMediaG t =
      (tryMediaUrl t).map (fun r => (mediaRepl r.1 r.2.1, r.2.2)) := by
    intro t
    unfold tryMediaG
    cases h : tryMediaUrl t with
    | none => rfl
    | some r => rfl
  intro flag s
  cases flag with
  | true =>
    cases hm : tryMediaUrl s with
    | some r => simp [stepMedia, guardStep, hmap, hm]
    | none =>
      cases s with
      | nil => simp [stepMedia, guardStep, hmap, hm]
      | cons c rest =>
        cases htr : tryMediaUrl rest with
        | some r => simp [stepMedia, guardStep, hmap, hm, htr]
        | none => simp [stepMedia, guardStep, hmap, hm, htr]
  | false =>
    cases s with
    | nil => simp [stepMedia, guardStep, hmap]
    | cons c rest =>
      cases htr : tryMediaUrl rest with
      | some r => simp [stepMedia, guardStep, hmap, htr]
      | none => simp [stepMedia, guardStep, hmap, htr]

lemma tryLitUrl_eq (lit s : List Char) : tryLitUrl lit s =
    match parseSchemeCI s with
    | none => none
    | some sl =>
      if startsCIL lit (s.drop sl) then
        if ((((s.drop sl).drop lit.length).takeWhile isUrlChar).length = 0) then none
        else some (s.take (sl + lit.length +
                     (((s.drop sl).drop lit.length).takeWhile isUrlChar).length),
                   sl + lit.length +
                     (((s.drop sl).drop lit.length).takeWhile isUrlChar).length)
      else none := rfl

lemma tryLitUrl_inv {lit s url : List Char} {n : Nat} (h : tryLitUrl lit s = some (url, n)) :
    ∃ sl, parseSchemeCI s = some sl ∧ startsCIL lit (s.drop sl) = true ∧
      n = sl + lit.length + (((s.drop sl).drop lit.length).takeWhile isUrlChar).length ∧
      1 ≤ (((s.drop sl).drop lit.length).takeWhile isUrlChar).length ∧
      url = s.take n := by
  rw [tryLitUrl_eq] at h
  split at h
  · cases h
  · rename_i sl hsc
    split at h
    · rename_i hlit
      split at h
      · cases h
      · rename_i hR
        rw [Option.some.injEq, Prod.mk.injEq] at h
        refine ⟨sl, hsc, hlit, h.2.symm, by omega, ?_⟩
        rw [← h.1, ← h.2]
    · cases h

lemma tryLitUrl_take_no_lt {lit s url : List Char} {n : Nat} (hlitlt : '<' ∉ lit)
    (h : tryLitUrl lit s = some (url, n)) : ∀ c ∈ s.take n, c ≠ '<' := by
  obtain ⟨sl, hsc, hlit, hn, hR1, hurl⟩ := tryLitUrl_inv h
  subst hn
  intro c hc
  rw [List.take_add] at hc
  rcases List.mem_append.mp hc with hcL | hcR
  · rw [List.take_add] at hcL
    rcases List.mem_append.mp hcL with hc1 | hc3
    · exact parseSchemeCI_take_no_lt hsc c hc1
    · exact startsCIL_no_lt lit (s.drop sl) hlit hlitlt c hc3
  · have hdd : s.drop (sl + lit.length) = (s.drop sl).drop lit.length := by
      rw [List.drop_drop, Nat.add_comm]
    rw [hdd] at hcR
    have hpre : ((s.drop sl).drop lit.length).takeWhile isUrlChar <+:
        (s.drop sl).drop lit.length := List.takeWhile_prefix _
    rw [take_of_prefix_sub hpre (le_refl _)] at hcR
    exact takeWhile_no_lt _ c (List.take_subset _ _ hcR)

lemma tryLitUrl_head {lit s url : List Char} {n : Nat} (h : tryLitUrl lit s = some (url, n)) :
    ∃ ch t2, s = ch :: t2 ∧ lowerA ch = 'h' := by
  obtain ⟨sl, hsc, _⟩ := tryLitUrl_inv h
  exact parseSchemeCI_head hsc

lemma tryLitUrl_pos {lit s url : List Char} {n : Nat} (h : tryLitUrl lit s = some (url, n)) :
    1 ≤ n := by
  obtain ⟨sl, hsc, _, hn, _⟩ := tryLitUrl_inv h
  have := parseSchemeCI_pos hsc
  omega

lemma tryLitUrl_none_head {lit : List Char} {c : Char} (t : List Char) (h : lowerA c ≠ 'h') :
    tryLitUrl lit (c :: t) = none := by
  rw [tryLitUrl_eq, parseSchemeCI_none_head t h]

lemma tryLitUrl_url_props {lit s url : List Char} {n : Nat} (hlitlt : '<' ∉ lit)
    (h : tryLitUrl lit s = some (url, n)) :
    url ≠ [] ∧ url.head? ≠ some '!' ∧ ∀ c ∈ url, c ≠ '<' := by
  obtain ⟨sl, hsc, hlit, hn, hR1, hurl⟩ := tryLitUrl_inv h
  obtain ⟨ch, t2, hs2, hch⟩ := parseSchemeCI_head hsc
  have hnp : 1 ≤ n := by
    have := parseSchemeCI_pos hsc
    omega
  have hlt := tryLitUrl_take_no_lt hlitlt h
  rw [← hurl] at hlt
  refine ⟨?_, ?_, hlt⟩
  · rw [hurl, hs2]
    cases n with
    | zero => omega
    | succ m => simp
  · rw [hurl, hs2]
    cases n with
    | zero => omega
    | succ m =>
      simp only [List.take_succ_cons, List.head?_cons]
      intro hcon
      rw [Option.some.injEq] at hcon
      rw [hcon] at hch
      exact absurd hch (by decide)

/-! Tenor-pass obligations. -/

lemma tryTenorG_pos : ∀ s body n, tryTenorG s = some (body, n) → 1 ≤ n := by
  intro s body n h
  unfold tryTenorG at h
  cases hm : tryLitUrl (strL "tenor.com/view/") s with
  | none => rw [hm] at h; cases h
  | some r =>
    obtain ⟨url, n0⟩ := r
    rw [hm] at h
    rw [Option.some.injEq, Prod.mk.injEq] at h
    obtain ⟨_, hn⟩ := h
    subst hn
    exact tryLitUrl_pos hm

lemma tryTenorG_shape : ∀ s body n, tryTenorG s = some (body, n) →
    (∀ c ∈ s.take n, c ≠ '<') ∧ ∃ ch t2, s = ch :: t2 ∧ lowerA ch = 'h' := by
  intro s body n h
  unfold tryTenorG at h
  cases hm : tryLitUrl (strL "tenor.com/view/") s with
  | none => rw [hm] at h; cases h
  | some r =>
    obtain ⟨url, n0⟩ := r
    rw [hm] at h
    rw [Option.some.injEq, Prod.mk.injEq] at h
    obtain ⟨_, hn⟩ := h
    subst hn
    exact ⟨tryLitUrl_take_no_lt (by decide) hm, tryLitUrl_head hm⟩

lemma tryTenorG_body : ∀ s body n, tryTenorG s = some (body, n) → ∀ st, mgood st = true →
    mrun st body = MState.q0 := by
  intro s body n h st hg
  unfold tryTenorG at h
  cases hm : tryLitUrl (strL "tenor.com/view/") s with
  | none => rw [hm] at h; cases h
  | some r =>
    obtain ⟨url, n0⟩ := r
    rw [hm] at h
    rw [Option.some.injEq, Prod.mk.injEq] at h
    obtain ⟨hbody, _⟩ := h
    obtain ⟨_, _, hurlLt⟩ := tryLitUrl_url_props (by decide) hm
    have hA : mrun st
        (strL "<div class=\"direct-image-container\"><img class=\"direct-image tenor-gif\" src=\"") =
        MState.q0 := mrun_good_cases (by decide) (by decide) (by decide) hg
    rw [← hbody]
    unfold tenorRepl
    rw [mrun_append, mrun_append, mrun_append, mrun_append, mrun_append, mrun_append,
        mrun_append, mrun_append]
    rw [hA, mrun_q0_stay url hurlLt]
    rw [show mrun MState.q0 (strL ".gif") = MState.q0 from by decide]
    rw [show mrun MState.q0
      (strL "\" alt=\"Tenor GIF\" loading=\"eager\" crossorigin=\"anonymous\" onerror=\"this.style.display=\x27none\x27; this.nextSibling.style.display=\x27inline\x27;\" /><a href=\"") =
      MState.q0 from by decide]
    rw [mrun_q0_stay url hurlLt]
    rw [show mrun MState.q0
      (strL "\" target=\"_blank\" rel=\"noopener noreferrer\" style=\"display: none; color: #00aff4;\">") =
      MState.q0 from by decide]
    rw [mrun_q0_stay url hurlLt]
    rw [show mrun MState.q0 (strL "</a></div>") = MState.q0 from by decide]
    rw [show mrun MState.q0 marker = MState.q0 from by decide]

lemma tryTenorG_scheme : ∀ c t2, lowerA c ≠ 'h' → tryTenorG (c :: t2) = none := by
  intro c t2 h
  unfold tryTenorG
  rw [tryLitUrl_none_head t2 h]

lemma stepTenor_eq : ∀ (flag : Bool) (s : List Char),
    stepTenor flag s = guardStep tryTenorG flag s := by
  have hmap : ∀ t, tryTenorG t =
      (tryLitUrl (strL "tenor.com/view/") t).map (fun r => (tenorRepl r.1, r.2)) := by
    intro t
    unfold tryTenorG
    cases h : tryLitUrl (strL "tenor.com/view/") t with
    | none => rfl
    | some r => rfl
  intro flag s
  cases flag with
  | true =>
    cases hm : tryLitUrl (strL "tenor.com/view/") s with
    | some r => simp [stepTenor, guardStep, hmap, hm]
    | none =>
      cases s with
      | nil => simp [stepTenor, guardStep, hmap, hm]
      | cons c rest =>
        cases htr : tryLitUrl (strL "tenor.com/view/") rest with
        | some r => simp [stepTenor, guardStep, hmap, hm, htr]
        | none => simp [stepTenor, guardStep, hmap, hm, htr]
  | false =>
    cases s with
    | nil => simp [stepTenor, guardStep, hmap]
    | cons c rest =>
      cases htr : tryLitUrl (strL "tenor.com/view/") rest with
      | some r => simp [stepTenor, guardStep, hmap, htr]
      | none => simp [stepTenor, guardStep, hmap, htr]

/-! Giphy-pass obligations. -/

lemma giphyValidate_alnum {tail id : List Char} (h : giphyValidate tail = some id) :
    ∀ c ∈ id, isAlnum c = true := by
  have heq : giphyValidate tail =
      match (tail.splitOn '-').getLast? with
      | none => none
      | some last =>
        if (tail.splitOn '-').all (fun sg => decide (sg ≠ [])) && last.all isAlnum then some last
        else none := rfl
  rw [heq] at h
  split at h
  · cases h
  · rename_i last hlast
    split at h
    · rename_i hcond
      rw [Option.some.injEq] at h
      subst h
      simp only [Bool.and_eq_true] at hcond
      exact fun c hc => List.all_eq_true.mp hcond.2 c hc
    · cases h

lemma giphyScan_alnum : ∀ (u : List Char) {id : List Char}, giphyScan u = some id →
    ∀ c ∈ id, isAlnum c = true := by
  intro u
  induction u with
  | nil => intro id h; cases h
  | cons c cs ih =>
    intro id h
    rw [giphyScan] at h
    split at h
    · split at h
      · rename_i id2 hv
        rw [Option.some.injEq] at h
        subst h
        exact giphyValidate_alnum hv
      · exact ih h
    · exact ih h

lemma alnum_ne_lt {c : Char} (h : isAlnum c = true) : c ≠ '<' := by
  intro hc
  subst hc
  exact absurd h (by decide)

lemma tryGiphyG_pos : ∀ s body n, tryGiphyG s = some (body, n) → 1 ≤ n := by
  intro s body n h
  unfold tryGiphyG at h
  cases hm : tryLitUrl (strL "giphy.com/gifs/") s with
  | none => rw [hm] at h; cases h
  | some r =>
    obtain ⟨url, n0⟩ := r
    rw [hm] at h
    rw [Option.some.injEq, Prod.mk.injEq] at h
    obtain ⟨_, hn⟩ := h
    subst hn
    exact tryLitUrl_pos hm

lemma tryGiphyG_shape : ∀ s body n, tryGiphyG s = some (body, n) →
    (∀ c ∈ s.take n, c ≠ '<') ∧ ∃ ch t2, s = ch :: t2 ∧ lowerA ch = 'h' := by
  intro s body n h
  unfold tryGiphyG at h
  cases hm : tryLitUrl (strL "giphy.com/gifs/") s with
  | none => rw [hm] at h; cases h
  | some r =>
    obtain ⟨url, n0⟩ := r
    rw [hm] at h
    rw [Option.some.injEq, Prod.mk.injEq] at h
    obtain ⟨_, hn⟩ := h
    subst hn
    exact ⟨tryLitUrl_take_no_lt (by decide) hm, tryLitUrl_head hm⟩

lemma tryGiphyG_body : ∀ s body n, tryGiphyG s = some (body, n) → ∀ st, mgood st = true →
    mrun st body = MState.q0 := by
  intro s body n h st hg
  unfold tryGiphyG at h
  cases hm : tryLitUrl (strL "giphy.com/gifs/") s with
  | none => rw [hm] at h; cases h
  | some r =>
    obtain ⟨url, n0⟩ := r
    rw [hm] at h
    rw [Option.some.injEq, Prod.mk.injEq] at h
    obtain ⟨hbody, _⟩ := h
    obtain ⟨hne, hhd, hurlLt⟩ := tryLitUrl_url_props (by decide) hm
    rw [← hbody]
    unfold giphyBody
    cases hscan : giphyScan url with
    | none => exact mrun_good_q0 hg url hne hhd hurlLt
    | some id =>
      have hidLt : ∀ c ∈ id, c ≠ '<' :=
        fun c hc => alnum_ne_lt (giphyScan_alnum url hscan c hc)
      have hA : mrun st
          (strL "<div class=\"direct-image-container\"><img class=\"direct-image giphy-gif\" src=\"") =
          MState.q0 := mrun_good_cases (by decide) (by decide) (by decide) hg
      unfold giphyRepl
      rw [mrun_append, mrun_append, mrun_append, mrun_append, mrun_append, mrun_append,
          mrun_append, mrun_append, mrun_append]
      rw [hA]
      rw [show mrun MState.q0 (strL "https://media.giphy.com/media/") = MState.q0 from by decide]
      rw [mrun_q0_stay id hidLt]
      rw [show mrun MState.q0 (strL "/giphy.gif") = MState.q0 from by decide]
      rw [show mrun MState.q0
        (strL "\" alt=\"Giphy GIF\" loading=\"eager\" crossorigin=\"anonymous\" onerror=\"this.style.display=\x27none\x27; this.nextSibling.style.display=\x27inline\x27;\" /><a href=\"") =
        MState.q0 from by decide]
      rw [mrun_q0_stay url hurlLt]
      rw [show mrun MState.q0
        (strL "\" target=\"_blank\" rel=\"noopener noreferrer\" style=\"display: none; color: #00aff4;\">") =
        MState.q0 from by decide]
      rw [mrun_q0_stay url hurlLt]
      rw [show mrun MState.q0 (strL "</a></div>") = MState.q0 from by decide]
      rw [show mrun MState.q0 marker = MState.q0 from by decide]

lemma tryGiphyG_scheme : ∀ c t2, lowerA c ≠ 'h' → tryGiphyG (c :: t2) = none := by
  intro c t2 h
  unfold tryGiphyG
  rw [tryLitUrl_none_head t2 h]

lemma stepGiphy_eq : ∀ (flag : Bool) (s : List Char),
    stepGiphy flag s = guardStep tryGiphyG flag s := by
  have hmap : ∀ t, tryGiphyG t =
      (tryLitUrl (strL "giphy.com/gifs/") t).map (fun r => (giphyBody r.1, r.2)) := by
    intro t
    unfold tryGiphyG
    cases h : tryLitUrl (strL "giphy.com/gifs/") t with
    | none => rfl
    | some r => rfl
  intro flag s
  cases flag with
  | true =>
    cases hm : tryLitUrl (strL "giphy.com/gifs/") s with
    | some r => simp [stepGiphy, guardStep, hmap, hm]
    | none =>
      cases s with
      | nil => simp [stepGiphy, guardStep, hmap, hm]
      | cons c rest =>
        cases htr : tryLitUrl (strL "giphy.com/gifs/") rest with
        | some r => simp [stepGiphy, guardStep, hmap, hm, htr]
        | none => simp [stepGiphy, guardStep, hmap, hm, htr]
  | false =>
    cases s with
    | nil => simp [stepGiphy, guardStep, hmap]
    | cons c rest =>
      cases htr : tryLitUrl (strL "giphy.com/gifs/") rest with
      | some r => simp [stepGiphy, guardStep, hmap, htr]
      | none => simp [stepGiphy, guardStep, hmap, htr]

/-! Imgur-pass obligations. -/

lemma alpha_ne_lt {c : Char} (h : isAsciiAlpha c = true) : c ≠ '<' := by
  intro hc
  subst hc
  exact absurd h (by decide)

lemma tryImgurUrl_inv {s url id : List Char} {n : Nat} (h : tryImgurUrl s = some (url, id, n)) :
    ∃ sl iLen, parseSchemeCI s = some sl ∧ url = s.take n ∧
      (iLen = 0 ∨ (iLen = 2 ∧ startsCIL (strL "i.") (s.drop sl) = true)) ∧
      startsCIL (strL "imgur.com/") ((s.drop sl).drop iLen) = true ∧
      id = (((s.drop sl).drop iLen).drop 10).takeWhile isAlnum ∧
      (n = sl + iLen + 10 + id.length ∨
       ∃ tl, ((((s.drop sl).drop iLen).drop 10).drop id.length) = '.' :: tl ∧
         n = sl + iLen + 10 + id.length + (1 + (tl.takeWhile isAsciiAlpha).length)) := by
  unfold tryImgurUrl at h
  split at h
  · cases h
  · rename_i sl hsc
    simp only [] at h
    split at h
    · rename_i hidot
      split at h
      · rename_i himg
        split at h
        · cases h
        · rename_i hidR
          rw [Option.some.injEq, Prod.mk.injEq, Prod.mk.injEq] at h
          obtain ⟨hurl, hid, hn⟩ := h
          subst hn
          subst hid
          refine ⟨sl, 2, hsc, hurl.symm, Or.inr ⟨rfl, hidot⟩, himg, rfl, ?_⟩
          split
          · rename_i hc
            simp only [Bool.and_eq_true, decide_eq_true_eq] at hc
            right
            cases hafter : (((s.drop sl).drop 2).drop 10).drop
                ((((s.drop sl).drop 2).drop 10).takeWhile isAlnum).length with
            | nil =>
              rw [hafter] at hc
              exact absurd hc.1 (by decide)
            | cons a tl =>
              rw [hafter] at hc
              have ha : a = '.' := by simpa using hc.1
              subst ha
              exact ⟨tl, rfl, by simp⟩
          · left
            omega
      · cases h
    · rename_i hidot
      split at h
      · rename_i himg
        split at h
        · cases h
        · rename_i hidR
          rw [Option.some.injEq, Prod.mk.injEq, Prod.mk.injEq] at h
          obtain ⟨hurl, hid, hn⟩ := h
          subst hn
          subst hid
          refine ⟨sl, 0, hsc, hurl.symm, Or.inl rfl, himg, rfl, ?_⟩
          split
          · rename_i hc
            simp only [Bool.and_eq_true, decide_eq_true_eq] at hc
            right
            cases hafter : (((s.drop sl).drop 0).drop 10).drop
                ((((s.drop sl).drop 0).drop 10).takeWhile isAlnum).length with
            | nil =>
              rw [hafter] at hc
              exact absurd hc.1 (by decide)
            | cons a tl =>
              rw [hafter] at hc
              have ha : a = '.' := by simpa using hc.1
              subst ha
              exact ⟨tl, rfl, by simp⟩
          · left
            omega
      · cases h

lemma tryImgurUrl_take_no_lt {s url id : List Char} {n : Nat}
    (h : tryImgurUrl s = some (url, id, n)) : ∀ c ∈ s.take n, c ≠ '<' := by
  obtain ⟨sl, iLen, hsc, hurl, hiLen, himg, hid, hn⟩ := tryImgurUrl_inv h
  have hdd1 : s.drop (sl + iLen) = (s.drop sl).drop iLen := by
    rw [List.drop_drop]
  have hdd2 : s.drop (sl + iLen + 10) = ((s.drop sl).drop iLen).drop 10 := by
    rw [← List.drop_drop, hdd1]
  have hdd3 : s.drop (sl + iLen + 10 + id.length) =
      (((s.drop sl).drop iLen).drop 10).drop id.length := by
    rw [← List.drop_drop, hdd2]
  have hMemCore : ∀ c ∈ s.take (sl + iLen + 10 + id.length), c ≠ '<' := by
    intro c hc
    rw [List.take_add, List.take_add, List.take_add] at hc
    rcases List.mem_append.mp hc with hc1 | hc4
    · rcases List.mem_append.mp hc1 with hc2 | hc3
      · rcases List.mem_append.mp hc2 with hcS | hcI
        · exact parseSchemeCI_take_no_lt hsc c hcS
        · rcases hiLen with rfl | ⟨rfl, hidot⟩
          · simp at hcI
          · have := startsCIL_no_lt (strL "i.") (s.drop sl) hidot (by decide)
            rw [show (strL "i.").length = 2 from by decide] at this
            exact this c hcI
      · rw [hdd1] at hc3
        have := startsCIL_no_lt (strL "imgur.com/") ((s.drop sl).drop iLen) himg (by decide)
        rw [show (strL "imgur.com/").length = 10 from by decide] at this
        exact this c hc3
    · rw [hdd2] at hc4
      have hpre : (((s.drop sl).drop iLen).drop 10).takeWhile isAlnum <+:
          ((s.drop sl).drop iLen).drop 10 := List.takeWhile_prefix _
      rw [← hid] at hpre
      rw [take_of_prefix_sub hpre (le_refl _)] at hc4
      have hc5 := List.take_subset _ _ hc4
      rw [hid] at hc5
      exact alnum_ne_lt (List.mem_takeWhile_imp hc5)
  rcases hn with rfl | ⟨tl, htl, rfl⟩
  · exact hMemCore
  · intro c hc
    rw [List.take_add] at hc
    rcases List.mem_append.mp hc with hc1 | hc2
    · exact hMemCore c hc1
    · rw [hdd3, htl] at hc2
      rw [Nat.add_comm 1 (tl.takeWhile isAsciiAlpha).length] at hc2
      simp only [List.take_succ_cons, List.mem_cons] at hc2
      rcases hc2 with rfl | hc3
      · decide
      · have hpre : tl.takeWhile isAsciiAlpha <+: tl := List.takeWhile_prefix _
        rw [take_of_prefix_sub hpre (le_refl _)] at hc3
        exact alpha_ne_lt (List.mem_takeWhile_imp (List.take_subset _ _ hc3))

lemma tryImgurG_pos : ∀ s body n, tryImgurG s = some (body, n) → 1 ≤ n := by
  intro s body n h
  unfold tryImgurG at h
  cases hm : tryImgurUrl s with
  | none => rw [hm] at h; cases h
  | some r =>
    obtain ⟨url, id, n0⟩ := r
    rw [hm] at h
    rw [Option.some.injEq, Prod.mk.injEq] at h
    obtain ⟨_, hn⟩ := h
    subst hn
    obtain ⟨sl, iLen, hsc, _, _, _, _, hn⟩ := tryImgurUrl_inv hm
    have := parseSchemeCI_pos hsc
    rcases hn with rfl | ⟨tl, _, rfl⟩ <;> omega

lemma tryImgurG_shape : ∀ s body n, tryImgurG s = some (body, n) →
    (∀ c ∈ s.take n, c ≠ '<') ∧ ∃ ch t2, s = ch :: t2 ∧ lowerA ch = 'h' := by
  intro s body n h
  unfold tryImgurG at h
  cases hm : tryImgurUrl s with
  | none => rw [hm] at h; cases h
  | some r =>
    obtain ⟨url, id, n0⟩ := r
    rw [hm] at h
    rw [Option.some.injEq, Prod.mk.injEq] at h
    obtain ⟨_, hn⟩ := h
    subst hn
    obtain ⟨sl, iLen, hsc, _⟩ := tryImgurUrl_inv hm
    exact ⟨tryImgurUrl_take_no_lt hm, parseSchemeCI_head hsc⟩

lemma tryImgurG_body : ∀ s body n, tryImgurG s = some (body, n) → ∀ st, mgood st = true →
    mrun st body = MState.q0 := by
  intro s body n h st hg
  unfold tryImgurG at h
  cases hm : tryImgurUrl s with
  | none => rw [hm] at h; cases h
  | some r =>
    obtain ⟨url, id, n0⟩ := r
    rw [hm] at h
    rw [Option.some.injEq, Prod.mk.injEq] at h
    obtain ⟨hbody, _⟩ := h
    obtain ⟨sl, iLen, hsc, hurl, _, _, hid, _⟩ := tryImgurUrl_inv hm
    have hurlLt : ∀ c ∈ url, c ≠ '<' := by
      rw [hurl]
      exact fun c hc => tryImgurUrl_take_no_lt hm c hc
    have hidLt : ∀ c ∈ id, c ≠ '<' := by
      rw [hid]
      exact fun c hc => alnum_ne_lt (List.mem_takeWhile_imp hc)
    have hA : mrun st
        (strL "<div class=\"direct-image-container\"><img class=\"direct-image imgur-gif\" src=\"") =
        MState.q0 := mrun_good_cases (by decide) (by decide) (by decide) hg
    rw [← hbody]
    unfold imgurRepl
    rw [mrun_append, mrun_append, mrun_append, mrun_append, mrun_append, mrun_append,
        mrun_append, mrun_append, mrun_append, mrun_append, mrun_append]
    rw [hA]
    rw [show mrun MState.q0 (strL "https://i.imgur.com/") = MState.q0 from by decide]
    rw [mrun_q0_stay id hidLt]
    rw [show mrun MState.q0 (strL ".gif") = MState.q0 from by decide]
    rw [show mrun MState.q0
      (strL "\" alt=\"Imgur Image\" loading=\"eager\" crossorigin=\"anonymous\" onerror=\"this.src=\x27https://i.imgur.com/") =
      MState.q0 from by decide]
    rw [mrun_q0_stay id hidLt]
    rw [show mrun MState.q0
      (strL ".jpg\x27; this.onerror=function()\x7bthis.style.display=\x27none\x27; this.nextSibling.style.display=\x27inline\x27;\x7d\" /><a href=\"") =
      MState.q0 from by decide]
    rw [mrun_q0_stay url hurlLt]
    rw [show mrun MState.q0
      (strL "\" target=\"_blank\" rel=\"noopener noreferrer\" style=\"display: none; color: #00aff4;\">") =
      MState.q0 from by decide]
    rw [mrun_q0_stay url hurlLt]
    rw [show mrun MState.q0 (strL "</a></div>") = MState.q0 from by decide]
    rw [show mrun MState.q0 marker = MState.q0 from by decide]

lemma tryImgurG_scheme : ∀ c t2, lowerA c ≠ 'h' → tryImgurG (c :: t2) = none := by
  intro c t2 h
  unfold tryImgurG tryImgurUrl
  rw [parseSchemeCI_none_head t2 h]

lemma stepImgur_eq : ∀ (flag : Bool) (s : List Char),
    stepImgur flag s = guardStep tryImgurG flag s := by
  have hmap : ∀ t, tryImgurG t =
      (tryImgurUrl t).map (fun r => (imgurRepl r.2.1 r.1, r.2.2)) := by
    intro t
    unfold tryImgurG
    cases h : tryImgurUrl t with
    | none => rfl
    | some r => rfl
  intro flag s
  cases flag with
  | true =>
    cases hm : tryImgurUrl s with
    | some r => simp [stepImgur, guardStep, hmap, hm]
    | none =>
      cases s with
      | nil => simp [stepImgur, guardStep, hmap, hm]
      | cons c rest =>
        cases htr : tryImgurUrl rest with
        | some r => simp [stepImgur, guardStep, hmap, hm, htr]
        | none => simp [stepImgur, guardStep, hmap, hm, htr]
  | false =>
    cases s with
    | nil => simp [stepImgur, guardStep, hmap]
    | cons c rest =>
      cases htr : tryImgurUrl rest with
      | some r => simp [stepImgur, guardStep, hmap, htr]
      | none => simp [stepImgur, guardStep, hmap, htr]

/-! Generic-link-pass obligations. -/

lemma parseSchemeCS_some_inv {s : List Char} {sl : Nat} (h : parseSchemeCS s = some sl) :
    (sl = 8 ∧ startsL (strL "https://") s = true) ∨
    (sl = 7 ∧ startsL (strL "http://") s = true) := by
  unfold parseSchemeCS at h
  split at h
  · rename_i hs
    rw [Option.some.injEq] at h
    exact Or.inl ⟨h.symm, hs⟩
  · split at h
    · rename_i hs
      rw [Option.some.injEq] at h
      exact Or.inr ⟨h.symm, hs⟩
    · cases h

lemma startsL_take_eq : ∀ (pat t : List Char), startsL pat t = true →
    t.take pat.length = pat := by
  intro pat t h
  have hd := startsL_append_drop pat t h
  conv_lhs => rw [← hd]
  exact List.take_left pat _

lemma parseSchemeCS_take_no_lt {s : List Char} {sl : Nat} (h : parseSchemeCS s = some sl) :
    ∀ c ∈ s.take sl, c ≠ '<' := by
  rcases parseSchemeCS_some_inv h with ⟨rfl, hs⟩ | ⟨rfl, hs⟩
  · have ht := startsL_take_eq _ _ hs
    rw [show (strL "https://").length = 8 from by decide] at ht
    rw [ht]
    intro c hc hlt
    subst hlt
    exact absurd hc (by decide)
  · have ht := startsL_take_eq _ _ hs
    rw [show (strL "http://").length = 7 from by decide] at ht
    rw [ht]
    intro c hc hlt
    subst hlt
    exact absurd hc (by decide)

lemma parseSchemeCS_head_h {s : List Char} {sl : Nat} (h : parseSchemeCS s = some sl) :
    ∃ t2, s = 'h' :: t2 := by
  rcases parseSchemeCS_some_inv h with ⟨_, hs⟩ | ⟨_, hs⟩
  · obtain ⟨t2, ht2, _⟩ :=
      startsL_cons_elim (show startsL ('h' :: strL "ttps://") s = true from hs)
    exact ⟨t2, ht2⟩
  · obtain ⟨t2, ht2, _⟩ :=
      startsL_cons_elim (show startsL ('h' :: strL "ttp://") s = true from hs)
    exact ⟨t2, ht2⟩

lemma parseSchemeCS_second {s : List Char} {sl : Nat} (h : parseSchemeCS s = some sl) :
    (s.drop 1).head? = some 't' := by
  rcases parseSchemeCS_some_inv h with ⟨_, hs⟩ | ⟨_, hs⟩
  · obtain ⟨t2, rfl, hs2⟩ :=
      startsL_cons_elim (show startsL ('h' :: strL "ttps://") s = true from hs)
    obtain ⟨t3, rfl, _⟩ :=
      startsL_cons_elim (show startsL ('t' :: strL "tps://") t2 = true from hs2)
    rfl
  · obtain ⟨t2, rfl, hs2⟩ :=
      startsL_cons_elim (show startsL ('h' :: strL "ttp://") s = true from hs)
    obtain ⟨t3, rfl, _⟩ :=
      startsL_cons_elim (show startsL ('t' :: strL "tp://") t2 = true from hs2)
    rfl

lemma tryGenUrl_inv {s url : List Char} {n : Nat} (h : tryGenUrl s = some (url, n)) :
    ∃ sl, parseSchemeCS s = some sl ∧
      n = sl + ((s.drop sl).takeWhile isUrlChar).length ∧
      1 ≤ ((s.drop sl).takeWhile isUrlChar).length ∧
      url = s.take n := by
  rw [tryGenUrl_eq] at h
  split at h
  · cases h
  · rename_i sl hsc
    split at h
    · cases h
    · rename_i hR
      rw [Option.some.injEq, Prod.mk.injEq] at h
      refine ⟨sl, hsc, h.2.symm, by omega, ?_⟩
      rw [← h.1, ← h.2]

lemma tryGenUrl_take_no_lt {s url : List Char} {n : Nat} (h : tryGenUrl s = some (url, n)) :
    ∀ c ∈ s.take n, c ≠ '<' := by
  obtain ⟨sl, hsc, hn, hR1, hurl⟩ := tryGenUrl_inv h
  subst hn
  intro c hc
  rw [List.take_add] at hc
  rcases List.mem_append.mp hc with hc1 | hc2
  · exact parseSchemeCS_take_no_lt hsc c hc1
  · have hpre : (s.drop sl).takeWhile isUrlChar <+: s.drop sl := List.takeWhile_prefix _
    rw [take_of_prefix_sub hpre (le_refl _)] at hc2
    exact takeWhile_no_lt _ c (List.take_subset _ _ hc2)

lemma tryGenericG_eq (s : List Char) : tryGenericG s =
    match tryGenUrl s with
    | some (url, n) => if markerAhead (s.drop n) then none else some (anchorRepl url, n)
    | none => none := rfl

lemma tryGenericG_inv {s body : List Char} {n : Nat} (h : tryGenericG s = some (body, n)) :
    ∃ url, tryGenUrl s = some (url, n) ∧ body = anchorRepl url := by
  rw [tryGenericG_eq] at h
  split at h
  · rename_i url n0 hm
    split at h
    · cases h
    · rw [Option.some.injEq, Prod.mk.injEq] at h
      obtain ⟨hb, hn⟩ := h
      subst hn
      exact ⟨url, hm, hb.symm⟩
  · cases h

lemma tryGenericG_pos : ∀ s body n, tryGenericG s = some (body, n) → 1 ≤ n := by
  intro s body n h
  obtain ⟨url, hm, _⟩ := tryGenericG_inv h
  exact tryGenUrl_pos hm

lemma tryGenericG_shape : ∀ s body n, tryGenericG s = some (body, n) →
    (∀ c ∈ s.take n, c ≠ '<') ∧ ∃ ch t2, s = ch :: t2 ∧ lowerA ch = 'h' := by
  intro s body n h
  obtain ⟨url, hm, _⟩ := tryGenericG_inv h
  obtain ⟨sl, hsc, _⟩ := tryGenUrl_inv hm
  obtain ⟨t2, hs2⟩ := parseSchemeCS_head_h hsc
  exact ⟨tryGenUrl_take_no_lt hm, 'h', t2, hs2, by decide⟩

lemma tryGenericG_body : ∀ s body n, tryGenericG s = some (body, n) → ∀ st, mgood st = true →
    mrun st body = MState.q0 := by
  intro s body n h st hg
  obtain ⟨url, hm, hbody⟩ := tryGenericG_inv h
  obtain ⟨sl, hsc, hn, hR1, hurl⟩ := tryGenUrl_inv hm
  have hurlLt : ∀ c ∈ url, c ≠ '<' := by
    rw [hurl]
    exact fun c hc => tryGenUrl_take_no_lt hm c hc
  have hA : mrun st (strL "<a href=\"") = MState.q0 :=
    mrun_good_cases (by decide) (by decide) (by decide) hg
  rw [hbody]
  unfold anchorRepl
  rw [mrun_append, mrun_append, mrun_append, mrun_append]
  rw [hA, mrun_q0_stay url hurlLt]
  rw [show mrun MState.q0 (strL "\" target=\"_blank\" rel=\"noopener noreferrer\">") =
    MState.q0 from by decide]
  rw [mrun_q0_stay url hurlLt]
  rw [show mrun MState.q0 (strL "</a>") = MState.q0 from by decide]

lemma tryGenericG_scheme : ∀ c t2, lowerA c ≠ 'h' → tryGenericG (c :: t2) = none := by
  intro c t2 h
  have hch : c ≠ 'h' := by
    intro he
    subst he
    exact h (by decide)
  have hcs : parseSchemeCS (c :: t2) = none := by
    apply parseSchemeCS_none_of_no_http
    apply startsL_false_of_head (show (strL "http").head? = some 'h' from rfl)
    intro d hd
    rw [List.head?_cons, Option.some.injEq] at hd
    subst hd
    exact hch
  unfold tryGenericG
  rw [tryGenUrl_eq, hcs]

lemma stepGeneric_eq : ∀ (flag : Bool) (s : List Char),
    stepGeneric flag s = guardStep tryGenericG flag s := by
  have hG_none : ∀ t, tryGenUrl t = none → tryGenericG t = none := by
    intro t ht
    simp [tryGenericG, ht]
  have hG_skip : ∀ t url n0, tryGenUrl t = some (url, n0) →
      markerAhead (t.drop n0) = true → tryGenericG t = none := by
    intro t url n0 ht hma
    simp [tryGenericG, ht, hma]
  have hG_hit : ∀ t url n0, tryGenUrl t = some (url, n0) →
      ¬markerAhead (t.drop n0) = true → tryGenericG t = some (anchorRepl url, n0) := by
    intro t url n0 ht hma
    simp [tryGenericG, ht, hma]
  intro flag s
  cases flag with
  | false =>
    cases s with
    | nil => rfl
    | cons c rest =>
      cases htr : tryGenUrl rest with
      | none => simp [stepGeneric, guardStep, hG_none rest htr, htr]
      | some r =>
        obtain ⟨url, n0⟩ := r
        by_cases hma : markerAhead (rest.drop n0) = true
        · simp [stepGeneric, guardStep, hG_skip rest url n0 htr hma, htr, hma]
        · simp [stepGeneric, guardStep, hG_hit rest url n0 htr hma, htr, hma]
  | true =>
    cases hm : tryGenUrl s with
    | none =>
      have h2 := hG_none s hm
      cases s with
      | nil => simp [stepGeneric, guardStep, h2, hm]
      | cons c rest =>
        cases htr : tryGenUrl rest with
        | none => simp [stepGeneric, guardStep, h2, hG_none rest htr, hm, htr]
        | some r =>
          obtain ⟨url, n0⟩ := r
          by_cases hma : markerAhead (rest.drop n0) = true
          · simp [stepGeneric, guardStep, h2, hG_skip rest url n0 htr hma, hm, htr, hma]
          · simp [stepGeneric, guardStep, h2, hG_hit rest url n0 htr hma, hm, htr, hma]
    | some r =>
      obtain ⟨url, n0⟩ := r
      by_cases hma : markerAhead (s.drop n0) = true
      · have h2 := hG_skip s url n0 hm hma
        obtain ⟨sl, hsc, _⟩ := tryGenUrl_inv hm
        obtain ⟨t2, hs2⟩ := parseSchemeCS_head_h hsc
        subst hs2
        have hsec := parseSchemeCS_second hsc
        have hrest : parseSchemeCS t2 = none := by
          apply parseSchemeCS_none_of_no_http
          apply startsL_false_of_head (show (strL "http").head? = some 'h' from rfl)
          intro d hd
          rw [show ('h' :: t2).drop 1 = t2 from rfl] at hsec
          rw [hsec, Option.some.injEq] at hd
          subst hd
          decide
        have htr : tryGenUrl t2 = none := tryGenUrl_none_of_scheme t2 hrest
        simp [stepGeneric, guardStep, h2, hG_none t2 htr, hm, htr, hma]
      · have h2 := hG_hit s url n0 hm hma
        simp [stepGeneric, guardStep, h2, hm, hma]

/-! Pointwise congruence for the scanner and facts about the escape pass. -/

lemma gsubF_succ_some_zero (step : GsubStep) (f : Nat) (flag : Bool) (s pfx body : List Char)
    (h : step flag s = some (pfx, body, 0)) :
    gsubF step (f + 1) flag s =
      (match s with
        | [] => []
        | c :: rest => c :: gsubF step f false rest) := by
  conv_lhs => rw [gsubF.eq_def]
  simp [h]
  cases s <;> rfl

lemma gsubF_congr (step1 step2 : GsubStep) (h : ∀ flag s, step1 flag s = step2 flag s) :
    ∀ (fuel : Nat) (flag : Bool) (s : List Char),
      gsubF step1 fuel flag s = gsubF step2 fuel flag s := by
  intro fuel
  induction fuel with
  | zero => intro flag s; rfl
  | succ f ih =>
    intro flag s
    cases hstep : step2 flag s with
    | none =>
      have h1 : step1 flag s = none := by rw [h flag s, hstep]
      cases s with
      | nil => rw [gsubF_succ_nil _ _ _ h1, gsubF_succ_nil _ _ _ hstep]
      | cons c rest =>
        rw [gsubF_succ_none_cons _ _ _ _ _ h1, gsubF_succ_none_cons _ _ _ _ _ hstep, ih]
    | some r =>
      obtain ⟨pfx, body, n⟩ := r
      have h1 : step1 flag s = some (pfx, body, n) := by rw [h flag s, hstep]
      by_cases hn : n = 0
      · subst hn
        rw [gsubF_succ_some_zero _ _ _ _ _ _ h1, gsubF_succ_some_zero _ _ _ _ _ _ hstep]
        cases s with
        | nil => rfl
        | cons c rest => simp [ih]
      · rw [gsubF_succ_some _ _ _ _ _ _ _ h1 hn, gsubF_succ_some _ _ _ _ _ _ _ hstep hn, ih]

lemma escapeHtmlL_no_lt : ∀ (s : List Char), ∀ c ∈ escapeHtmlL s, c ≠ '<' := by
  intro s
  induction s with
  | nil => intro c hc; simp [escapeHtmlL, mapConcat] at hc
  | cons a t ih =>
    intro c hc
    rw [show escapeHtmlL (a :: t) = escChar a ++ escapeHtmlL t from rfl] at hc
    rcases List.mem_append.mp hc with hc1 | hc2
    · unfold escChar at hc1
      split at hc1
      · exact (by decide : ∀ d ∈ strL "&amp;", d ≠ '<') c hc1
      · split at hc1
        · exact (by decide : ∀ d ∈ strL "&lt;", d ≠ '<') c hc1
        · split at hc1
          · exact (by decide : ∀ d ∈ strL "&gt;", d ≠ '<') c hc1
          · split at hc1
            · exact (by decide : ∀ d ∈ strL "&quot;", d ≠ '<') c hc1
            · split at hc1
              · exact (by decide : ∀ d ∈ strL "&#39;", d ≠ '<') c hc1
              · rename_i h1 h2 h3 h4 h5
                simp only [List.mem_singleton] at hc1
                subst hc1
                exact h2
    · exact ih c hc2

/-! The strip pass turns a well-formed string into one with no `<!` window. -/

lemma stepStrip_eq (flag : Bool) (s : List Char) :
    stepStrip flag s = if startsL marker s then some ([], [], marker.length) else none := rfl

lemma gsubF_strip_head (fuel : Nat) (flag : Bool) (s : List Char)
    (hns : startsL marker s = false) :
    (gsubF stepStrip fuel flag s).head? = s.head? := by
  cases fuel with
  | zero => rfl
  | succ f =>
    have hstep : stepStrip flag s = none := by
      rw [stepStrip_eq, hns]
      rfl
    cases s with
    | nil => rw [gsubF_succ_nil _ _ _ hstep]
    | cons c rest =>
      rw [gsubF_succ_none_cons _ _ _ _ _ hstep]
      rfl

lemma strip_aux : ∀ (fuel : Nat) (flag : Bool) (s : List Char) (st : MState),
    s.length ≤ fuel → mgood st = true →
    ((st = MState.q1a ∨ st = MState.q1b) → s.head? ≠ some '!') →
    mgood (mrun st s) = true →
    hasSub win (gsubF stepStrip fuel flag s) = false := by
  intro fuel
  induction fuel with
  | zero =>
    intro flag s st hlen _ _ _
    have hnil : s = [] := List.length_eq_zero.mp (Nat.le_zero.mp hlen)
    subst hnil
    rw [gsubF_zero]
    rfl
  | succ f ih =>
    intro flag s st hlen hg hinv hwf
    by_cases hm : startsL marker s = true
    · have hstep : stepStrip flag s = some ([], [], marker.length) := by
        rw [stepStrip_eq, hm]
        rfl
      have hn0 : marker.length ≠ 0 := by decide
      rw [gsubF_succ_some _ _ _ _ _ _ _ hstep hn0]
      simp only [List.nil_append]
      have hdec := startsL_append_drop marker s hm
      have hst0 : st = MState.q0 := by
        cases st with
        | q0 => rfl
        | q1a =>
          exfalso
          rw [← hdec, mrun_append,
              show mrun MState.q1a marker = MState.dead from by decide, mrun_dead] at hwf
          simp [mgood] at hwf
        | q1b =>
          exfalso
          rw [← hdec, mrun_append,
              show mrun MState.q1b marker = MState.dead from by decide, mrun_dead] at hwf
          simp [mgood] at hwf
        | dead => simp [mgood] at hg
        | mid k => simp [mgood] at hg
      subst hst0
      apply ih false _ MState.q0 ?_ rfl (by intro hq; rcases hq with hq | hq <;> cases hq) ?_
      · rw [List.length_drop]
        have hml : marker.length = 20 := by decide
        have hsl : 20 ≤ s.length := by
          have := startsL_length marker s hm
          rw [hml] at this
          exact this
        omega
      · rw [← hdec, mrun_append, show mrun MState.q0 marker = MState.q0 from by decide] at hwf
        exact hwf
    · have hm' : startsL marker s = false := by
        cases hx : startsL marker s
        · rfl
        · exact absurd hx hm
      have hstep : stepStrip flag s = none := by
        rw [stepStrip_eq, hm']
        rfl
      cases s with
      | nil =>
        rw [gsubF_succ_nil _ _ _ hstep]
        rfl
      | cons c rest =>
        rw [gsubF_succ_none_cons _ _ _ _ _ hstep]
        rw [mrun_cons] at hwf
        have hlen' : rest.length ≤ f := by
          rw [List.length_cons] at hlen
          omega
        -- the successor state is good
        have hg' : mgood (mstep st c) = true := by
          cases st with
          | q0 =>
            simp only [mstep]
            split <;> rfl
          | q1a =>
            have hc : c ≠ '!' := by
              intro he
              exact hinv (Or.inl rfl) (by rw [he]; rfl)
            simp only [mstep]
            rw [if_neg hc]
            split <;> rfl
          | q1b =>
            have hc : c ≠ '!' := by
              intro he
              exact hinv (Or.inr rfl) (by rw [he]; rfl)
            simp only [mstep]
            rw [if_neg hc]
            split <;> rfl
          | dead => simp [mgood] at hg
          | mid k => simp [mgood] at hg
        -- the successor invariant
        have hinv' : (mstep st c = MState.q1a ∨ mstep st c = MState.q1b) →
            rest.head? ≠ some '!' := by
          intro hq hhead
          cases hrest : rest with
          | nil => rw [hrest] at hhead; cases hhead
          | cons d r2 =>
            rw [hrest] at hhead
            rw [List.head?_cons, Option.some.injEq] at hhead
            subst hhead
            rcases hq with hq | hq
            · -- one pending < : the input continues with a full marker, contradicting no-match
              have hcq : c = '<' ∧ st = MState.q0 := by
                cases st with
                | q0 =>
                  refine ⟨?_, rfl⟩
                  by_contra hne
                  have hq0 : mstep MState.q0 c = MState.q0 := by
                    simp only [mstep]
                    rw [if_neg hne]
                  rw [hq0] at hq
                  cases hq
                | q1a =>
                  exfalso
                  have hc : c ≠ '!' := by
                    intro he
                    exact hinv (Or.inl rfl) (by rw [he]; rfl)
                  simp only [mstep] at hq
                  rw [if_neg hc] at hq
                  split at hq <;> cases hq
                | q1b =>
                  exfalso
                  have hc : c ≠ '!' := by
                    intro he
                    exact hinv (Or.inr rfl) (by rw [he]; rfl)
                  simp only [mstep] at hq
                  rw [if_neg hc] at hq
                  split at hq <;> cases hq
                | dead => simp [mgood] at hg
                | mid k => simp [mgood] at hg
              obtain ⟨hceq, hsteq⟩ := hcq
              subst hceq
              subst hsteq
              rw [hrest] at hwf
              rw [show mstep MState.q0 '<' = MState.q1a from by decide, mrun_cons,
                  show mstep MState.q1a '!' = MState.mid 2 from by decide] at hwf
              have hcont := mid_continue r2 2 (by omega) (by omega) hwf
              apply hm
              rw [hrest]
              rw [show marker = '<' :: '!' :: marker.drop 2 from by decide]
              rw [startsL_cons_iff, startsL_cons_iff]
              simp [hcont]
            · -- two pending < : the next ! would kill the scan
              rw [hq, hrest, mrun_cons,
                  show mstep MState.q1b '!' = MState.dead from by decide, mrun_dead] at hwf
              simp [mgood] at hwf
        have hrec := ih false rest (mstep st c) hlen' hg' hinv' hwf
        rw [hasSub]
        have hfirst : startsL win (c :: gsubF stepStrip f false rest) = false := by
          by_cases hc : c = '<'
          · subst hc
            have hstq : mstep MState.q0 '<' = MState.q1a ∧ mstep MState.q1a '<' = MState.q1b ∧
                mstep MState.q1b '<' = MState.q1b := by decide
            have hq1 : mstep st '<' = MState.q1a ∨ mstep st '<' = MState.q1b := by
              cases st with
              | q0 => exact Or.inl hstq.1
              | q1a => exact Or.inr hstq.2.1
              | q1b => exact Or.inr hstq.2.2
              | dead => simp [mgood] at hg
              | mid k => simp [mgood] at hg
            have hnsr : startsL marker rest = false := by
              cases hx : startsL marker rest with
              | false => rfl
              | true =>
                exfalso
                have hdec2 := startsL_append_drop marker rest hx
                rw [← hdec2, mrun_append] at hwf
                rcases hq1 with hq | hq <;>
                  rw [hq] at hwf
                · rw [show mrun MState.q1a marker = MState.dead from by decide,
                      mrun_dead] at hwf
                  simp [mgood] at hwf
                · rw [show mrun MState.q1b marker = MState.dead from by decide,
                      mrun_dead] at hwf
                  simp [mgood] at hwf
            have hhd := gsubF_strip_head f false rest hnsr
            have hrh : rest.head? ≠ some '!' := hinv' hq1
            have h2 : startsL ['!'] (gsubF stepStrip f false rest) = false := by
              apply startsL_false_of_head (show (['!'] : List Char).head? = some '!' from rfl)
              intro d hd he
              subst he
              apply hrh
              rw [← hhd]
              exact hd
            rw [show win = '<' :: ['!'] from rfl, startsL_cons_iff, h2]
            simp
          · exact startsL_false_of_head (show win.head? = some '<' from rfl)
              (by
                intro d hd
                rw [List.head?_cons, Option.some.injEq] at hd
                subst hd
                intro he
                exact hc he)
        rw [hfirst, hrec]
        rfl

/-! Assembly of the URL-pass phase: the string entering the strip pass is
well formed, so the stripped string has no `<!` window at all. -/

lemma gsub_guard_wf (tm : List Char → Option (List Char × Nat))
    (Tpos : ∀ s body n, tm s = some (body, n) → 1 ≤ n)
    (Tshape : ∀ s body n, tm s = some (body, n) →
      (∀ c ∈ s.take n, c ≠ '<') ∧ ∃ ch t2, s = ch :: t2 ∧ lowerA ch = 'h')
    (Tbody : ∀ s body n, tm s = some (body, n) → ∀ st, mgood st = true →
      mrun st body = MState.q0)
    (Tscheme : ∀ c t2, lowerA c ≠ 'h' → tm (c :: t2) = none)
    (stepX : GsubStep) (hstep : ∀ flag s, stepX flag s = guardStep tm flag s)
    (s : List Char) (hwf : mgood (mrun MState.q0 s) = true) :
    mgood (mrun MState.q0 (gsub stepX s)) = true := by
  unfold gsub
  rw [gsubF_congr stepX (guardStep tm) hstep]
  exact guard_master tm Tpos Tshape Tbody Tscheme s.length true MState.q0 s hwf (Or.inl rfl)
    (fun _ => rfl)

lemma phaseA_noWin (content : List Char) :
    hasSub win (gsub stepStrip (gsub stepGeneric (gsub stepImgur (gsub stepGiphy
      (gsub stepTenor (gsub stepMedia (escapeHtmlL content))))))) = false := by
  have h0 : mgood (mrun MState.q0 (escapeHtmlL content)) = true := by
    rw [mrun_q0_stay _ (escapeHtmlL_no_lt content)]
    rfl
  have h1 := gsub_guard_wf tryMediaG tryMediaG_pos tryMediaG_shape tryMediaG_body
    tryMediaG_scheme stepMedia stepMedia_eq _ h0
  have h2 := gsub_guard_wf tryTenorG tryTenorG_pos tryTenorG_shape tryTenorG_body
    tryTenorG_scheme stepTenor stepTenor_eq _ h1
  have h3 := gsub_guard_wf tryGiphyG tryGiphyG_pos tryGiphyG_shape tryGiphyG_body
    tryGiphyG_scheme stepGiphy stepGiphy_eq _ h2
  have h4 := gsub_guard_wf tryImgurG tryImgurG_pos tryImgurG_shape tryImgurG_body
    tryImgurG_scheme stepImgur stepImgur_eq _ h3
  have h5 := gsub_guard_wf tryGenericG tryGenericG_pos tryGenericG_shape tryGenericG_body
    tryGenericG_scheme stepGeneric stepGeneric_eq _ h4
  unfold gsub
  exact strip_aux _ true _ MState.q0 (le_refl _) rfl
    (by intro hq; rcases hq with hq | hq <;> cases hq) h5

/-! Substring monotonicity and window helpers for the second phase. -/

lemma startsL_isPrefix : ∀ (pat s : List Char), startsL pat s = true → pat <+: s := by
  intro pat
  induction pat with
  | nil => intro s _; exact List.nil_prefix
  | cons p ps ih =>
    intro s h
    obtain ⟨t2, rfl, h2⟩ := startsL_cons_elim h
    obtain ⟨w, hw⟩ := ih t2 h2
    exact ⟨w, by rw [List.cons_append, hw]⟩

lemma hasSub_infix_iff (pat s : List Char) : hasSub pat s = true ↔ pat <:+: s := by
  constructor
  · intro h
    obtain ⟨i, hi⟩ := hasSub_exists_startsL s pat h
    exact (startsL_isPrefix pat _ hi).isInfix.trans (List.drop_suffix i s).isInfix
  · intro h
    obtain ⟨u, v, huv⟩ := h
    apply hasSub_of_startsL_drop s pat u.length
    rw [← huv, List.append_assoc, List.drop_left]
    exact startsL_self pat v

lemma hasSub_false_of_within {pat x s : List Char} (hx : x <:+: s)
    (h : hasSub pat s = false) : hasSub pat x = false := by
  cases hc : hasSub pat x with
  | false => rfl
  | true =>
    have := (hasSub_infix_iff pat s).mpr (((hasSub_infix_iff pat x).mp hc).trans hx)
    rw [h] at this
    cases this

lemma head_append_ne {x y : List Char} (h : x ≠ []) : (x ++ y).head? = x.head? := by
  cases x with
  | nil => exact absurd rfl h
  | cons c t => rfl

lemma getLast_append_ne : ∀ (x : List Char) {B : List Char}, B ≠ [] →
    (x ++ B).getLast? = B.getLast? := by
  intro x
  induction x with
  | nil => intro B _; rfl
  | cons c t ih =>
    intro B hB
    rw [List.cons_append]
    cases htB : t ++ B with
    | nil =>
      obtain ⟨h1, h2⟩ := List.append_eq_nil.mp htB
      exact absurd h2 hB
    | cons d l2 =>
      rw [List.getLast?_cons_cons, ← htB]
      exact ih hB

lemma mem_of_getLast : ∀ (l : List Char) {a : Char}, l.getLast? = some a → a ∈ l := by
  intro l
  induction l with
  | nil => intro a h; cases h
  | cons c t ih =>
    intro a h
    cases t with
    | nil =>
      rw [List.getLast?_singleton, Option.some.injEq] at h
      subst h
      exact List.mem_cons_self _ _
    | cons d l2 =>
      rw [List.getLast?_cons_cons] at h
      exact List.mem_cons_of_mem c (ih h)

lemma noWin_cons_no_lt {c : Char} {t : List Char} (h : ∀ d ∈ t, d ≠ '<')
    (hh : t.head? ≠ some '!') : hasSub win (c :: t) = false := by
  rw [hasSub]
  have h2 : hasSub win t = false := noWin_of_no_lt t h
  have h1 : startsL win (c :: t) = false := by
    rw [show win = '<' :: ['!'] from rfl, startsL_cons_iff]
    have hb : startsL ['!'] t = false := by
      apply startsL_false_of_head (show (['!'] : List Char).head? = some '!' from rfl)
      intro d hd he
      subst he
      exact hh hd
    rw [hb]
    simp
  rw [h1, h2]
  rfl

lemma no_lt_append {x y : List Char} (hx : ∀ c ∈ x, c ≠ '<') (hy : ∀ c ∈ y, c ≠ '<') :
    ∀ c ∈ x ++ y, c ≠ '<' := by
  intro c hc
  rcases List.mem_append.mp hc with h | h
  · exact hx c h
  · exact hy c h

lemma noWin_snoc_piece {x y : List Char} (hx : hasSub win x = false)
    (hxl : x.getLast? ≠ some '<') (hy : ∀ c ∈ y, c ≠ '<') :
    hasSub win (x ++ y) = false ∧ (x ++ y).getLast? ≠ some '<' := by
  constructor
  · apply noWin_append x y hx (noWin_of_no_lt y hy)
    intro hl
    exact absurd hl hxl
  · cases hyy : y with
    | nil =>
      subst hyy
      rw [List.append_nil]
      exact hxl
    | cons d t =>
      rw [← hyy, getLast_append_ne x (by rw [hyy]; simp)]
      intro hl
      exact hy '<' (mem_of_getLast y hl) rfl

lemma noWin_wrap {A x B : List Char} (hA : hasSub win A = false) (hx : hasSub win x = false)
    (hB : hasSub win B = false) (hAlast : A.getLast? ≠ some '<')
    (hBhead : B.head? ≠ some '!') :
    hasSub win (A ++ x ++ B) = false := by
  apply noWin_append (A ++ x) B ?_ hB ?_
  · apply noWin_append A x hA hx
    intro hl
    exact absurd hl hAlast
  · intro _
    exact hBhead

/-! The phase-B scanner master: a pass whose replacement bodies are
window-free, non-empty, and do not open or extend a window at their
borders preserves window-freeness. -/

lemma gsub_noWin_master (step : GsubStep)
    (Ppos : ∀ flag s pfx body n, step flag s = some (pfx, body, n) → 1 ≤ n)
    (Ppfx : ∀ flag s pfx body n, step flag s = some (pfx, body, n) → pfx = [])
    (Pbody : ∀ flag s pfx body n, step flag s = some (pfx, body, n) →
      hasSub win s = false →
      hasSub win body = false ∧ body ≠ [] ∧ body.head? ≠ some '!' ∧
        body.getLast? ≠ some '<') :
    ∀ (fuel : Nat) (flag : Bool) (s : List Char), hasSub win s = false →
      hasSub win (gsubF step fuel flag s) = false ∧
      ((gsubF step fuel flag s).head? = some '!' → s.head? = some '!') := by
  intro fuel
  induction fuel with
  | zero =>
    intro flag s hs
    rw [gsubF_zero]
    exact ⟨hs, fun h => h⟩
  | succ f ih =>
    intro flag s hs
    cases hstep : step flag s with
    | none =>
      cases s with
      | nil =>
        rw [gsubF_succ_nil _ _ _ hstep]
        exact ⟨rfl, fun h => by cases h⟩
      | cons c rest =>
        rw [gsubF_succ_none_cons _ _ _ _ _ hstep]
        obtain ⟨hs1, hs2⟩ := hasSub_cons_false hs
        obtain ⟨hrec, hhead⟩ := ih false rest hs2
        constructor
        · rw [hasSub]
          have hfw : startsL win (c :: gsubF step f false rest) = false := by
            cases hx : startsL win (c :: gsubF step f false rest) with
            | false => rfl
            | true =>
              exfalso
              rw [show win = '<' :: ['!'] from rfl] at hx
              obtain ⟨t2, ht2, hx2⟩ := startsL_cons_elim hx
              rw [List.cons.injEq] at ht2
              obtain ⟨hc, hout⟩ := ht2
              subst hc
              obtain ⟨t3, ht3, _⟩ := startsL_cons_elim hx2
              have hh : (gsubF step f false rest).head? = some '!' := by
                rw [hout, ht3]
                rfl
              have hrh := hhead hh
              have hwin : startsL win ('<' :: rest) = true := by
                cases rest with
                | nil => cases hrh
                | cons d r2 =>
                  rw [List.head?_cons, Option.some.injEq] at hrh
                  subst hrh
                  rw [show win = '<' :: ['!'] from rfl, startsL_cons_iff, startsL_cons_iff]
                  simp [startsL]
              rw [hwin] at hs1
              cases hs1
          rw [hfw, hrec]
          rfl
        · intro h
          rw [List.head?_cons, Option.some.injEq] at h
          subst h
          rfl
    | some r =>
      obtain ⟨pfx, body, n⟩ := r
      have hpfx := Ppfx flag s pfx body n hstep
      subst hpfx
      have hn : n ≠ 0 := by
        have := Ppos flag s [] body n hstep
        omega
      rw [gsubF_succ_some _ _ _ _ _ _ _ hstep hn]
      simp only [List.nil_append]
      obtain ⟨hb, hbne, hbhd, hblast⟩ := Pbody flag s [] body n hstep hs
      have hdropNW : hasSub win (s.drop n) = false :=
        hasSub_false_of_within (List.drop_suffix n s).isInfix hs
      obtain ⟨hrec, hhead⟩ := ih false (s.drop n) hdropNW
      constructor
      · apply noWin_append body _ hb hrec
        intro hlast
        exact absurd hlast hblast
      · intro h
        exfalso
        cases body with
        | nil => exact hbne rfl
        | cons b bt =>
          rw [List.cons_append, List.head?_cons, Option.some.injEq] at h
          subst h
          exact hbhd rfl

/-! Per-pass window obligations: inline code and the emphasis pairs. -/

lemma append_ne_nil_left {x y : List Char} (h : x ≠ []) : x ++ y ≠ [] := by
  cases x with
  | nil => exact absurd rfl h
  | cons a b => simp

lemma stepInlineCode_inv {flag : Bool} {s pfx body : List Char} {n : Nat}
    (h : stepInlineCode flag s = some (pfx, body, n)) :
    pfx = [] ∧ 1 ≤ n ∧ ∃ c rest, s = c :: rest ∧
      body = strL "<code class=\"inline-code\">" ++
        rest.takeWhile (fun d => d ≠ '`' && d ≠ '\n') ++ strL "</code>" := by
  unfold stepInlineCode at h
  split at h
  · cases h
  · rename_i c rest
    split at h
    · rename_i hc
      simp only [] at h
      split at h
      · rw [Option.some.injEq, Prod.mk.injEq, Prod.mk.injEq] at h
        exact ⟨h.1.symm, by omega, c, rest, rfl, h.2.1.symm⟩
      · cases h
    · cases h

lemma stepInlineCode_noWin :
    (∀ flag s pfx body n, stepInlineCode flag s = some (pfx, body, n) → 1 ≤ n) ∧
    (∀ flag s pfx body n, stepInlineCode flag s = some (pfx, body, n) → pfx = []) ∧
    (∀ flag s pfx body n, stepInlineCode flag s = some (pfx, body, n) →
      hasSub win s = false →
      hasSub win body = false ∧ body ≠ [] ∧ body.head? ≠ some '!' ∧
        body.getLast? ≠ some '<') := by
  refine ⟨?_, ?_, ?_⟩
  · intro flag s pfx body n h
    exact (stepInlineCode_inv h).2.1
  · intro flag s pfx body n h
    exact (stepInlineCode_inv h).1
  · intro flag s pfx body n h hs
    obtain ⟨_, _, c, rest, hsc, hbody⟩ := stepInlineCode_inv h
    subst hsc
    subst hbody
    have hcontent : hasSub win (rest.takeWhile (fun d => d ≠ '`' && d ≠ '\n')) = false := by
      apply hasSub_false_of_within ?_ hs
      exact (List.takeWhile_prefix _).isInfix.trans
        (List.IsSuffix.isInfix ⟨[c], rfl⟩)
    refine ⟨?_, ?_, ?_, ?_⟩
    · exact noWin_wrap (by decide) hcontent (by decide) (by decide) (by decide)
    · exact append_ne_nil_left (append_ne_nil_left (by decide))
    · rw [head_append_ne (append_ne_nil_left (by decide)), head_append_ne (by decide)]
      decide
    · rw [getLast_append_ne _ (by decide)]
      decide

lemma stepPair_inv {delim openT closeT : List Char} {flag : Bool} {s pfx body : List Char}
    {n : Nat} (h : stepPair delim openT closeT flag s = some (pfx, body, n)) :
    pfx = [] ∧ ∃ d, body = openT ++ (s.drop delim.length).take d ++ closeT ∧
      n = delim.length + d + delim.length := by
  unfold stepPair at h
  split at h
  · simp only [] at h
    split at h
    · rename_i d hd
      rw [Option.some.injEq, Prod.mk.injEq, Prod.mk.injEq] at h
      exact ⟨h.1.symm, d, h.2.1.symm, h.2.2.symm⟩
    · cases h
  · cases h

lemma stepPair_noWin {delim openT closeT : List Char}
    (hdne : delim ≠ [])
    (hO : hasSub win openT = false) (hOne : openT ≠ [])
    (hOhd : openT.head? ≠ some '!') (hOlast : openT.getLast? ≠ some '<')
    (hC : hasSub win closeT = false) (hCne : closeT ≠ [])
    (hChd : closeT.head? ≠ some '!') (hClast : closeT.getLast? ≠ some '<') :
    (∀ flag s pfx body n, stepPair delim openT closeT flag s = some (pfx, body, n) → 1 ≤ n) ∧
    (∀ flag s pfx body n, stepPair delim openT closeT flag s = some (pfx, body, n) →
      pfx = []) ∧
    (∀ flag s pfx body n, stepPair delim openT closeT flag s = some (pfx, body, n) →
      hasSub win s = false →
      hasSub win body = false ∧ body ≠ [] ∧ body.head? ≠ some '!' ∧
        body.getLast? ≠ some '<') := by
  have hdl : 1 ≤ delim.length := by
    cases delim with
    | nil => exact absurd rfl hdne
    | cons a b => simp
  refine ⟨?_, ?_, ?_⟩
  · intro flag s pfx body n h
    obtain ⟨_, d, _, hn⟩ := stepPair_inv h
    omega
  · intro flag s pfx body n h
    exact (stepPair_inv h).1
  · intro flag s pfx body n h hs
    obtain ⟨_, d, hbody, _⟩ := stepPair_inv h
    subst hbody
    have hcontent : hasSub win ((s.drop delim.length).take d) = false := by
      apply hasSub_false_of_within ?_ hs
      exact (List.take_prefix _ _).isInfix.trans (List.drop_suffix _ s).isInfix
    refine ⟨?_, ?_, ?_, ?_⟩
    · exact noWin_wrap hO hcontent hC hOlast hChd
    · exact append_ne_nil_left (append_ne_nil_left hOne)
    · rw [head_append_ne (append_ne_nil_left hOne), head_append_ne hOne]
      exact hOhd
    · rw [getLast_append_ne _ hCne]
      exact hClast

/-! Per-pass window obligations: mentions. -/

lemma parseUserMention_pos {s id : List Char} {n : Nat}
    (hp : parseUserMention s = some (id, n)) : 1 ≤ n := by
  unfold parseUserMention at hp
  split at hp
  · simp only [] at hp
    repeat' split at hp
    all_goals
      first
      | (rw [Option.some.injEq, Prod.mk.injEq] at hp; omega)
      | cases hp
  · cases hp

lemma parseChannelMention_pos {s id : List Char} {n : Nat}
    (hp : parseChannelMention s = some (id, n)) : 1 ≤ n := by
  unfold parseChannelMention at hp
  split at hp
  · simp only [] at hp
    repeat' split at hp
    all_goals
      first
      | (rw [Option.some.injEq, Prod.mk.injEq] at hp; omega)
      | cases hp
  · cases hp

lemma parseRoleMention_pos {s id : List Char} {n : Nat}
    (hp : parseRoleMention s = some (id, n)) : 1 ≤ n := by
  unfold parseRoleMention at hp
  split at hp
  · simp only [] at hp
    repeat' split at hp
    all_goals
      first
      | (rw [Option.some.injEq, Prod.mk.injEq] at hp; omega)
      | cases hp
  · cases hp

lemma stepUser_inv {ctx : Option MentionCtx} {flag : Bool} {s pfx body : List Char} {n : Nat}
    (h : stepUser ctx flag s = some (pfx, body, n)) :
    pfx = [] ∧ 1 ≤ n ∧
      (body = strL "<span class=\"mention user-mention\">@User</span>" ∨
       ∃ name, body = strL "<span class=\"mention user-mention\">@" ++ escapeHtmlL name ++
         strL "</span>") := by
  unfold stepUser at h
  split at h
  · rename_i id n2 hp
    have hn2 := parseUserMention_pos hp
    simp only [] at h
    rw [Option.some.injEq, Prod.mk.injEq, Prod.mk.injEq] at h
    obtain ⟨hpfx, hbody, hn⟩ := h
    refine ⟨hpfx.symm, by omega, ?_⟩
    cases ctx with
    | none => exact Or.inl hbody.symm
    | some g =>
      cases hlk : ctxLookup g.users id with
      | none =>
        refine Or.inl ?_
        rw [← hbody]
        show (match ctxLookup g.users id with
          | some name => strL "<span class=\"mention user-mention\">@" ++ escapeHtmlL name ++
              strL "</span>"
          | none => strL "<span class=\"mention user-mention\">@User</span>") = _
        rw [hlk]
      | some name =>
        refine Or.inr ⟨name, ?_⟩
        rw [← hbody]
        show (match ctxLookup g.users id with
          | some name => strL "<span class=\"mention user-mention\">@" ++ escapeHtmlL name ++
              strL "</span>"
          | none => strL "<span class=\"mention user-mention\">@User</span>") = _
        rw [hlk]
  · cases h

lemma stepChannel_inv {ctx : Option MentionCtx} {flag : Bool} {s pfx body : List Char}
    {n : Nat} (h : stepChannel ctx flag s = some (pfx, body, n)) :
    pfx = [] ∧ 1 ≤ n ∧
      (body = strL "<span class=\"mention channel-mention\">#channel</span>" ∨
       ∃ name, body = strL "<span class=\"mention channel-mention\">#" ++ escapeHtmlL name ++
         strL "</span>") := by
  unfold stepChannel at h
  split at h
  · rename_i id n2 hp
    have hn2 := parseChannelMention_pos hp
    simp only [] at h
    rw [Option.some.injEq, Prod.mk.injEq, Prod.mk.injEq] at h
    obtain ⟨hpfx, hbody, hn⟩ := h
    refine ⟨hpfx.symm, by omega, ?_⟩
    cases ctx with
    | none => exact Or.inl hbody.symm
    | some g =>
      cases hlk : ctxLookup g.channels id with
      | none =>
        refine Or.inl ?_
        rw [← hbody]
        show (match ctxLookup g.channels id with
          | some name => strL "<span class=\"mention channel-mention\">#" ++ escapeHtmlL name ++
              strL "</span>"
          | none => strL "<span class=\"mention channel-mention\">#channel</span>") = _
        rw [hlk]
      | some name =>
        refine Or.inr ⟨name, ?_⟩
        rw [← hbody]
        show (match ctxLookup g.channels id with
          | some name => strL "<span class=\"mention channel-mention\">#" ++ escapeHtmlL name ++
              strL "</span>"
          | none => strL "<span class=\"mention channel-mention\">#channel</span>") = _
        rw [hlk]
  · cases h

lemma stepRole_inv {ctx : Option MentionCtx} {flag : Bool} {s pfx body : List Char}
    {n : Nat} (h : stepRole ctx flag s = some (pfx, body, n)) :
    pfx = [] ∧ 1 ≤ n ∧
      (body = strL "<span class=\"mention role-mention\">@role</span>" ∨
       ∃ name, body = strL "<span class=\"mention role-mention\">@" ++ escapeHtmlL name ++
         strL "</span>") := by
  unfold stepRole at h
  split at h
  · rename_i id n2 hp
    have hn2 := parseRoleMention_pos hp
    simp only [] at h
    rw [Option.some.injEq, Prod.mk.injEq, Prod.mk.injEq] at h
    obtain ⟨hpfx, hbody, hn⟩ := h
    refine ⟨hpfx.symm, by omega, ?_⟩
    cases ctx with
    | none => exact Or.inl hbody.symm
    | some g =>
      cases hlk : ctxLookup g.roles id with
      | none =>
        refine Or.inl ?_
        rw [← hbody]
        show (match ctxLookup g.roles id with
          | some name => strL "<span class=\"mention role-mention\">@" ++ escapeHtmlL name ++
              strL "</span>"
          | none => strL "<span class=\"mention role-mention\">@role</span>") = _
        rw [hlk]
      | some name =>
        refine Or.inr ⟨name, ?_⟩
        rw [← hbody]
        show (match ctxLookup g.roles id with
          | some name => strL "<span class=\"mention role-mention\">@" ++ escapeHtmlL name ++
              strL "</span>"
          | none => strL "<span class=\"mention role-mention\">@role</span>") = _
        rw [hlk]
  · cases h

lemma mention_body_ok {A B : List Char} (name : List Char)
    (hA : hasSub win A = false) (hAne : A ≠ []) (hAhd : A.head? ≠ some '!')
    (hAlast : A.getLast? ≠ some '<')
    (hB : hasSub win B = false) (hBne : B ≠ []) (hBhd : B.head? ≠ some '!')
    (hBlast : B.getLast? ≠ some '<') :
    hasSub win (A ++ escapeHtmlL name ++ B) = false ∧
      (A ++ escapeHtmlL name ++ B) ≠ [] ∧
      (A ++ escapeHtmlL name ++ B).head? ≠ some '!' ∧
      (A ++ escapeHtmlL name ++ B).getLast? ≠ some '<' := by
  refine ⟨?_, ?_, ?_, ?_⟩
  · exact noWin_wrap hA (noWin_of_no_lt _ (escapeHtmlL_no_lt name)) hB hAlast hBhd
  · exact append_ne_nil_left (append_ne_nil_left hAne)
  · rw [head_append_ne (append_ne_nil_left hAne), head_append_ne hAne]
    exact hAhd
  · rw [getLast_append_ne _ hBne]
    exact hBlast

/-! Per-pass window obligations: custom emoji and the per-character passes. -/

lemma digit_ne_lt {c : Char} (h : isAsciiDigit c = true) : c ≠ '<' := by
  intro hc
  subst hc
  exact absurd h (by decide)

lemma stepCustom_inv {cls size : List Char} {flag : Bool} {s pfx body : List Char} {n : Nat}
    (h : stepCustom cls size flag s = some (pfx, body, n)) :
    pfx = [] ∧ 1 ≤ n ∧ ∃ a name id, (∀ c ∈ id, isAsciiDigit c = true) ∧
      body = customEmojiRepl cls size a name id := by
  unfold stepCustom at h
  split at h
  · rename_i a name id n2 hp
    rw [Option.some.injEq, Prod.mk.injEq, Prod.mk.injEq] at h
    obtain ⟨hpfx, hbody, hn⟩ := h
    have hinfo : 1 ≤ n2 ∧ ∀ c ∈ id, isAsciiDigit c = true := by
      unfold parseCustomEmoji at hp
      split at hp
      · simp only [] at hp
        repeat' split at hp
        all_goals
          first
          | (rw [Option.some.injEq, Prod.mk.injEq, Prod.mk.injEq, Prod.mk.injEq] at hp
             obtain ⟨ha, hname, hid, hn2⟩ := hp
             subst hid
             exact ⟨by omega, fun c hc => List.mem_takeWhile_imp hc⟩)
          | cases hp
      · cases hp
    exact ⟨hpfx.symm, by omega, a, name, id, hinfo.2, hbody.symm⟩
  · cases h

lemma customEmojiRepl_ok {cls size : List Char} (a : Bool) (name id : List Char)
    (hcls : ∀ c ∈ cls, c ≠ '<') (hsize : ∀ c ∈ size, c ≠ '<')
    (hid : ∀ c ∈ id, isAsciiDigit c = true) :
    hasSub win (customEmojiRepl cls size a name id) = false ∧
      customEmojiRepl cls size a name id ≠ [] ∧
      (customEmojiRepl cls size a name id).head? ≠ some '!' ∧
      (customEmojiRepl cls size a name id).getLast? ≠ some '<' := by
  have hidlt : ∀ c ∈ id, c ≠ '<' := fun c hc => digit_ne_lt (hid c hc)
  have hext : ∀ c ∈ (if a then strL "gif" else strL "webp"), c ≠ '<' := by
    cases a <;> decide
  have hesc : ∀ c ∈ escapeHtmlL name, c ≠ '<' := escapeHtmlL_no_lt name
  refine ⟨?_, ?_, ?_, ?_⟩
  · unfold customEmojiRepl
    have t1 := noWin_snoc_piece (x := strL "<img class=\"") (by decide) (by decide) hcls
    have t2 := noWin_snoc_piece t1.1 t1.2
      (by decide : ∀ c ∈ strL "\" alt=\":", c ≠ '<')
    have t3 := noWin_snoc_piece t2.1 t2.2 hesc
    have t4 := noWin_snoc_piece t3.1 t3.2
      (by decide : ∀ c ∈ strL ":\" src=\"https://cdn.discordapp.com/emojis/", c ≠ '<')
    have t5 := noWin_snoc_piece t4.1 t4.2 hidlt
    have t6 := noWin_snoc_piece t5.1 t5.2 (by decide : ∀ c ∈ strL ".", c ≠ '<')
    have t7 := noWin_snoc_piece t6.1 t6.2 hext
    have t8 := noWin_snoc_piece t7.1 t7.2
      (by decide : ∀ c ∈ strL "?size=48\" style=\"width: ", c ≠ '<')
    have t9 := noWin_snoc_piece t8.1 t8.2 hsize
    have t10 := noWin_snoc_piece t9.1 t9.2 (by decide : ∀ c ∈ strL "; height: ", c ≠ '<')
    have t11 := noWin_snoc_piece t10.1 t10.2 hsize
    have t12 := noWin_snoc_piece t11.1 t11.2 (by decide : ∀ c ∈ strL ";\" />", c ≠ '<')
    exact t12.1
  · unfold customEmojiRepl
    exact append_ne_nil_left (append_ne_nil_left (append_ne_nil_left (append_ne_nil_left
      (append_ne_nil_left (append_ne_nil_left (append_ne_nil_left (append_ne_nil_left
      (append_ne_nil_left (append_ne_nil_left (append_ne_nil_left
      (append_ne_nil_left (by decide))))))))))))
  · unfold customEmojiRepl
    simp only [List.append_assoc]
    rw [head_append_ne (by decide : strL "<img class=\"" ≠ [])]
    decide
  · unfold customEmojiRepl
    rw [getLast_append_ne _ (by decide : strL ";\" />" ≠ [])]
    decide

lemma noWin_cons_out {c : Char} {rest out : List Char}
    (hs1 : startsL win (c :: rest) = false)
    (hout : hasSub win out = false)
    (hhead : out.head? = some '!' → rest.head? = some '!') :
    hasSub win (c :: out) = false := by
  rw [hasSub]
  have hfw : startsL win (c :: out) = false := by
    cases hx : startsL win (c :: out) with
    | false => rfl
    | true =>
      exfalso
      rw [show win = '<' :: ['!'] from rfl] at hx
      obtain ⟨t2, ht2, hx2⟩ := startsL_cons_elim hx
      rw [List.cons.injEq] at ht2
      obtain ⟨hc, hout2⟩ := ht2
      subst hc
      obtain ⟨t3, ht3, _⟩ := startsL_cons_elim hx2
      have hh : out.head? = some '!' := by
        rw [hout2, ht3]
        rfl
      have hrh := hhead hh
      have hwin : startsL win ('<' :: rest) = true := by
        cases rest with
        | nil => cases hrh
        | cons d r2 =>
          rw [List.head?_cons, Option.some.injEq] at hrh
          subst hrh
          rw [show win = '<' :: ['!'] from rfl, startsL_cons_iff, startsL_cons_iff]
          simp [startsL]
      rw [hwin] at hs1
      cases hs1
  rw [hfw, hout]
  rfl

lemma mapConcat_noWin_master (f : Char → List Char)
    (hf : ∀ c, f c = [c] ∨ (hasSub win (f c) = false ∧ f c ≠ [] ∧
      (f c).head? ≠ some '!' ∧ (f c).getLast? ≠ some '<')) :
    ∀ s, hasSub win s = false →
      hasSub win (mapConcat f s) = false ∧
      ((mapConcat f s).head? = some '!' → s.head? = some '!') := by
  intro s
  induction s with
  | nil =>
    intro _
    exact ⟨rfl, fun h => h⟩
  | cons c t ih =>
    intro hs
    obtain ⟨hs1, hs2⟩ := hasSub_cons_false hs
    obtain ⟨hrec, hhead⟩ := ih hs2
    rw [show mapConcat f (c :: t) = f c ++ mapConcat f t from rfl]
    rcases hf c with hfc | ⟨hw, hne, hhd, hlast⟩
    · rw [hfc]
      rw [show ([c] : List Char) ++ mapConcat f t = c :: mapConcat f t from rfl]
      constructor
      · exact noWin_cons_out hs1 hrec hhead
      · intro h
        rw [List.head?_cons, Option.some.injEq] at h
        subst h
        rfl
    · constructor
      · apply noWin_append _ _ hw hrec
        intro hl
        exact absurd hl hlast
      · intro h
        exfalso
        rw [head_append_ne hne] at h
        exact hhd h

lemma getEmojiUrl_inv {c : Char} {u : List Char} (h : getEmojiUrl c = some u) :
    u = strL "https://cdn.jsdelivr.net/gh/twitter/twemoji@14.0.2/assets/72x72/" ++
      hexStr c.toNat ++ strL ".png" := by
  unfold getEmojiUrl at h
  split at h
  · cases h
  · rw [Option.some.injEq] at h
    exact h.symm

lemma hexStr_no_lt (n : Nat) : ∀ c ∈ hexStr n, c ≠ '<' := by
  intro c hc
  have := hexStrAux_digits (n + 1) n c hc
  intro he
  subst he
  exact absurd this (by decide)

lemma uniEmojiSub_hf {cls size : List Char} (hcls : ∀ c ∈ cls, c ≠ '<')
    (hsize : ∀ c ∈ size, c ≠ '<') :
    ∀ c, uniEmojiSub cls size c = [c] ∨ (hasSub win (uniEmojiSub cls size c) = false ∧
      uniEmojiSub cls size c ≠ [] ∧ (uniEmojiSub cls size c).head? ≠ some '!' ∧
      (uniEmojiSub cls size c).getLast? ≠ some '<') := by
  intro c
  unfold uniEmojiSub
  split
  · rename_i hE
    cases hu : getEmojiUrl c with
    | none => exact Or.inl rfl
    | some u =>
      right
      have hclt : c ≠ '<' := by
        intro he
        subst he
        exact absurd hE (by decide)
      have hult : ∀ d ∈ u, d ≠ '<' := by
        rw [getEmojiUrl_inv hu]
        intro d hd
        rcases List.mem_append.mp hd with h1 | h2
        · rcases List.mem_append.mp h1 with h3 | h4
          · exact (by decide :
              ∀ e ∈ strL "https://cdn.jsdelivr.net/gh/twitter/twemoji@14.0.2/assets/72x72/",
                e ≠ '<') d h3
          · exact hexStr_no_lt c.toNat d h4
        · exact (by decide : ∀ e ∈ strL ".png", e ≠ '<') d h2
      refine ⟨?_, ?_, ?_, ?_⟩
      · have t1 := noWin_snoc_piece (x := strL "<img class=\"") (by decide) (by decide) hcls
        have t2 := noWin_snoc_piece t1.1 t1.2 (by decide : ∀ d ∈ strL "\" alt=\"", d ≠ '<')
        have t3 := noWin_snoc_piece t2.1 t2.2
          (by intro d hd; rw [List.mem_singleton] at hd; subst hd; exact hclt)
        have t4 := noWin_snoc_piece t3.1 t3.2 (by decide : ∀ d ∈ strL "\" src=\"", d ≠ '<')
        have t5 := noWin_snoc_piece t4.1 t4.2 hult
        have t6 := noWin_snoc_piece t5.1 t5.2
          (by decide : ∀ d ∈ strL "\" style=\"width: ", d ≠ '<')
        have t7 := noWin_snoc_piece t6.1 t6.2 hsize
        have t8 := noWin_snoc_piece t7.1 t7.2 (by decide : ∀ d ∈ strL "; height: ", d ≠ '<')
        have t9 := noWin_snoc_piece t8.1 t8.2 hsize
        have t10 := noWin_snoc_piece t9.1 t9.2 (by decide : ∀ d ∈ strL ";\" />", d ≠ '<')
        exact t10.1
      · exact append_ne_nil_left (append_ne_nil_left (append_ne_nil_left (append_ne_nil_left
          (append_ne_nil_left (append_ne_nil_left (append_ne_nil_left (append_ne_nil_left
          (append_ne_nil_left (append_ne_nil_left (by decide))))))))))
      · simp only [List.append_assoc]
        rw [head_append_ne (by decide : strL "<img class=\"" ≠ [])]
        decide
      · rw [getLast_append_ne _ (by decide : strL ";\" />" ≠ [])]
        decide
  · exact Or.inl rfl

lemma brSub_hf : ∀ c, brSub c = [c] ∨ (hasSub win (brSub c) = false ∧ brSub c ≠ [] ∧
    (brSub c).head? ≠ some '!' ∧ (brSub c).getLast? ≠ some '<') := by
  intro c
  unfold brSub
  split
  · exact Or.inr ⟨by decide, by decide, by decide, by decide⟩
  · exact Or.inl rfl

/-! Per-line passes: subtext and headers keep window-freeness. -/

lemma intercalate_eq_joinNl : ∀ (ls : List (List Char)),
    List.intercalate ['\n'] ls = joinNl ls := by
  intro ls
  induction ls with
  | nil => rfl
  | cons l rest ih =>
    cases rest with
    | nil => simp [List.intercalate, List.intersperse, joinNl]
    | cons l2 r2 =>
      have hstep : List.intercalate ['\n'] (l :: l2 :: r2) =
          l ++ ['\n'] ++ List.intercalate ['\n'] (l2 :: r2) := by
        unfold List.intercalate
        rw [show List.intersperse ['\n'] (l :: l2 :: r2) =
            l :: ['\n'] :: List.intersperse ['\n'] (l2 :: r2) from rfl]
        simp
      rw [hstep, ih, show joinNl (l :: l2 :: r2) = l ++ '\n' :: joinNl (l2 :: r2) from rfl]
      simp

lemma mem_joinNl_within : ∀ (ls : List (List Char)) (l : List Char), l ∈ ls →
    l <:+: joinNl ls := by
  intro ls
  induction ls with
  | nil => intro l h; cases h
  | cons a rest ih =>
    intro l h
    rcases List.mem_cons.mp h with rfl | h2
    · cases rest with
      | nil => exact List.infix_refl l
      | cons b r2 => exact ⟨[], '\n' :: joinNl (b :: r2), rfl⟩
    · cases rest with
      | nil => cases h2
      | cons b r2 =>
        refine (ih l h2).trans (List.IsSuffix.isInfix ⟨a ++ ['\n'], ?_⟩)
        rw [show joinNl (a :: b :: r2) = a ++ '\n' :: joinNl (b :: r2) from rfl]
        simp

lemma splitOn_line_within (s l : List Char) (h : l ∈ s.splitOn '\n') : l <:+: s := by
  have hs : joinNl (s.splitOn '\n') = s := by
    rw [← intercalate_eq_joinNl]
    exact List.intercalate_splitOn s '\n'
  rw [← hs]
  exact mem_joinNl_within _ l h

lemma joinNl_map_noWin (f : List Char → List Char)
    (hf : ∀ l, hasSub win l = false → hasSub win (f l) = false) :
    ∀ (ls : List (List Char)), (∀ l ∈ ls, hasSub win l = false) →
      hasSub win (joinNl (ls.map f)) = false := by
  intro ls
  induction ls with
  | nil => intro _; rfl
  | cons a rest ih =>
    intro hmem
    cases rest with
    | nil => exact hf a (hmem a (by simp))
    | cons b r2 =>
      rw [show List.map f (a :: b :: r2) = f a :: f b :: List.map f r2 from rfl]
      rw [show joinNl (f a :: f b :: List.map f r2) =
          f a ++ '\n' :: joinNl (f b :: List.map f r2) from rfl]
      have hrec : hasSub win (joinNl (List.map f (b :: r2))) = false :=
        ih (fun l hl => hmem l (List.mem_cons_of_mem a hl))
      apply noWin_append _ _ (hf a (hmem a (by simp))) ?_ ?_
      · rw [show (f b :: List.map f r2) = List.map f (b :: r2) from rfl]
        rw [hasSub]
        have h1 : startsL win ('\n' :: joinNl (List.map f (b :: r2))) = false := by
          apply startsL_false_of_head (show win.head? = some '<' from rfl)
          intro d hd
          rw [List.head?_cons, Option.some.injEq] at hd
          subst hd
          decide
        rw [h1, hrec]
        rfl
      · intro _
        rw [List.head?_cons]
        decide

lemma mapLines_noWin (f : List Char → List Char)
    (hf : ∀ l, hasSub win l = false → hasSub win (f l) = false)
    (s : List Char) (hs : hasSub win s = false) :
    hasSub win (mapLines f s) = false := by
  unfold mapLines
  rw [intercalate_eq_joinNl]
  exact joinNl_map_noWin f hf _
    (fun l hl => hasSub_false_of_within (splitOn_line_within s l hl) hs)

lemma subtextLine_noWin : ∀ l, hasSub win l = false →
    hasSub win (subtextLine l) = false := by
  intro l hl
  unfold subtextLine
  split
  · simp only []
    split
    · apply noWin_wrap (by decide) ?_ (by decide) (by decide) (by decide)
      apply hasSub_false_of_within ?_ hl
      exact (List.drop_suffix _ _).isInfix.trans (List.drop_suffix _ l).isInfix
    · exact hl
  · exact hl

lemma headerLine_noWin (k : Nat) (lvl : List Char) (hlvl : ∀ c ∈ lvl, c ≠ '<') :
    ∀ l, hasSub win l = false → hasSub win (headerLine k lvl l) = false := by
  intro l hl
  unfold headerLine
  split
  · simp only []
    split
    · have hcontent : hasSub win ((l.drop k).drop
          ((l.drop k).takeWhile isLineWs).length) = false := by
        apply hasSub_false_of_within ?_ hl
        exact (List.drop_suffix _ _).isInfix.trans (List.drop_suffix _ l).isInfix
      have t1 := noWin_snoc_piece (x := strL "<h") (by decide) (by decide) hlvl
      have t2 := noWin_snoc_piece t1.1 t1.2
        (by decide : ∀ c ∈ strL " class=\"header-", c ≠ '<')
      have t3 := noWin_snoc_piece t2.1 t2.2 hlvl
      have hB : hasSub win (strL "\">") = false := by decide
      have t4 : hasSub win ((((strL "<h" ++ lvl) ++ strL " class=\"header-") ++ lvl) ++
          strL "\">") = false := by
        apply noWin_append _ _ t3.1 hB
        intro hlast
        exact absurd hlast t3.2
      have t4last : ((((strL "<h" ++ lvl) ++ strL " class=\"header-") ++ lvl) ++
          strL "\">").getLast? ≠ some '<' := by
        rw [getLast_append_ne _ (by decide : strL "\">" ≠ [])]
        decide
      have t5 : hasSub win (((((strL "<h" ++ lvl) ++ strL " class=\"header-") ++ lvl) ++
          strL "\">") ++ (l.drop k).drop ((l.drop k).takeWhile isLineWs).length) = false := by
        apply noWin_append _ _ t4 hcontent
        intro hlast
        exact absurd hlast t4last
      have t6 : hasSub win ((((((strL "<h" ++ lvl) ++ strL " class=\"header-") ++ lvl) ++
          strL "\">") ++ (l.drop k).drop ((l.drop k).takeWhile isLineWs).length) ++
          strL "</h") = false := by
        apply noWin_append _ _ t5 (by decide)
        intro _
        decide
      have t6last : ((((((strL "<h" ++ lvl) ++ strL " class=\"header-") ++ lvl) ++
          strL "\">") ++ (l.drop k).drop ((l.drop k).takeWhile isLineWs).length) ++
          strL "</h").getLast? ≠ some '<' := by
        rw [getLast_append_ne _ (by decide : strL "</h" ≠ [])]
        decide
      have t7 := noWin_snoc_piece t6 t6last hlvl
      have t8 := noWin_snoc_piece t7.1 t7.2 (by decide : ∀ c ∈ strL ">", c ≠ '<')
      exact t8.1
    · exact hl
  · exact hl

/-! The fence loop keeps window-freeness. -/

lemma intercalate_drop_one_within (code : List Char) :
    List.intercalate ['\n'] ((code.splitOn '\n').drop 1) <:+: code := by
  rw [intercalate_eq_joinNl]
  cases hsp : code.splitOn '\n' with
  | nil =>
    rw [show (([] : List (List Char)).drop 1) = [] from rfl]
    exact List.nil_infix
  | cons l0 rest =>
    rw [show ((l0 :: rest).drop 1) = rest from rfl]
    have hcode : joinNl (l0 :: rest) = code := by
      rw [← hsp, ← intercalate_eq_joinNl]
      exact List.intercalate_splitOn code '\n'
    rw [← hcode]
    cases rest with
    | nil => exact List.nil_infix
    | cons l1 r2 =>
      exact List.IsSuffix.isInfix ⟨l0 ++ ['\n'], by
        rw [show joinNl (l0 :: l1 :: r2) = l0 ++ '\n' :: joinNl (l1 :: r2) from rfl]
        simp⟩

lemma jsTrim_within (s : List Char) : jsTrim s <:+: s := by
  unfold jsTrim
  have h1 : s.dropWhile isJsSpace <:+ s := List.dropWhile_suffix _
  have h2 : (s.dropWhile isJsSpace).reverse.dropWhile isJsSpace <:+
      (s.dropWhile isJsSpace).reverse := List.dropWhile_suffix _
  have h3 : ((s.dropWhile isJsSpace).reverse.dropWhile isJsSpace).reverse <+:
      s.dropWhile isJsSpace := by
    rw [← List.reverse_suffix]
    simpa using h2
  exact h3.isInfix.trans h1.isInfix

lemma renderCodeBlock_ok (code : List Char) (hc : hasSub win code = false) :
    hasSub win (renderCodeBlock code) = false ∧ renderCodeBlock code ≠ [] ∧
      (renderCodeBlock code).head? ≠ some '!' ∧
      (renderCodeBlock code).getLast? ≠ some '<' := by
  have hbuild : ∀ (A mid B : List Char), hasSub win A = false → A ≠ [] →
      A.head? ≠ some '!' → A.getLast? ≠ some '<' → hasSub win mid = false →
      hasSub win B = false → B ≠ [] → B.head? ≠ some '!' → B.getLast? ≠ some '<' →
      hasSub win (A ++ mid ++ B) = false ∧ A ++ mid ++ B ≠ [] ∧
        (A ++ mid ++ B).head? ≠ some '!' ∧
        (A ++ mid ++ B).getLast? ≠ some '<' := by
    intro A mid B hA hAne hAhd hAlast hmid hB hBne hBhd hBlast
    refine ⟨noWin_wrap hA hmid hB hAlast hBhd,
      append_ne_nil_left (append_ne_nil_left hAne), ?_, ?_⟩
    · rw [head_append_ne (append_ne_nil_left hAne), head_append_ne hAne]
      exact hAhd
    · rw [getLast_append_ne _ hBne]
      exact hBlast
  unfold renderCodeBlock
  simp only []
  split
  · -- language branch
    have hesc : hasSub win (strL "<pre class=\"code-block\" data-language=\"" ++
        escapeHtmlL (jsTrim ((code.splitOn '\n').headD []))) = false := by
      apply noWin_append _ _ (by decide)
        (noWin_of_no_lt _ (escapeHtmlL_no_lt _))
      intro hlast
      exact absurd hlast (by decide)
    have hesclast : (strL "<pre class=\"code-block\" data-language=\"" ++
        escapeHtmlL (jsTrim ((code.splitOn '\n').headD []))).getLast? ≠ some '<' := by
      cases he : escapeHtmlL (jsTrim ((code.splitOn '\n').headD [])) with
      | nil =>
        rw [List.append_nil]
        decide
      | cons e es =>
        rw [← he, getLast_append_ne _ (by rw [he]; simp)]
        intro hl
        exact escapeHtmlL_no_lt _ '<' (mem_of_getLast _ hl) rfl
    have hA2 : hasSub win ((strL "<pre class=\"code-block\" data-language=\"" ++
        escapeHtmlL (jsTrim ((code.splitOn '\n').headD []))) ++ strL "\"><code>") =
        false := by
      apply noWin_append _ _ hesc (by decide)
      intro _
      decide
    have hA2last : ((strL "<pre class=\"code-block\" data-language=\"" ++
        escapeHtmlL (jsTrim ((code.splitOn '\n').headD []))) ++
        strL "\"><code>").getLast? ≠ some '<' := by
      rw [getLast_append_ne _ (by decide : strL "\"><code>" ≠ [])]
      decide
    have htrim : hasSub win (jsTrim (List.intercalate ['\n']
        ((code.splitOn '\n').drop 1))) = false := by
      apply hasSub_false_of_within ?_ hc
      exact (jsTrim_within _).trans (intercalate_drop_one_within code)
    have hmain := hbuild
      ((strL "<pre class=\"code-block\" data-language=\"" ++
        escapeHtmlL (jsTrim ((code.splitOn '\n').headD []))) ++ strL "\"><code>")
      (jsTrim (List.intercalate ['\n'] ((code.splitOn '\n').drop 1)))
      (strL "</code></pre>") hA2
      (append_ne_nil_left (append_ne_nil_left (by decide)))
      (by
        rw [head_append_ne (append_ne_nil_left (by decide)),
            head_append_ne (by decide : strL "<pre class=\"code-block\" data-language=\"" ≠ [])]
        decide)
      hA2last htrim (by decide) (by decide) (by decide) (by decide)
    exact hmain
  · -- plain branch
    have htrim : hasSub win (jsTrim code) = false :=
      hasSub_false_of_within (jsTrim_within code) hc
    exact hbuild (strL "<pre class=\"code-block\"><code>") (jsTrim code)
      (strL "</code></pre>") (by decide) (by decide) (by decide) (by decide) htrim
      (by decide) (by decide) (by decide) (by decide)

lemma fenceLoopF_noWin : ∀ (fuel : Nat) (s : List Char), hasSub win s = false →
    hasSub win (fenceLoopF fuel s) = false := by
  intro fuel
  induction fuel with
  | zero => intro s hs; exact hs
  | succ f ih =>
    intro s hs
    cases h1 : findSub (strL "```") s with
    | none =>
      rw [fenceLoopF_eq_none f s h1]
      exact hs
    | some i =>
      cases h2 : findSub (strL "```") (s.drop (i + 3)) with
      | none =>
        rw [fenceLoopF_eq_open f s i h1 h2]
        have hpre : hasSub win (s.take i) = false :=
          hasSub_false_of_within (List.take_prefix i s).isInfix hs
        have hrest : hasSub win (s.drop (i + 3)) = false :=
          hasSub_false_of_within (List.drop_suffix (i + 3) s).isInfix hs
        apply noWin_append _ _ ?_ hrest ?_
        · apply noWin_append _ _ hpre (by decide)
          intro _
          decide
        · intro hlast
          rw [getLast_append_ne _ (by decide : strL "```" ≠ [])] at hlast
          exact absurd hlast (by decide)
      | some j =>
        rw [fenceLoopF_eq_close f s i j h1 h2]
        have hpre : hasSub win (s.take i) = false :=
          hasSub_false_of_within (List.take_prefix i s).isInfix hs
        have hcode : hasSub win ((s.drop (i + 3)).take j) = false := by
          apply hasSub_false_of_within ?_ hs
          exact (List.take_prefix _ _).isInfix.trans (List.drop_suffix _ s).isInfix
        have hrest : hasSub win ((s.drop (i + 3)).drop (j + 3)) = false := by
          apply hasSub_false_of_within ?_ hs
          exact (List.drop_suffix _ _).isInfix.trans (List.drop_suffix _ s).isInfix
        obtain ⟨hrcb, hrcbne, hrcbhd, hrcblast⟩ := renderCodeBlock_ok _ hcode
        have hrec := ih _ hrest
        apply noWin_append _ _ ?_ hrec ?_
        · apply noWin_append _ _ hpre hrcb
          intro _
          exact hrcbhd
        · intro hlast
          rw [getLast_append_ne _ hrcbne] at hlast
          exact absurd hlast hrcblast


/-! Assembling the pipeline: every pass after the strip keeps window-freeness. -/

lemma gsub_noWin_of_obl (step : GsubStep)
    (P1 : ∀ flag s pfx body n, step flag s = some (pfx, body, n) → 1 ≤ n)
    (P2 : ∀ flag s pfx body n, step flag s = some (pfx, body, n) → pfx = [])
    (P3 : ∀ flag s pfx body n, step flag s = some (pfx, body, n) → hasSub win s = false →
      hasSub win body = false ∧ body ≠ [] ∧ body.head? ≠ some '!' ∧
        body.getLast? ≠ some '<')
    (s : List Char) (hs : hasSub win s = false) : hasSub win (gsub step s) = false := by
  unfold gsub
  exact (gsub_noWin_master step P1 P2 P3 s.length true s hs).1

lemma stepUser_noWin (ctx : Option MentionCtx) :
    ∀ (flag : Bool) (s pfx body : List Char) (n : Nat),
      stepUser ctx flag s = some (pfx, body, n) → hasSub win s = false →
      hasSub win body = false ∧ body ≠ [] ∧ body.head? ≠ some '!' ∧
        body.getLast? ≠ some '<' := by
  intro flag s pfx body n h _
  rcases (stepUser_inv h).2.2 with hb | ⟨name, hb⟩
  · subst hb
    exact ⟨by decide, by decide, by decide, by decide⟩
  · subst hb
    exact mention_body_ok name (by decide) (by decide) (by decide) (by decide)
      (by decide) (by decide) (by decide) (by decide)

lemma stepChannel_noWin (ctx : Option MentionCtx) :
    ∀ (flag : Bool) (s pfx body : List Char) (n : Nat),
      stepChannel ctx flag s = some (pfx, body, n) → hasSub win s = false →
      hasSub win body = false ∧ body ≠ [] ∧ body.head? ≠ some '!' ∧
        body.getLast? ≠ some '<' := by
  intro flag s pfx body n h _
  rcases (stepChannel_inv h).2.2 with hb | ⟨name, hb⟩
  · subst hb
    exact ⟨by decide, by decide, by decide, by decide⟩
  · subst hb
    exact mention_body_ok name (by decide) (by decide) (by decide) (by decide)
      (by decide) (by decide) (by decide) (by decide)

lemma stepRole_noWin (ctx : Option MentionCtx) :
    ∀ (flag : Bool) (s pfx body : List Char) (n : Nat),
      stepRole ctx flag s = some (pfx, body, n) → hasSub win s = false →
      hasSub win body = false ∧ body ≠ [] ∧ body.head? ≠ some '!' ∧
        body.getLast? ≠ some '<' := by
  intro flag s pfx body n h _
  rcases (stepRole_inv h).2.2 with hb | ⟨name, hb⟩
  · subst hb
    exact ⟨by decide, by decide, by decide, by decide⟩
  · subst hb
    exact mention_body_ok name (by decide) (by decide) (by decide) (by decide)
      (by decide) (by decide) (by decide) (by decide)

lemma stepCustom_noWin {cls size : List Char} (hcls : ∀ c ∈ cls, c ≠ '<')
    (hsize : ∀ c ∈ size, c ≠ '<') :
    ∀ (flag : Bool) (s pfx body : List Char) (n : Nat),
      stepCustom cls size flag s = some (pfx, body, n) → hasSub win s = false →
      hasSub win body = false ∧ body ≠ [] ∧ body.head? ≠ some '!' ∧
        body.getLast? ≠ some '<' := by
  intro flag s pfx body n h _
  obtain ⟨-, -, a, name, id, hid, hb⟩ := stepCustom_inv h
  subst hb
  exact customEmojiRepl_ok a name id hcls hsize hid

lemma pipeline_noWin (s : List Char) (hs : hasSub win s = false)
    (cls size : List Char) (hcls : ∀ c ∈ cls, c ≠ '<') (hsize : ∀ c ∈ size, c ≠ '<')
    (ctx : Option MentionCtx) :
    hasSub win (gsub (stepRole ctx) (gsub (stepChannel ctx) (gsub (stepUser ctx)
      (mapConcat brSub
      (gsub (stepPair (strL "~~") (strL "<del>") (strL "</del>"))
      (gsub (stepPair ['_'] (strL "<em>") (strL "</em>"))
      (gsub (stepPair ['*'] (strL "<em>") (strL "</em>"))
      (gsub (stepPair (strL "__") (strL "<strong>") (strL "</strong>"))
      (gsub (stepPair (strL "**") (strL "<strong>") (strL "</strong>"))
      (mapLines (headerLine 1 (strL "1"))
      (mapLines (headerLine 2 (strL "2"))
      (mapLines (headerLine 3 (strL "3"))
      (mapLines subtextLine
      (gsub stepInlineCode
      (fenceLoopF
        ((mapConcat (uniEmojiSub cls size) (gsub (stepCustom cls size) s)).length + 1)
        (mapConcat (uniEmojiSub cls size) (gsub (stepCustom cls size) s)))))))))))))))))
      = false := by
  have h7 : hasSub win (gsub (stepCustom cls size) s) = false :=
    gsub_noWin_of_obl _ (fun _ _ _ _ _ h => (stepCustom_inv h).2.1)
      (fun _ _ _ _ _ h => (stepCustom_inv h).1) (stepCustom_noWin hcls hsize) s hs
  have h8 : hasSub win (mapConcat (uniEmojiSub cls size)
      (gsub (stepCustom cls size) s)) = false :=
    (mapConcat_noWin_master _ (uniEmojiSub_hf hcls hsize) _ h7).1
  have h9 := fenceLoopF_noWin
    ((mapConcat (uniEmojiSub cls size) (gsub (stepCustom cls size) s)).length + 1) _ h8
  have h10 := gsub_noWin_of_obl stepInlineCode stepInlineCode_noWin.1
    stepInlineCode_noWin.2.1 stepInlineCode_noWin.2.2 _ h9
  have h11 := mapLines_noWin subtextLine subtextLine_noWin _ h10
  have h12 := mapLines_noWin (headerLine 3 (strL "3"))
    (headerLine_noWin 3 (strL "3") (by decide)) _ h11
  have h13 := mapLines_noWin (headerLine 2 (strL "2"))
    (headerLine_noWin 2 (strL "2") (by decide)) _ h12
  have h14 := mapLines_noWin (headerLine 1 (strL "1"))
    (headerLine_noWin 1 (strL "1") (by decide)) _ h13
  have hsp1 := @stepPair_noWin (strL "**") (strL "<strong>") (strL "</strong>")
    (by decide) (by decide) (by decide) (by decide) (by decide)
    (by decide) (by decide) (by decide) (by decide)
  have h15 := gsub_noWin_of_obl _ hsp1.1 hsp1.2.1 hsp1.2.2 _ h14
  have hsp2 := @stepPair_noWin (strL "__") (strL "<strong>") (strL "</strong>")
    (by decide) (by decide) (by decide) (by decide) (by decide)
    (by decide) (by decide) (by decide) (by decide)
  have h16 := gsub_noWin_of_obl _ hsp2.1 hsp2.2.1 hsp2.2.2 _ h15
  have hsp3 := @stepPair_noWin ['*'] (strL "<em>") (strL "</em>")
    (by decide) (by decide) (by decide) (by decide) (by decide)
    (by decide) (by decide) (by decide) (by decide)
  have h17 := gsub_noWin_of_obl _ hsp3.1 hsp3.2.1 hsp3.2.2 _ h16
  have hsp4 := @stepPair_noWin ['_'] (strL "<em>") (strL "</em>")
    (by decide) (by decide) (by decide) (by decide) (by decide)
    (by decide) (by decide) (by decide) (by decide)
  have h18 := gsub_noWin_of_obl _ hsp4.1 hsp4.2.1 hsp4.2.2 _ h17
  have hsp5 := @stepPair_noWin (strL "~~") (strL "<del>") (strL "</del>")
    (by decide) (by decide) (by decide) (by decide) (by decide)
    (by decide) (by decide) (by decide) (by decide)
  have h19 := gsub_noWin_of_obl _ hsp5.1 hsp5.2.1 hsp5.2.2 _ h18
  have h20 := (mapConcat_noWin_master _ brSub_hf _ h19).1
  have h21 := gsub_noWin_of_obl _ (fun _ _ _ _ _ h => (stepUser_inv h).2.1)
    (fun _ _ _ _ _ h => (stepUser_inv h).1) (stepUser_noWin ctx) _ h20
  have h22 := gsub_noWin_of_obl _ (fun _ _ _ _ _ h => (stepChannel_inv h).2.1)
    (fun _ _ _ _ _ h => (stepChannel_inv h).1) (stepChannel_noWin ctx) _ h21
  exact gsub_noWin_of_obl _ (fun _ _ _ _ _ h => (stepRole_inv h).2.1)
    (fun _ _ _ _ _ h => (stepRole_inv h).1) (stepRole_noWin ctx) _ h22

/-- C10: for every input string, the string returned by parseMarkdown never
contains the internal sentinel marker "<!--PROCESSED_URL-->".  The initial
HTML-escaping pass rewrites every user-typed angle bracket, so a marker typed
in user text cannot survive literally; the URL-rewriting passes only ever
insert the sentinel as a complete marker not preceded by a raw "<"; the strip
pass removes every such marker, leaving a string with no "<!" window at all;
and every later pass (emoji, code, subtext, headers, emphasis, line breaks,
mentions) preserves the absence of that window, which every occurrence of the
marker would have to open with. -/
theorem parseMarkdown_no_marker (content : List Char) (isReply : Bool)
    (ctx : Option MentionCtx) :
    hasSub marker (parseMarkdownL content isReply ctx) = false := by
  have hcls : ∀ c ∈ (if isReply then strL "emoji reply-emoji"
      else if !emojiOnlyTest (jsTrim content) then strL "emoji text-emoji"
      else strL "emoji large-emoji"), c ≠ '<' := by
    cases isReply <;> cases emojiOnlyTest (jsTrim content) <;> decide
  have hsize : ∀ c ∈ (if isReply then strL "16px"
      else if !emojiOnlyTest (jsTrim content) then strL "18px"
      else strL "45px"), c ≠ '<' := by
    cases isReply <;> cases emojiOnlyTest (jsTrim content) <;> decide
  have key : hasSub win (parseMarkdownL content isReply ctx) = false := by
    unfold parseMarkdownL
    simp only []
    exact pipeline_noWin _ (phaseA_noWin content) _ _ hcls hsize ctx
  cases hm : hasSub marker (parseMarkdownL content isReply ctx) with
  | false => rfl
  | true =>
    rw [hasSub_win_of_marker _ hm] at key
    cases key

end DiscordRender
